import Mathlib

/-!
# Servo_Motor: a shallow embedding of `Servo_Motor.h` / `Servo_Motor.cpp`

The library targets AVR boards (it programs Timer2 through `TCCR2B` / `TIMSK2`), so
`int` is 16 bits wide, `unsigned long` is 32 bits wide and `uint8_t` is 8 bits wide.

* `uint8_t` fields are `Nat` values written through `toUint8` (reduction modulo `2^8`);
* `int` values are `Int`; results of `int` arithmetic are wrapped by `toInt16`;
* `unsigned long` timestamps are `Nat`, subtracted modulo `2^32` by `ulongSub`;
* the value returned by `millis()` is an input (`now`) of every operation that reads the clock.
  The reads made during one call are taken to return the same value: the pulse of
  `writeMicroseconds` is emitted with interrupts masked, so the millisecond counter does not
  advance between the test and the store of the timestamp;
* calls into the Arduino core that act on the outside world are recorded as a list of `Event`s.
-/

namespace Servo

/-! ## Machine integers -/

/-- Conversion of an `int` to `uint8_t`: reduction modulo `2^8`. -/
def toUint8 (x : Int) : Nat := (x % 256).toNat

/-- Conversion of an `int` to `unsigned int` (16 bits on AVR): reduction modulo `2^16`. -/
def toUint16 (x : Int) : Nat := (x % 65536).toNat

/-- Wrapping of a mathematical integer into the 16-bit two's complement range of `int`. -/
def toInt16 (x : Int) : Int := (x + 32768) % 65536 - 32768

/-- Subtraction of two `unsigned long` values: difference modulo `2^32`. -/
def ulongSub (a b : Nat) : Nat := (a % 4294967296 + 4294967296 - b % 4294967296) % 4294967296

/-! ## Arduino core -/

/-- Calls into the Arduino core that act on the outside world, in program order. -/
inductive Event where
  | pinModeOutput (pin : Nat)
  | digitalWrite (pin : Nat) (high : Bool)
  | delayMicroseconds (us : Nat)
  | noInterrupts
  | interrupts
  deriving DecidableEq, Repr

/-- Modelled from the spec: the function `map` of the Arduino core, which is not part of the
repository. The spec gives the mapping as `width = minUs + angle * (maxUs - minUs) / 180`; the
core computes `(x - in_min) * (out_max - out_min) / (in_max - in_min) + out_min` on `long`,
with the division of C (truncation towards zero). For a 16-bit `x` and the constants used by
`write` the 32-bit `long` arithmetic cannot overflow. -/
def arduinoMap (x in_min in_max out_min out_max : Int) : Int :=
  Int.tdiv ((x - in_min) * (out_max - out_min)) (in_max - in_min) + out_min

/-! ## `Servo_Motor.h` -/

/-- The enumeration `SweepType`. -/
inductive SweepType where
  | Reverse
  | SkipReverse
  | Single
  deriving DecidableEq, Repr

/-- The private enumeration `ServoMotor::ServoRange`. -/
inductive ServoRange where
  | AboveRange
  | BelowRange
  | InRange
  deriving DecidableEq, Repr

/-- The constant `MIN_USECONDS = 5e2`. -/
def MIN_USECONDS : Int := 500

/-- The constant `MAX_USECONDS = 24e2`. -/
def MAX_USECONDS : Int := 2400

/-- The constant `FULL_RANGE`. -/
def FULL_RANGE : Int := 180

/-- The function-local constant `PULSE_DELAY` of `writeMicroseconds`. -/
def PULSE_DELAY : Nat := 21

/-- The data members of `class ServoMotor`. -/
structure ServoMotor where
  /-- Member `volatile unsigned long pulseTimer`. -/
  pulseTimer : Nat
  /-- Member `uint8_t controlPin`. -/
  controlPin : Nat
  /-- Member `uint8_t lowConstraint`. -/
  lowConstraint : Nat
  /-- Member `uint8_t highConstraint`. -/
  highConstraint : Nat
  /-- Member `volatile int currAngle`. -/
  currAngle : Int
  /-- Member `volatile bool sweepMode`. -/
  sweepMode : Bool
  /-- Member `volatile bool sweepClockwise`. -/
  sweepClockwise : Bool
  /-- Member `SweepType sweepType`. -/
  sweepType : SweepType
  /-- Member `uint8_t sweepStepSize`. -/
  sweepStepSize : Nat
  /-- Member `uint8_t sweepStart`. -/
  sweepStart : Nat
  /-- Member `uint8_t sweepStop`. -/
  sweepStop : Nat
  deriving DecidableEq, Repr

namespace ServoMotor

/-- Storage of a unit whose bytes are all zero (an object with static storage duration before its
constructor runs). -/
def zeroed : ServoMotor :=
  { pulseTimer := 0, controlPin := 0, lowConstraint := 0, highConstraint := 0, currAngle := 0,
    sweepMode := false, sweepClockwise := false, sweepType := SweepType.Reverse,
    sweepStepSize := 0, sweepStart := 0, sweepStop := 0 }

/-- The constructor `ServoMotor::ServoMotor()`, run on the storage `mem` of the new object: it
assigns `controlPin = -1` (converted to `uint8_t`), `pulseTimer = 0` and `sweepMode = false`, and
leaves every other member as the storage held it. -/
def construct (mem : ServoMotor) : ServoMotor :=
  { mem with controlPin := toUint8 (-1), pulseTimer := 0, sweepMode := false }

/-- The method `isAttached()`: `return controlPin != -1;`. The `uint8_t` member is promoted to
`int` before the comparison. -/
def isAttached (s : ServoMotor) : Bool :=
  decide ((s.controlPin : Int) ≠ -1)

/-- The method `writeMicroseconds(int highLength)`, with `now` the value of `millis()`. -/
def writeMicroseconds (s : ServoMotor) (highLength : Int) (now : Nat) :
    ServoMotor × List Event :=
  if !s.isAttached then (s, [])
  else if ulongSub now s.pulseTimer > PULSE_DELAY then
    ({ s with pulseTimer := now },
     [Event.noInterrupts,
      Event.digitalWrite s.controlPin true,
      Event.delayMicroseconds (toUint16 highLength),
      Event.digitalWrite s.controlPin false,
      Event.interrupts])
  else (s, [])

/-- The argument that `write(int)` passes to `writeMicroseconds`:
`map(degrees, 0, FULL_RANGE, MIN_USECONDS, MAX_USECONDS)`, converted from `long` to `int`. -/
def pulseWidth (degrees : Int) : Int :=
  toInt16 (arduinoMap degrees 0 FULL_RANGE MIN_USECONDS MAX_USECONDS)

/-- The method `write(int degrees)`, with `now` the value of `millis()`. -/
def write (s : ServoMotor) (degrees : Int) (now : Nat) : ServoMotor × List Event :=
  if !s.isAttached then (s, [])
  else
    let degrees : Int :=
      if degrees > (s.highConstraint : Int) then (s.highConstraint : Int)
      else if degrees < (s.lowConstraint : Int) then (s.lowConstraint : Int)
      else degrees
    let r := s.writeMicroseconds (pulseWidth degrees) now
    ({ r.1 with currAngle := degrees }, r.2)

/-- The overload `write()` without argument: `write(currAngle);`. -/
def writeNoArg (s : ServoMotor) (now : Nat) : ServoMotor × List Event :=
  s.write s.currAngle now

/-- The method `read()`: `return currAngle;`. -/
def read (s : ServoMotor) : Int := s.currAngle

/-- The method `attach(int controlPin, int lowConstraint, int highConstraint)`, with `now` the
value of `millis()`. The first component is the value returned: `some false` on the rejecting
`return false;`, and `none` when control reaches the closing brace of the function, where no
`return` statement is executed and the caller receives no defined value. -/
def attach (s : ServoMotor) (controlPin lowConstraint highConstraint : Int) (now : Nat) :
    Option Bool × ServoMotor × List Event :=
  let swap : Bool := decide (highConstraint < lowConstraint)
  let temp : Int := (toUint8 highConstraint : Int)
  let highC : Int := if swap then lowConstraint else highConstraint
  let lowC : Int := if swap then temp else lowConstraint
  if controlPin < 0 ∨ lowC < 0 ∨ lowC > 180 ∨ highC < 0 ∨ highC > 180 then
    (some false, s, [])
  else
    let s1 : ServoMotor :=
      { s with controlPin := toUint8 controlPin,
               lowConstraint := toUint8 lowC,
               highConstraint := toUint8 highC }
    let r := s1.write 0 now
    (none, r.1, Event.pinModeOutput (toUint8 controlPin) :: r.2)

/-- The method `disableSweep()`. -/
def disableSweep (s : ServoMotor) : ServoMotor := { s with sweepMode := false }

/-- The method `isSweeping()`. -/
def isSweeping (s : ServoMotor) : Bool := s.sweepMode

/-- The private method `inRange(uint8_t low, uint8_t high)`. -/
def inRange (s : ServoMotor) (low high : Nat) : ServoRange :=
  let swap : Bool := decide (low > high)
  let high1 : Nat := if swap then low else high
  let low1 : Nat := if swap then high else low
  if s.currAngle > (high1 : Int) then ServoRange.AboveRange
  else if s.currAngle < (low1 : Int) then ServoRange.BelowRange
  else ServoRange.InRange

/-- The method `sweep()`, with `now` the value of `millis()`. -/
def sweep (s : ServoMotor) (now : Nat) : ServoMotor × List Event :=
  if !s.isSweeping then (s, [])
  else
    let s1 : ServoMotor :=
      { s with currAngle :=
          toInt16 (s.currAngle +
            (if s.sweepClockwise then (s.sweepStepSize : Int) else -(s.sweepStepSize : Int))) }
    match s1.sweepType with
    | SweepType.Reverse =>
      let range := s1.inRange s1.sweepStart s1.sweepStop
      if range = ServoRange.AboveRange then ({ s1 with sweepClockwise := false }, [])
      else if range = ServoRange.BelowRange then ({ s1 with sweepClockwise := true }, [])
      else (s1, [])
    | SweepType.SkipReverse =>
      if s1.inRange s1.sweepStart s1.sweepStop ≠ ServoRange.InRange then
        ({ s1 with currAngle := (s1.sweepStart : Int) }, [])
      else (s1, [])
    | SweepType.Single =>
      if s1.inRange s1.sweepStart s1.sweepStop ≠ ServoRange.InRange then
        s1.disableSweep.write (s1.sweepStop : Int) now
      else (s1, [])

/-- The statements of `enableSweep` that follow its call of `enableCallback()`, with `now` the
value of `millis()`. -/
def enableSweepBody (s : ServoMotor) (sweepStepSize start stop : Int) (sweepType : SweepType)
    (now : Nat) : ServoMotor × List Event :=
  let s1 : ServoMotor :=
    { s with sweepClockwise := decide (start < stop),
             sweepStart := toUint8 start,
             sweepStop := toUint8 stop }
  let s2 : ServoMotor :=
    if s1.sweepStart < s1.lowConstraint then { s1 with sweepStart := s1.lowConstraint } else s1
  let s3 : ServoMotor :=
    if s2.sweepStart > s2.highConstraint then { s2 with sweepStart := s2.highConstraint } else s2
  let s4 : ServoMotor :=
    if s3.sweepStop < s3.lowConstraint then { s3 with sweepStop := s3.lowConstraint } else s3
  let s5 : ServoMotor :=
    if s4.sweepStop > s4.highConstraint then { s4 with sweepStop := s4.highConstraint } else s4
  let s6 : ServoMotor :=
    { s5 with sweepStepSize := toUint8 sweepStepSize, sweepType := sweepType }
  let s7 : ServoMotor := { s6 with currAngle := (s6.sweepStart : Int), sweepMode := true }
  s7.writeNoArg now

/-- One service of a unit by the timer interrupt handler: `sweep();` followed by `write();`. -/
def tick (s : ServoMotor) (now : Nat) : ServoMotor × List Event :=
  let r1 := s.sweep now
  let r2 := r1.1.writeNoArg now
  (r2.1, r1.2 ++ r2.2)

/-- The unit after a succession of services, one per clock value of the list. -/
def ticks (s : ServoMotor) : List Nat → ServoMotor
  | [] => s
  | now :: rest => ticks (s.tick now).1 rest

end ServoMotor

/-! ## `Servo_Motor.cpp`: file-scope state, registry and interrupt handler -/

/-- The constant `MAX_SERVOS`. -/
def MAX_SERVOS : Nat := 4

/-- The function-local constant `DELAY` of the interrupt handler. -/
def DELAY : Nat := 30

/-- The bit number `TOIE2` of `TIMSK2`, from the AVR device header. -/
def TOIE2 : Nat := 0

/-- The state the program runs on: the `ServoMotor` objects, the file-scope variables of
`Servo_Motor.cpp`, the two Timer2 registers it touches, and the events produced so far.
A pointer `ServoMotor*` is the index of the object in `objs`; the null pointer is `none`. -/
structure World where
  /-- The `ServoMotor` objects of the program. -/
  objs : List ServoMotor
  /-- The array `static ServoMotor *callback_servos[MAX_SERVOS]`. -/
  callback_servos : List (Option Nat)
  /-- The variable `static uint8_t last_servo`. -/
  last_servo : Nat
  /-- The variable `static volatile unsigned long timer` of the interrupt handler. -/
  timer : Nat
  /-- The 8-bit register `TCCR2B`. -/
  TCCR2B : Nat
  /-- The 8-bit register `TIMSK2`. -/
  TIMSK2 : Nat
  /-- The calls into the Arduino core made so far, oldest first. -/
  trace : List Event
  deriving DecidableEq, Repr

namespace World

/-- The state at program start: zero-initialised statics (an array of null pointers,
`last_servo = 0`, `timer = 0`), the given objects and register contents, and no event yet. -/
def start (objs : List ServoMotor) (tccr2b timsk2 : Nat) : World :=
  { objs := objs, callback_servos := List.replicate MAX_SERVOS none, last_servo := 0,
    timer := 0, TCCR2B := tccr2b, TIMSK2 := timsk2, trace := [] }

/-- The registry is well formed: the array has its `MAX_SERVOS` slots, `last_servo` does not
exceed them, and every slot below `last_servo` points to an object. -/
def WF (w : World) : Prop :=
  w.callback_servos.length = MAX_SERVOS ∧ w.last_servo ≤ MAX_SERVOS ∧
  ∀ i, i < w.last_servo → ∃ p, w.callback_servos[i]? = some (some p) ∧ p < w.objs.length

/-- The private method `enableTimer()`. In `TCCR2B & B00000111 == 0` the comparison is evaluated
first (`==` binds tighter than `&`), and its `int` result is the right operand of `&`. -/
def enableTimer (w : World) : World :=
  let w1 : World :=
    if w.TCCR2B &&& (if (7 : Nat) = 0 then 1 else 0) ≠ 0 then
      { w with TCCR2B := w.TCCR2B ||| 5 }
    else w
  { w1 with TIMSK2 := w1.TIMSK2 ||| (1 <<< TOIE2) }

/-- The loop `for(int i = 0; i < last_servo; i++) if(callback_servos[i]->controlPin == controlPin)`
shared by `enableCallback` and `disableCallback`, from index `i` with `n` iterations left.
The result is `none` when a null or invalid pointer is dereferenced, `some none` when the loop
ends without a match, and `some (some i)` at the first matching index. -/
def scanControlPin (w : World) (pin : Nat) : Nat → Nat → Option (Option Nat)
  | _, 0 => some none
  | i, n + 1 =>
    match w.callback_servos[i]? with
    | some (some p) =>
      match w.objs[p]? with
      | some u => if u.controlPin = pin then some (some i) else scanControlPin w pin (i + 1) n
      | none => none
    | _ => none

/-- The method `enableCallback()` of the object `this`. -/
def enableCallback (w : World) (this : Nat) : Option World :=
  match w.objs[this]? with
  | none => none
  | some self =>
    let w1 := w.enableTimer
    if w1.last_servo = MAX_SERVOS then some w1
    else
      match scanControlPin w1 self.controlPin 0 w1.last_servo with
      | none => none
      | some (some _) => some w1
      | some none =>
        if w1.last_servo < w1.callback_servos.length then
          some { w1 with callback_servos := w1.callback_servos.set w1.last_servo (some this),
                         last_servo := (w1.last_servo + 1) % 256 }
        else none

/-- The loop `for(int i = removedServoIndex + 1; i < MAX_SERVOS; i++)
callback_servos[i - 1] = callback_servos[i];`, from index `i` with `n` iterations left. -/
def shiftLeft (cs : List (Option Nat)) : Nat → Nat → List (Option Nat)
  | _, 0 => cs
  | i, n + 1 => shiftLeft (cs.set (i - 1) (cs.getD i none)) (i + 1) n

/-- The method `disableCallback()` of the object `this`. -/
def disableCallback (w : World) (this : Nat) : Option World :=
  match w.objs[this]? with
  | none => none
  | some self =>
    match scanControlPin w self.controlPin 0 w.last_servo with
    | none => none
    | some none => some w
    | some (some removedServoIndex) =>
      some { w with
        callback_servos :=
          shiftLeft w.callback_servos (removedServoIndex + 1)
            (MAX_SERVOS - (removedServoIndex + 1)),
        last_servo := (w.last_servo + 255) % 256 }

/-- The destructor `ServoMotor::~ServoMotor()`: `disableCallback();`. -/
def destruct (w : World) (this : Nat) : Option World := w.disableCallback this

/-- A method of `ServoMotor` that only touches its own object and the outside world, called on
the object `this`. -/
def call (w : World) (this : Nat) (method : ServoMotor → ServoMotor × List Event) :
    Option World :=
  match w.objs[this]? with
  | none => none
  | some self =>
    some { w with objs := w.objs.set this (method self).1, trace := w.trace ++ (method self).2 }

/-- The method `enableSweep(int sweepStepSize, int start, int stop, SweepType sweepType)` of the
object `this`, with `now` the value of `millis()`. -/
def enableSweep (w : World) (this : Nat) (sweepStepSize start stop : Int)
    (sweepType : SweepType) (now : Nat) : Option World :=
  match w.enableCallback this with
  | none => none
  | some w1 => w1.call this (fun s => s.enableSweepBody sweepStepSize start stop sweepType now)

/-- The loop of the interrupt handler over `callback_servos[i]` for `i < last_servo`, from
index `i` with `n` iterations left. -/
def serviceLoop (now : Nat) : World → Nat → Nat → Option World
  | w, _, 0 => some w
  | w, i, n + 1 =>
    match w.callback_servos[i]? with
    | some (some p) =>
      match w.call p (fun s => s.tick now) with
      | some w1 => serviceLoop now w1 (i + 1) n
      | none => none
    | _ => none

/-- The interrupt handler `ISR(TIMER2_OVF_vect)`, with `now` the value of `millis()`. -/
def ISR_TIMER2_OVF (w : World) (now : Nat) : Option World :=
  if ulongSub now w.timer > DELAY then
    match serviceLoop now w 0 w.last_servo with
    | none => none
    | some w1 => some { w1 with timer := now }
  else some w

end World

/-! ## Predicates used to state and prove the sweep claims -/

namespace ServoMotor

/-- What a `Single` sweep from `start` to `stop` by `step` keeps fixed in a unit: the sweep
parameters as `enableSweep` stored them, inside the bounds of the unit. -/
def SingleFrame (u : ServoMotor) (start stop step : Nat) : Prop :=
  u.sweepType = SweepType.Single ∧ u.sweepStart = start ∧ u.sweepStop = stop ∧
  u.sweepStepSize = step ∧ u.sweepClockwise = decide (start < stop) ∧
  u.lowConstraint ≤ start ∧ start ≤ u.highConstraint ∧
  u.lowConstraint ≤ stop ∧ stop ≤ u.highConstraint ∧
  u.highConstraint ≤ 255 ∧ 1 ≤ step ∧ step ≤ 255

/-- A `Single` sweep that has ended: not sweeping, angle exactly `stop`. -/
def Landed (u : ServoMotor) (start stop step : Nat) : Prop :=
  u.SingleFrame start stop step ∧ u.sweepMode = false ∧ u.currAngle = (stop : Int)

/-- A `Single` sweep under way: sweeping, angle between `start` and `stop`, at most `d` degrees
away from `stop`. -/
def Running (u : ServoMotor) (start stop step d : Nat) : Prop :=
  u.SingleFrame start stop step ∧ u.sweepMode = true ∧
  (start < stop →
    (start : Int) ≤ u.currAngle ∧ u.currAngle ≤ (stop : Int) ∧ (stop : Int) - u.currAngle ≤ d) ∧
  (¬ start < stop →
    (stop : Int) ≤ u.currAngle ∧ u.currAngle ≤ (start : Int) ∧ u.currAngle - (stop : Int) ≤ d)

/-- The value of `currAngle + (sweepClockwise ? sweepStepSize : -sweepStepSize)`, which `sweep()`
assigns to `currAngle`, as a mathematical integer: the advanced angle of the next service. -/
def advanced (u : ServoMotor) : Int :=
  u.currAngle + (if u.sweepClockwise then (u.sweepStepSize : Int) else -(u.sweepStepSize : Int))

/-- What a `Reverse` sweep between `0` and `180` by `step` keeps true of a unit with bounds
`0..180`: the parameters as `enableSweep` stored them, sweeping, angle inside `0..180`. -/
def ReverseRun (u : ServoMotor) (step : Nat) : Prop :=
  u.sweepType = SweepType.Reverse ∧ u.sweepStart = 0 ∧ u.sweepStop = 180 ∧
  u.sweepStepSize = step ∧ u.lowConstraint = 0 ∧ u.highConstraint = 180 ∧
  u.sweepMode = true ∧ 0 ≤ u.currAngle ∧ u.currAngle ≤ 180

end ServoMotor

namespace ServoMotor

/-- What a `SkipReverse` sweep from `start` up to `stop` by `step` keeps true of a unit: the
parameters as `enableSweep` stored them, inside the bounds of the unit, sweeping clockwise,
angle between `start` and `stop`. -/
def SkipRun (u : ServoMotor) (start stop step : Nat) : Prop :=
  u.sweepType = SweepType.SkipReverse ∧ u.sweepStart = start ∧ u.sweepStop = stop ∧
  u.sweepStepSize = step ∧ u.sweepClockwise = true ∧
  u.lowConstraint ≤ start ∧ start < stop ∧ stop ≤ u.highConstraint ∧
  u.highConstraint ≤ 255 ∧ 1 ≤ step ∧ step ≤ 255 ∧
  u.sweepMode = true ∧ (start : Int) ≤ u.currAngle ∧ u.currAngle ≤ (stop : Int)

end ServoMotor

namespace World

/-- An example state: one unit attached to line `9` with bounds `0..180`, registered and
sweeping in `Reverse` by `10` from the angle `0`. -/
def oneSweeping : World :=
  { objs := [((ServoMotor.zeroed.attach 9 0 180 0).2.1.enableSweepBody 10 0 180
      SweepType.Reverse 50).1],
    callback_servos := [some 0, none, none, none], last_servo := 1, timer := 0,
    TCCR2B := 4, TIMSK2 := 1, trace := [] }

end World

/-! ## The registry as a sequence, and runs of operations -/

namespace World

/-- The registered entries: the first `last_servo` slots of `callback_servos`, in order. -/
def entries (w : World) : List (Option Nat) := w.callback_servos.take w.last_servo

/-- The control line of the unit a registry slot points to, if it points to a unit. -/
def pinOf (w : World) (slot : Option Nat) : Option Nat :=
  match slot with
  | some p => (w.objs[p]?).map ServoMotor.controlPin
  | none => none

/-- The control lines of the registered units, in registry order. -/
def pins (w : World) : List (Option Nat) := w.entries.map w.pinOf

/-- Slot `r` of the registry points to a unit whose control line is `pin`. -/
def PinAt (w : World) (pin r : Nat) : Prop :=
  ∃ p v, w.callback_servos[r]? = some (some p) ∧ w.objs[p]? = some v ∧ v.controlPin = pin

/-- No slot from `a` up to, not including, `b` points to a unit whose control line is `pin`. -/
def NoPinIn (w : World) (pin a b : Nat) : Prop :=
  ∀ j, a ≤ j → j < b → ¬ w.PinAt pin j

/-- The method `attach` of the object `this`, with `now` the value of `millis()`; the value
returned to the caller is dropped. -/
def attach (w : World) (this : Nat) (controlPin lowConstraint highConstraint : Int)
    (now : Nat) : Option World :=
  w.call this (fun s =>
    ((s.attach controlPin lowConstraint highConstraint now).2.1,
     (s.attach controlPin lowConstraint highConstraint now).2.2))

/-- A call made by the program on one of its units. -/
inductive Op where
  | attach (this : Nat) (controlPin lowConstraint highConstraint : Int) (now : Nat)
  | enableCallback (this : Nat)
  | disableCallback (this : Nat)
  | enableSweep (this : Nat) (sweepStepSize start stop : Int) (sweepType : SweepType)
      (now : Nat)
  deriving DecidableEq, Repr

/-- The unit a call is made on. -/
def Op.unit : Op → Nat
  | Op.attach this _ _ _ _ => this
  | Op.enableCallback this => this
  | Op.disableCallback this => this
  | Op.enableSweep this _ _ _ _ _ => this

/-- The state after one call. -/
def step (w : World) : Op → Option World
  | Op.attach this controlPin lowConstraint highConstraint now =>
    w.attach this controlPin lowConstraint highConstraint now
  | Op.enableCallback this => w.enableCallback this
  | Op.disableCallback this => w.disableCallback this
  | Op.enableSweep this sweepStepSize start stop sweepType now =>
    w.enableSweep this sweepStepSize start stop sweepType now

/-- The state after a succession of calls. -/
def run (w : World) : List Op → Option World
  | [] => some w
  | op :: rest =>
    match w.step op with
    | some w1 => run w1 rest
    | none => none

/-- Whether a call is something else than an `attach` that gives a unit in the registry the
control line of another unit in the registry: an `attach` is allowed when its unit is not in
the registry, or when the control line its unit has after the call (the former one when the
call is rejected) is the control line of no other registered unit. -/
def Op.allowed (w : World) : Op → Bool
  | Op.attach this controlPin lowConstraint highConstraint now =>
    decide (some this ∉ w.entries) ||
    w.entries.all (fun e =>
      e == some this ||
      w.pinOf e != (w.objs[this]?).map
        (fun s => (s.attach controlPin lowConstraint highConstraint now).2.1.controlPin))
  | _ => true

/-- Whether, in a succession of calls, no `attach` gives a unit that is in the registry at the
time of the call the control line of another unit in the registry. -/
def guarded (w : World) : List Op → Bool
  | [] => true
  | op :: rest =>
    Op.allowed w op &&
    match w.step op with
    | some w1 => guarded w1 rest
    | none => true

end World

namespace World

/-- An example state: five units attached to the lines `2..6`, the first four registered. -/
def fourRegistered : World :=
  { objs := (List.range 5).map (fun i => (ServoMotor.zeroed.attach ((i : Int) + 2) 0 180 0).2.1),
    callback_servos := [some 0, some 1, some 2, some 3], last_servo := 4, timer := 0,
    TCCR2B := 4, TIMSK2 := 1, trace := [] }

/-- An example program start: three units just constructed on zeroed storage. -/
def threeUnits : World :=
  World.start (List.replicate 3 (ServoMotor.construct ServoMotor.zeroed)) 4 0

end World

/-! ## Runs of the interrupt handler -/

namespace World

/-- The state after a succession of runs of the interrupt handler, one per clock value. -/
def dispatch (w : World) : List Nat → Option World
  | [] => some w
  | now :: rest =>
    match w.ISR_TIMER2_OVF now with
    | some w1 => dispatch w1 rest
    | none => none

/-- Among the clock values of a succession of runs of the interrupt handler, those at which
the handler executes its body (the dispatcher ticks), `timer` being the timestamp stored
before the first run: a run at `now` executes when `now - timer > DELAY` and then stores
`now`. -/
def firedFrom (timer : Nat) : List Nat → List Nat
  | [] => []
  | now :: rest =>
    if ulongSub now timer > DELAY then now :: firedFrom now rest else firedFrom timer rest

/-- The `n` clock values that follow `t` at intervals of 31 ms, wrapping at `2^32`. -/
def spaced (t : Nat) : Nat → List Nat
  | 0 => []
  | n + 1 => ((t + 31) % 4294967296) :: spaced ((t + 31) % 4294967296) n

/-- An example program start: two units attached to the lines `9` and `10` with bounds
`0..180`, the registry empty. -/
def twoAttached : World :=
  World.start [(ServoMotor.zeroed.attach 9 0 180 0).2.1,
    (ServoMotor.zeroed.attach 10 0 180 0).2.1] 4 0

end World

/-- The function `clamp` of the spec: the nearest value to `x` inside `[lo, hi]`. -/
def clamp (x lo hi : Int) : Int := max lo (min x hi)

/-! ## Basic facts about the unit operations -/

namespace ServoMotor

/-- The comparison in `isAttached()` never fails: a `uint8_t` promoted to `int` is not `-1`. -/
theorem isAttached_eq_true (s : ServoMotor) : s.isAttached = true := by
  unfold isAttached
  simp only [decide_eq_true_eq]
  omega

/-- The unit after `writeMicroseconds`: only `pulseTimer` can differ. -/
theorem writeMicroseconds_fst (s : ServoMotor) (w : Int) (now : Nat) :
    (s.writeMicroseconds w now).1 =
      { s with pulseTimer :=
          if PULSE_DELAY < ulongSub now s.pulseTimer then now else s.pulseTimer } := by
  unfold writeMicroseconds
  by_cases h : PULSE_DELAY < ulongSub now s.pulseTimer <;> simp [isAttached_eq_true, h]

/-- The events of `writeMicroseconds`: one pulse when the refresh test passes, none otherwise. -/
theorem writeMicroseconds_snd (s : ServoMotor) (w : Int) (now : Nat) :
    (s.writeMicroseconds w now).2 =
      if PULSE_DELAY < ulongSub now s.pulseTimer then
        [Event.noInterrupts, Event.digitalWrite s.controlPin true,
         Event.delayMicroseconds (toUint16 w), Event.digitalWrite s.controlPin false,
         Event.interrupts]
      else [] := by
  unfold writeMicroseconds
  by_cases h : PULSE_DELAY < ulongSub now s.pulseTimer <;> simp [isAttached_eq_true, h]

/-- The unit after `write(int)`: only `pulseTimer` and `currAngle` can differ. -/
theorem write_fst (s : ServoMotor) (d : Int) (now : Nat) :
    (s.write d now).1 =
      { s with
        pulseTimer := if PULSE_DELAY < ulongSub now s.pulseTimer then now else s.pulseTimer,
        currAngle :=
          if d > (s.highConstraint : Int) then (s.highConstraint : Int)
          else if d < (s.lowConstraint : Int) then (s.lowConstraint : Int) else d } := by
  unfold write
  simp [isAttached_eq_true, writeMicroseconds_fst]

/-- A value inside `0..255` survives the conversion to `uint8_t`. -/
theorem toUint8_cast (x : Int) (h0 : 0 ≤ x) (h1 : x ≤ 255) : ((toUint8 x : Nat) : Int) = x := by
  unfold toUint8
  omega

/-- The pulse width of an angle that fits a `uint8_t`, as the linear formula. -/
theorem pulseWidth_eq (a : Int) (h0 : 0 ≤ a) (h1 : a ≤ 255) :
    pulseWidth a = 500 + a * (2400 - 500) / 180 := by
  unfold pulseWidth arduinoMap FULL_RANGE MIN_USECONDS MAX_USECONDS toInt16
  simp only [sub_zero]
  rw [Int.tdiv_eq_ediv (by omega) (by omega)]
  omega

/-- The accepting path of `attach`, for a line and bounds that are all valid. -/
theorem attach_of_valid (s : ServoMotor) (line low high : Int) (now : Nat)
    (hline : 0 ≤ line) (hl0 : 0 ≤ low) (hl1 : low ≤ 180) (hh0 : 0 ≤ high) (hh1 : high ≤ 180) :
    s.attach line low high now =
      (none,
       ({ s with controlPin := toUint8 line, lowConstraint := toUint8 (min low high),
                 highConstraint := toUint8 (max low high) }.write 0 now).1,
       Event.pinModeOutput (toUint8 line) ::
         ({ s with controlPin := toUint8 line, lowConstraint := toUint8 (min low high),
                   highConstraint := toUint8 (max low high) }.write 0 now).2) := by
  have ht : ((toUint8 high : Nat) : Int) = high := toUint8_cast high hh0 (by omega)
  unfold attach
  simp only [ht]
  by_cases hsw : high < low
  · have hrej : ¬ (line < 0 ∨ high < 0 ∨ high > 180 ∨ low < 0 ∨ low > 180) := by omega
    simp only [hsw, decide_True, if_true, hrej, if_false, min_eq_right (le_of_lt hsw),
      max_eq_left (le_of_lt hsw)]
  · have hrej : ¬ (line < 0 ∨ low < 0 ∨ low > 180 ∨ high < 0 ∨ high > 180) := by omega
    simp only [hsw, decide_False, Bool.false_eq_true, if_false, hrej,
      min_eq_left (not_lt.mp hsw), max_eq_right (not_lt.mp hsw)]

/-! ## Claims on `write`, `attach` and `isAttached` -/

/-- Claim C1: for an attached unit whose stored bounds satisfy `low ≤ high ≤ 180`, and for every
integer angle and every clock value (so whether or not the pulse is suppressed by the refresh
test), `read()` after `write(angle)` is `clamp(angle, low, high)`. -/
theorem write_read_eq_clamp (s : ServoMotor) (angle : Int) (now : Nat)
    (_hatt : s.isAttached = true) (hlo : s.lowConstraint ≤ s.highConstraint)
    (_hhi : s.highConstraint ≤ 180) :
    (s.write angle now).1.read =
      clamp angle (s.lowConstraint : Int) (s.highConstraint : Int) := by
  have hlo' : (s.lowConstraint : Int) ≤ (s.highConstraint : Int) := by exact_mod_cast hlo
  simp only [read, clamp, write_fst]
  split_ifs with h1 h2
  · rw [min_eq_right (le_of_lt h1), max_eq_right hlo']
  · rw [min_eq_left (by omega), max_eq_left (le_of_lt h2)]
  · rw [min_eq_left (by omega), max_eq_right (by omega)]

/-- Witness of C1: a unit attached with bounds `30..150`, commanded to `200` one millisecond
after its last pulse: the pulse is suppressed and `read()` is `150`. -/
theorem write_read_eq_clamp_witness :
    (zeroed.attach 9 30 150 100).2.1.isAttached = true ∧
    (zeroed.attach 9 30 150 100).2.1.lowConstraint ≤
      (zeroed.attach 9 30 150 100).2.1.highConstraint ∧
    (zeroed.attach 9 30 150 100).2.1.highConstraint ≤ 180 ∧
    ((zeroed.attach 9 30 150 100).2.1.write 200 101).1.read = 150 ∧
    ((zeroed.attach 9 30 150 100).2.1.write 200 101).2 = [] :=
  ⟨by decide, by decide, by decide,
   (write_read_eq_clamp (zeroed.attach 9 30 150 100).2.1 200 101 (by decide) (by decide)
      (by decide)).trans (by decide), by decide⟩

/-- Claim C2, evaluated at `a = -256`, `b = 0` on a new unit: `attach(9, -256, 0)` returns
`false` and leaves the unit as it was, while `attach(9, 0, -256)` runs to the end of the
function, returns no value, and stores line `9` with bounds `0..0`. -/
theorem attach_inverted_bounds_differ :
    ((construct zeroed).attach 9 (-256) 0 100).1 = some false ∧
    ((construct zeroed).attach 9 (-256) 0 100).2.1 = construct zeroed ∧
    ((construct zeroed).attach 9 0 (-256) 100).1 = none ∧
    ((construct zeroed).attach 9 0 (-256) 100).2.1 ≠ construct zeroed ∧
    ((construct zeroed).attach 9 0 (-256) 100).2.1.controlPin = 9 := by
  decide

/-- Claim C3, evaluated at `line = 5`, `low = 100`, `high = -200` on a new unit: `high` lies
outside `[0, 180]`, yet `attach` does not return `false`; it stores line `5` and the bounds
`56..100`, commands the angle `56` and drives the line. -/
theorem attach_accepts_negative_high :
    ¬ ((0 : Int) ≤ -200 ∧ (-200 : Int) ≤ 180) ∧
    ((construct zeroed).attach 5 100 (-200) 100).1 ≠ some false ∧
    ((construct zeroed).attach 5 100 (-200) 100).2.1.controlPin = 5 ∧
    ((construct zeroed).attach 5 100 (-200) 100).2.1.lowConstraint = 56 ∧
    ((construct zeroed).attach 5 100 (-200) 100).2.1.highConstraint = 100 ∧
    ((construct zeroed).attach 5 100 (-200) 100).2.1.currAngle = 56 ∧
    ((construct zeroed).attach 5 100 (-200) 100).2.2 ≠ [] := by
  decide

/-- Claim C4: for a line `≥ 0` and bounds inside `[0, 180]`, `attach` reaches the end of the
function without executing a `return` statement, so no value (in particular not `true`) is
returned; the unit is attached afterwards, the stored bounds are `min(low, high)` and
`max(low, high)`, and `read()` is `0` clamped into them. -/
theorem attach_valid_returns_nothing (s : ServoMotor) (line low high : Int) (now : Nat)
    (hline : 0 ≤ line) (hlow : 0 ≤ low ∧ low ≤ 180) (hhigh : 0 ≤ high ∧ high ≤ 180) :
    (s.attach line low high now).1 = none ∧
    (s.attach line low high now).2.1.isAttached = true ∧
    ((s.attach line low high now).2.1.lowConstraint : Int) = min low high ∧
    ((s.attach line low high now).2.1.highConstraint : Int) = max low high ∧
    (s.attach line low high now).2.1.read = clamp 0 (min low high) (max low high) := by
  obtain ⟨hl0, hl1⟩ := hlow
  obtain ⟨hh0, hh1⟩ := hhigh
  have hmin : ((toUint8 (min low high) : Nat) : Int) = min low high :=
    toUint8_cast _ (le_min hl0 hh0) (le_trans (min_le_left _ _) (by omega))
  have hmax : ((toUint8 (max low high) : Nat) : Int) = max low high :=
    toUint8_cast _ (le_trans hl0 (le_max_left _ _)) (le_trans (max_le hl1 hh1) (by omega))
  rw [attach_of_valid s line low high now hline hl0 hl1 hh0 hh1]
  refine ⟨rfl, isAttached_eq_true _, ?_, ?_, ?_⟩
  · simp only [write_fst, hmin]
  · simp only [write_fst, hmax]
  · simp only [read, write_fst, hmin, hmax, clamp]
    have h1 : (0 : Int) ≤ min low high := le_min hl0 hh0
    have h2 : min low high ≤ max low high := le_trans (min_le_left _ _) (le_max_left _ _)
    rw [min_eq_left (le_trans h1 h2), max_eq_left h1]
    split_ifs <;> omega

/-- Witness of C4: `attach(9, 0, 180)` on a new unit returns no value. -/
theorem attach_valid_returns_nothing_witness :
    (0 : Int) ≤ 9 ∧ ((0 : Int) ≤ 0 ∧ (0 : Int) ≤ 180) ∧ ((0 : Int) ≤ 180 ∧ (180 : Int) ≤ 180) ∧
    ((construct zeroed).attach 9 0 180 100).1 = none ∧
    ((construct zeroed).attach 9 0 180 100).2.1.lowConstraint = 0 ∧
    ((construct zeroed).attach 9 0 180 100).2.1.highConstraint = 180 ∧
    ((construct zeroed).attach 9 0 180 100).2.1.read = 0 :=
  ⟨by decide, by decide, by decide,
   (attach_valid_returns_nothing (construct zeroed) 9 0 180 100 (by decide) (by decide)
      (by decide)).1,
   by decide, by decide, by decide⟩

/-- Claim C5: on a unit just constructed (whatever its storage held), `isAttached()` returns
`true`, not `false`: the constructor stores `-1` in a `uint8_t`, which reads back as `255`, and
`255 != -1` holds. It is still `true` after the rejected calls `attach(-1, 0, 180)` and
`attach(9, 0, 200)`. -/
theorem isAttached_after_construct (mem : ServoMotor) (now : Nat) :
    (construct mem).controlPin = 255 ∧
    (construct mem).isAttached = true ∧
    ((construct mem).attach (-1) 0 180 now).1 = some false ∧
    ((construct mem).attach (-1) 0 180 now).2.1.isAttached = true ∧
    ((construct mem).attach 9 0 200 now).1 = some false ∧
    ((construct mem).attach 9 0 200 now).2.1.isAttached = true :=
  ⟨rfl, isAttached_eq_true _, by simp [attach], isAttached_eq_true _, by simp [attach],
   isAttached_eq_true _⟩

/-! ## Claims on the pulse -/

/-- Claim C6, evaluated on a unit that was constructed and never attached: `write(90)` and
`writeMicroseconds(1500)` at clock value `100` pass the `isAttached()` guard and drive line
`255`, and `write` changes the unit; `enableCallback()` enters the unit into the empty registry;
`enableSweep(5, 0, 180, Reverse)` registers it, starts the sweep and drives the line. -/
theorem unattached_operations_act :
    ((construct zeroed).write 90 100).1 ≠ construct zeroed ∧
    ((construct zeroed).write 90 100).2 =
      [Event.noInterrupts, Event.digitalWrite 255 true, Event.delayMicroseconds 500,
       Event.digitalWrite 255 false, Event.interrupts] ∧
    ((construct zeroed).writeMicroseconds 1500 100).2 =
      [Event.noInterrupts, Event.digitalWrite 255 true, Event.delayMicroseconds 1500,
       Event.digitalWrite 255 false, Event.interrupts] ∧
    ((World.start [construct zeroed] 4 0).enableCallback 0).map
        (fun w => (w.callback_servos, w.last_servo)) =
      some ([some 0, none, none, none], 1) ∧
    ((World.start [construct zeroed] 4 0).enableSweep 0 5 0 180 SweepType.Reverse 100).map
        (fun w => (w.objs.map isSweeping, w.last_servo, w.trace.length)) =
      some ([true], 1, 5) := by
  decide

/-- Claim C7: for an attached unit and clock values `t1 ≤ t2` less than `PULSE_DELAY = 21` ms
apart, if `writeMicroseconds` at `t1` drove the line, then it recorded `t1` as the last pulse
timestamp, and `writeMicroseconds` at `t2` produces no event and leaves the unit unchanged.
In general the line is driven only if at least `PULSE_DELAY` ms have elapsed since the recorded
timestamp, both as the 32-bit difference and, without wrap-around, as the plain difference. -/
theorem writeMicroseconds_rate_limit (s : ServoMotor) (width1 width2 : Int) (t1 t2 : Nat)
    (_hatt : s.isAttached = true) (h12 : t1 ≤ t2) (hlt : t2 - t1 < PULSE_DELAY)
    (hdrove : (s.writeMicroseconds width1 t1).2 ≠ []) :
    (s.writeMicroseconds width1 t1).1.pulseTimer = t1 ∧
    (s.writeMicroseconds width1 t1).1.writeMicroseconds width2 t2 =
      ((s.writeMicroseconds width1 t1).1, []) ∧
    (∀ (u : ServoMotor) (width : Int) (now : Nat),
      (u.writeMicroseconds width now).2 ≠ [] →
        PULSE_DELAY ≤ ulongSub now u.pulseTimer ∧
        (u.pulseTimer ≤ now → now < 4294967296 → PULSE_DELAY ≤ now - u.pulseTimer)) := by
  have hfire : PULSE_DELAY < ulongSub t1 s.pulseTimer := by
    by_contra hc
    rw [writeMicroseconds_snd, if_neg hc] at hdrove
    exact hdrove rfl
  have hstamp : (s.writeMicroseconds width1 t1).1.pulseTimer = t1 := by
    rw [writeMicroseconds_fst, if_pos hfire]
  refine ⟨hstamp, ?_, ?_⟩
  · have hquiet : ¬ PULSE_DELAY < ulongSub t2 (s.writeMicroseconds width1 t1).1.pulseTimer := by
      rw [hstamp]
      unfold ulongSub PULSE_DELAY at *
      omega
    unfold writeMicroseconds at hquiet ⊢
    simp only [isAttached_eq_true, Bool.not_true, Bool.false_eq_true, if_false] at hquiet ⊢
    split_ifs at hquiet ⊢ <;> simp_all
  · intro u width now hne
    have hf : PULSE_DELAY < ulongSub now u.pulseTimer := by
      by_contra hc
      rw [writeMicroseconds_snd, if_neg hc] at hne
      exact hne rfl
    refine ⟨le_of_lt hf, ?_⟩
    intro hle hnow
    unfold ulongSub PULSE_DELAY at *
    omega

/-- Witness of C7: a unit attached at clock value `0`, pulsed at `100` and again at `120`. -/
theorem writeMicroseconds_rate_limit_witness :
    (zeroed.attach 9 0 180 0).2.1.isAttached = true ∧ 100 ≤ 120 ∧ 120 - 100 < PULSE_DELAY ∧
    ((zeroed.attach 9 0 180 0).2.1.writeMicroseconds 1500 100).2 ≠ [] ∧
    ((zeroed.attach 9 0 180 0).2.1.writeMicroseconds 1500 100).1.writeMicroseconds 1500 120 =
      (((zeroed.attach 9 0 180 0).2.1.writeMicroseconds 1500 100).1, []) :=
  ⟨by decide, by decide, by decide, by decide,
   (writeMicroseconds_rate_limit (zeroed.attach 9 0 180 0).2.1 1500 1500 100 120 (by decide)
      (by decide) (by decide) (by decide)).2.1⟩

/-- Claim C8 as stated fails: on a unit attached with bounds `30..150`, `write(0)` passes
`816` microseconds to `writeMicroseconds`, not `500 + 0 * (2400 - 500) / 180 = 500`, and
`write(180)` passes `2083`, not `2400`: `write` maps the angle after clamping it into the
bounds of the unit. -/
theorem write_maps_clamped_angle :
    ((zeroed.attach 9 30 150 0).2.1.write 0 100).2 =
      [Event.noInterrupts, Event.digitalWrite 9 true, Event.delayMicroseconds 816,
       Event.digitalWrite 9 false, Event.interrupts] ∧
    (500 + 0 * (2400 - 500) / 180 : Int) = 500 ∧
    ((zeroed.attach 9 30 150 0).2.1.write 180 100).2 =
      [Event.noInterrupts, Event.digitalWrite 9 true, Event.delayMicroseconds 2083,
       Event.digitalWrite 9 false, Event.interrupts] ∧
    (500 + 180 * (2400 - 500) / 180 : Int) = 2400 :=
  ⟨by decide, by decide, by decide, by decide⟩

/-- Claim C8 as amended: for every angle in `[0, 180]` the pulse width computed by `write` is
`500 + angle * (2400 - 500) / 180` in integer arithmetic; `0` maps to `500`, `180` maps to
`2400`, the result lies in `[500, 2400]`, and the mapping is non-decreasing. `write` applies
the mapping to its argument after clamping it into the bounds of the unit: for an angle inside
the bounds (every angle of `[0, 180]` for the default bounds) the width passed to
`writeMicroseconds` is the formula at that angle. -/
theorem pulseWidth_linear (angle : Int) (h0 : 0 ≤ angle) (h180 : angle ≤ 180) :
    pulseWidth angle = 500 + angle * (2400 - 500) / 180 ∧
    pulseWidth 0 = 500 ∧ pulseWidth 180 = 2400 ∧
    500 ≤ pulseWidth angle ∧ pulseWidth angle ≤ 2400 ∧
    (∀ b : Int, angle ≤ b → b ≤ 180 → pulseWidth angle ≤ pulseWidth b) ∧
    (∀ (s : ServoMotor) (now : Nat), s.isAttached = true →
      (s.lowConstraint : Int) ≤ angle → angle ≤ (s.highConstraint : Int) →
      s.write angle now =
        ({ (s.writeMicroseconds (500 + angle * (2400 - 500) / 180) now).1 with
             currAngle := angle },
         (s.writeMicroseconds (500 + angle * (2400 - 500) / 180) now).2)) ∧
    (∀ (s : ServoMotor) (now : Nat), s.isAttached = true →
      s.lowConstraint ≤ s.highConstraint →
      s.write angle now =
        ({ (s.writeMicroseconds
              (pulseWidth (clamp angle (s.lowConstraint : Int) (s.highConstraint : Int)))
              now).1 with
             currAngle := clamp angle (s.lowConstraint : Int) (s.highConstraint : Int) },
         (s.writeMicroseconds
            (pulseWidth (clamp angle (s.lowConstraint : Int) (s.highConstraint : Int)))
            now).2)) := by
  have hw := pulseWidth_eq angle h0 (by omega)
  refine ⟨hw, by decide, by decide, by rw [hw]; omega, by rw [hw]; omega, ?_, ?_, ?_⟩
  · intro b hab hb
    rw [hw, pulseWidth_eq b (by omega) (by omega)]
    omega
  · intro s now _ hlo hhi
    unfold write
    simp only [isAttached_eq_true, Bool.not_true, Bool.false_eq_true, if_false,
      if_neg (not_lt.mpr hhi), if_neg (not_lt.mpr hlo), hw, gt_iff_lt]
  · intro s now _ hb
    have hb' : (s.lowConstraint : Int) ≤ (s.highConstraint : Int) := by exact_mod_cast hb
    have hc : (if angle > (s.highConstraint : Int) then (s.highConstraint : Int)
        else if angle < (s.lowConstraint : Int) then (s.lowConstraint : Int) else angle) =
        clamp angle (s.lowConstraint : Int) (s.highConstraint : Int) := by
      unfold clamp
      split_ifs with h1 h2
      · rw [min_eq_right (le_of_lt h1), max_eq_right hb']
      · rw [min_eq_left (by omega), max_eq_left (le_of_lt h2)]
      · rw [min_eq_left (by omega), max_eq_right (by omega)]
    unfold write
    simp only [isAttached_eq_true, Bool.not_true, Bool.false_eq_true, if_false, hc]

/-- Witness of C8 as amended: the angle `90` maps to `1450` microseconds, and `write(90)` on a
unit with bounds `0..180` emits a pulse of that width. -/
theorem pulseWidth_linear_witness :
    (0 : Int) ≤ 90 ∧ (90 : Int) ≤ 180 ∧ pulseWidth 90 = 1450 ∧
    ((zeroed.attach 9 0 180 0).2.1.write 90 100).2 =
      [Event.noInterrupts, Event.digitalWrite 9 true, Event.delayMicroseconds 1450,
       Event.digitalWrite 9 false, Event.interrupts] :=
  ⟨by decide, by decide,
   (pulseWidth_linear 90 (by decide) (by decide)).1.trans (by decide), by decide⟩

/-! ## The sweep state machine -/

/-- A value inside the range of `int` is not changed by the wrap. -/
theorem toInt16_of_small (x : Int) (h0 : -32768 ≤ x) (h1 : x ≤ 32767) : toInt16 x = x := by
  unfold toInt16
  omega

/-- The classification of `inRange`, free of the exchange of its arguments. -/
theorem inRange_eq (u : ServoMotor) (low high : Nat) :
    u.inRange low high =
      if (low : Int) < u.currAngle ∧ (high : Int) < u.currAngle then ServoRange.AboveRange
      else if u.currAngle < (low : Int) ∧ u.currAngle < (high : Int) then ServoRange.BelowRange
      else ServoRange.InRange := by
  unfold inRange
  by_cases h : low > high
  · simp only [h, decide_True, if_true]
    split_ifs <;> first | rfl | omega
  · simp only [h, decide_False, Bool.false_eq_true, if_false]
    split_ifs <;> first | rfl | omega

/-- The unit after `sweep()` when it is not sweeping. -/
theorem sweep_idle (u : ServoMotor) (now : Nat) (hm : u.sweepMode = false) :
    u.sweep now = (u, []) := by
  unfold sweep
  simp [isSweeping, hm]

/-- The unit after `sweep()` under the `Single` policy, advanced angle inside the range. -/
theorem sweep_single_inside (u : ServoMotor) (now : Nat) (adv : Int) (hm : u.sweepMode = true)
    (hty : u.sweepType = SweepType.Single)
    (hadv : toInt16 (u.currAngle +
      (if u.sweepClockwise then (u.sweepStepSize : Int) else -(u.sweepStepSize : Int))) = adv)
    (h1 : ¬ ((u.sweepStart : Int) < adv ∧ (u.sweepStop : Int) < adv))
    (h2 : ¬ (adv < (u.sweepStart : Int) ∧ adv < (u.sweepStop : Int))) :
    u.sweep now = ({ u with currAngle := adv }, []) := by
  unfold sweep
  simp only [isSweeping, hm, hty, hadv, inRange_eq, Bool.not_true, Bool.false_eq_true, if_false,
    if_neg h1, if_neg h2, ne_eq, not_true_eq_false]

/-- The unit after `sweep()` under the `Single` policy, advanced angle outside the range. -/
theorem sweep_single_outside (u : ServoMotor) (now : Nat) (adv : Int) (hm : u.sweepMode = true)
    (hty : u.sweepType = SweepType.Single)
    (hadv : toInt16 (u.currAngle +
      (if u.sweepClockwise then (u.sweepStepSize : Int) else -(u.sweepStepSize : Int))) = adv)
    (h : ((u.sweepStart : Int) < adv ∧ (u.sweepStop : Int) < adv) ∨
      (adv < (u.sweepStart : Int) ∧ adv < (u.sweepStop : Int))) :
    u.sweep now =
      { u with currAngle := adv, sweepMode := false }.write (u.sweepStop : Int) now := by
  unfold sweep
  simp only [isSweeping, hm, hty, hadv, inRange_eq, Bool.not_true, Bool.false_eq_true, if_false,
    disableSweep]
  rcases h with h | h
  · simp only [if_pos h, ne_eq, reduceCtorEq, not_false_eq_true, if_true]
  · have h' : ¬ ((u.sweepStart : Int) < adv ∧ (u.sweepStop : Int) < adv) := by omega
    simp only [if_neg h', if_pos h, ne_eq, reduceCtorEq, not_false_eq_true, if_true]

/-- The unit after `write()` when its angle is inside its bounds: only `pulseTimer` can differ. -/
theorem writeNoArg_fst (u : ServoMotor) (now : Nat)
    (h1 : (u.lowConstraint : Int) ≤ u.currAngle) (h2 : u.currAngle ≤ (u.highConstraint : Int)) :
    (u.writeNoArg now).1 =
      { u with pulseTimer :=
          if PULSE_DELAY < ulongSub now u.pulseTimer then now else u.pulseTimer } := by
  unfold writeNoArg
  rw [write_fst, if_neg (not_lt.mpr h2), if_neg (not_lt.mpr h1)]


/-- One service of an idle unit whose angle is inside its bounds: only `pulseTimer` can differ. -/
theorem tick_idle (u : ServoMotor) (now : Nat) (hm : u.sweepMode = false)
    (h1 : (u.lowConstraint : Int) ≤ u.currAngle) (h2 : u.currAngle ≤ (u.highConstraint : Int)) :
    ∃ p, (u.tick now).1 = { u with pulseTimer := p } := by
  unfold tick
  rw [sweep_idle u now hm]
  exact ⟨_, writeNoArg_fst u now h1 h2⟩

/-- One service under the `Single` policy, advanced angle inside the range. -/
theorem tick_single_inside (u : ServoMotor) (now : Nat) (adv : Int) (hm : u.sweepMode = true)
    (hty : u.sweepType = SweepType.Single)
    (hadv : toInt16 (u.currAngle +
      (if u.sweepClockwise then (u.sweepStepSize : Int) else -(u.sweepStepSize : Int))) = adv)
    (h1 : ¬ ((u.sweepStart : Int) < adv ∧ (u.sweepStop : Int) < adv))
    (h2 : ¬ (adv < (u.sweepStart : Int) ∧ adv < (u.sweepStop : Int)))
    (hb1 : (u.lowConstraint : Int) ≤ adv) (hb2 : adv ≤ (u.highConstraint : Int)) :
    ∃ p, (u.tick now).1 = { u with currAngle := adv, pulseTimer := p } := by
  unfold tick
  rw [sweep_single_inside u now adv hm hty hadv h1 h2]
  exact ⟨_, writeNoArg_fst { u with currAngle := adv } now hb1 hb2⟩

/-- One service under the `Single` policy, advanced angle outside the range. -/
theorem tick_single_outside (u : ServoMotor) (now : Nat) (adv : Int) (hm : u.sweepMode = true)
    (hty : u.sweepType = SweepType.Single)
    (hadv : toInt16 (u.currAngle +
      (if u.sweepClockwise then (u.sweepStepSize : Int) else -(u.sweepStepSize : Int))) = adv)
    (h : ((u.sweepStart : Int) < adv ∧ (u.sweepStop : Int) < adv) ∨
      (adv < (u.sweepStart : Int) ∧ adv < (u.sweepStop : Int)))
    (hb1 : u.lowConstraint ≤ u.sweepStop) (hb2 : u.sweepStop ≤ u.highConstraint) :
    ∃ p, (u.tick now).1 =
      { u with currAngle := (u.sweepStop : Int), sweepMode := false, pulseTimer := p } := by
  have hb1' : (u.lowConstraint : Int) ≤ (u.sweepStop : Int) := by exact_mod_cast hb1
  have hb2' : (u.sweepStop : Int) ≤ (u.highConstraint : Int) := by exact_mod_cast hb2
  unfold tick
  rw [sweep_single_outside u now adv hm hty hadv h]
  simp only [write_fst, if_neg (not_lt.mpr hb2'), if_neg (not_lt.mpr hb1'), gt_iff_lt]
  exact ⟨_, writeNoArg_fst
    { u with
      pulseTimer := if PULSE_DELAY < ulongSub now u.pulseTimer then now else u.pulseTimer,
      currAngle := (u.sweepStop : Int), sweepMode := false } now hb1' hb2'⟩


/-- A landed `Single` sweep stays landed at the next service. -/
theorem landed_tick {u : ServoMotor} {start stop step : Nat} (h : u.Landed start stop step)
    (now : Nat) : (u.tick now).1.Landed start stop step := by
  obtain ⟨hf, hm, ha⟩ := h
  have hf' := hf
  obtain ⟨_, _, _, _, _, _, _, hlo, hhi, _, _, _⟩ := hf'
  obtain ⟨p, hp⟩ := tick_idle u now hm (by rw [ha]; exact_mod_cast hlo)
    (by rw [ha]; exact_mod_cast hhi)
  rw [hp]
  exact ⟨hf, hm, ha⟩

/-- A running `Single` sweep either lands at the next service or runs on, closer to `stop`. -/
theorem running_tick {u : ServoMotor} {start stop step d : Nat}
    (h : u.Running start stop step d) (now : Nat) :
    (u.tick now).1.Landed start stop step ∨
      (0 < d ∧ (u.tick now).1.Running start stop step (d - 1)) := by
  obtain ⟨hf, hm, hup, hdown⟩ := h
  have hf' := hf
  obtain ⟨hty, hst, hsp, hsz, hcw, hl1, hh1, hl2, hh2, h255, hs1, hs2⟩ := hf'
  by_cases hlt : start < stop
  · obtain ⟨ha1, ha2, ha3⟩ := hup hlt
    have hadv : toInt16 (u.currAngle +
        (if u.sweepClockwise then (u.sweepStepSize : Int) else -(u.sweepStepSize : Int))) =
        u.currAngle + step := by
      rw [hcw, hsz]
      simp only [hlt, decide_True, if_true]
      exact toInt16_of_small _ (by omega) (by omega)
    by_cases hin : u.currAngle + step ≤ (stop : Int)
    · right
      obtain ⟨p, hp⟩ := tick_single_inside u now _ hm hty hadv (by rw [hst, hsp]; omega)
        (by rw [hst, hsp]; omega) (by omega) (by omega)
      rw [hp]
      refine ⟨by omega, hf, hm, fun _ => ⟨?_, ?_, ?_⟩, fun hn => absurd hlt hn⟩
      · show (start : Int) ≤ u.currAngle + step
        omega
      · exact hin
      · show (stop : Int) - (u.currAngle + step) ≤ ((d - 1 : Nat) : Int)
        omega
    · left
      obtain ⟨p, hp⟩ := tick_single_outside u now _ hm hty hadv
        (Or.inl (by rw [hst, hsp]; omega)) (by rw [hsp]; exact hl2) (by rw [hsp]; exact hh2)
      rw [hp]
      exact ⟨hf, rfl, by rw [hsp]⟩
  · obtain ⟨ha1, ha2, ha3⟩ := hdown hlt
    have hadv : toInt16 (u.currAngle +
        (if u.sweepClockwise then (u.sweepStepSize : Int) else -(u.sweepStepSize : Int))) =
        u.currAngle - step := by
      rw [hcw, hsz]
      simp only [hlt, decide_False, Bool.false_eq_true, if_false]
      exact toInt16_of_small _ (by omega) (by omega)
    by_cases hin : (stop : Int) ≤ u.currAngle - step
    · right
      obtain ⟨p, hp⟩ := tick_single_inside u now _ hm hty hadv (by rw [hst, hsp]; omega)
        (by rw [hst, hsp]; omega) (by omega) (by omega)
      rw [hp]
      refine ⟨by omega, hf, hm, fun hn => absurd hn hlt, fun _ => ⟨?_, ?_, ?_⟩⟩
      · exact hin
      · show u.currAngle - step ≤ (start : Int)
        omega
      · show u.currAngle - step - (stop : Int) ≤ ((d - 1 : Nat) : Int)
        omega
    · left
      obtain ⟨p, hp⟩ := tick_single_outside u now _ hm hty hadv
        (Or.inr (by rw [hst, hsp]; omega)) (by rw [hsp]; exact hl2) (by rw [hsp]; exact hh2)
      rw [hp]
      exact ⟨hf, rfl, by rw [hsp]⟩

/-- A landed `Single` sweep stays landed for ever. -/
theorem landed_ticks {start stop step : Nat} (nows : List Nat) :
    ∀ {u : ServoMotor}, u.Landed start stop step → (u.ticks nows).Landed start stop step := by
  induction nows with
  | nil => intro u h; exact h
  | cons now rest ih => intro u h; exact ih (landed_tick h now)

/-- A `Single` sweep at most `d` degrees away from `stop` has landed after `d + 1` services. -/
theorem running_ticks {start stop step : Nat} (nows : List Nat) :
    ∀ {u : ServoMotor} {d : Nat}, u.Running start stop step d → d + 1 ≤ nows.length →
      (u.ticks nows).Landed start stop step := by
  induction nows with
  | nil => intro u d _ hlen; simp at hlen
  | cons now rest ih =>
    intro u d h hlen
    rcases running_tick h now with hl | ⟨hd, hr⟩
    · exact landed_ticks rest hl
    · refine ih hr ?_
      simp only [List.length_cons] at hlen
      omega


/-- A natural number that fits a `uint8_t` survives the conversion from `int`. -/
theorem toUint8_natCast (n : Nat) (h : n ≤ 255) : toUint8 (n : Int) = n := by
  unfold toUint8
  omega

/-- The unit after the body of `enableSweep`, for `start` and `stop` inside the bounds of the
unit and a step that fits a `uint8_t`: only `pulseTimer` is not determined here. -/
theorem enableSweepBody_fst (u : ServoMotor) (step start stop : Nat) (ty : SweepType)
    (now : Nat) (h255 : u.highConstraint ≤ 255) (hstep : step ≤ 255)
    (hs1 : u.lowConstraint ≤ start) (hs2 : start ≤ u.highConstraint)
    (hp1 : u.lowConstraint ≤ stop) (hp2 : stop ≤ u.highConstraint) :
    ∃ p, (u.enableSweepBody (step : Int) (start : Int) (stop : Int) ty now).1 =
      { u with sweepClockwise := decide (start < stop), sweepStart := start, sweepStop := stop,
               sweepStepSize := step, sweepType := ty, currAngle := (start : Int),
               sweepMode := true, pulseTimer := p } := by
  unfold enableSweepBody
  simp only [toUint8_natCast start (by omega), toUint8_natCast stop (by omega),
    toUint8_natCast step hstep, Nat.cast_lt, if_neg (not_lt.mpr hs1), if_neg (not_lt.mpr hp1),
    gt_iff_lt, if_neg (not_lt.mpr hs2), if_neg (not_lt.mpr hp2)]
  have hs1' : (u.lowConstraint : Int) ≤ (start : Int) := by exact_mod_cast hs1
  have hs2' : (start : Int) ≤ (u.highConstraint : Int) := by exact_mod_cast hs2
  exact ⟨_, writeNoArg_fst _ now hs1' hs2'⟩


/-- The exact course of the `Single` sweep from `0` to `180` by `10` on a unit with bounds
`0..180`, from the angle `10 * k`. -/
theorem single_0_180_10_ticks (nows : List Nat) :
    ∀ (u : ServoMotor) (k : Nat), u.SingleFrame 0 180 10 → u.sweepMode = true →
      u.currAngle = 10 * (k : Int) → k ≤ 18 →
      (19 ≤ k + nows.length → (u.ticks nows).Landed 0 180 10) ∧
      (k + nows.length ≤ 18 →
        (u.ticks nows).sweepMode = true ∧
        (u.ticks nows).currAngle = 10 * ((k + nows.length : Nat) : Int)) := by
  induction nows with
  | nil =>
    intro u k _ hm ha hk
    exact ⟨fun h => absurd h (by simp only [List.length_nil]; omega),
      fun _ => ⟨hm, by simpa [ServoMotor.ticks] using ha⟩⟩
  | cons now rest ih =>
    intro u k hf hm ha hk
    have hf' := hf
    obtain ⟨hty, hst, hsp, hsz, hcw, hl1, hh1, hl2, hh2, h255, hs1, hs2⟩ := hf'
    have hadv : toInt16 (u.currAngle +
        (if u.sweepClockwise then (u.sweepStepSize : Int) else -(u.sweepStepSize : Int))) =
        10 * ((k + 1 : Nat) : Int) := by
      rw [hcw, hsz, ha]
      simp only [Nat.lt_add_one, Nat.ofNat_pos, decide_True, if_true]
      rw [toInt16_of_small _ (by omega) (by omega)]
      push_cast
      ring
    have hlow : (u.lowConstraint : Int) ≤ 0 := by exact_mod_cast hl1
    have hhigh : (180 : Int) ≤ (u.highConstraint : Int) := by exact_mod_cast hh2
    by_cases hk17 : k ≤ 17
    · obtain ⟨p, hp⟩ := tick_single_inside u now _ hm hty hadv
        (by rw [hst, hsp]; push_cast; omega) (by rw [hst, hsp]; push_cast; omega)
        (by push_cast; omega) (by push_cast; omega)
      have hrec := ih { u with currAngle := 10 * ((k + 1 : Nat) : Int), pulseTimer := p } (k + 1)
        hf hm rfl (by omega)
      simp only [ServoMotor.ticks, hp, List.length_cons]
      refine ⟨fun h => hrec.1 (by omega), fun h => ?_⟩
      have h2 := hrec.2 (by omega)
      refine ⟨h2.1, ?_⟩
      rw [h2.2]
      congr 2
      omega
    · obtain ⟨p, hp⟩ := tick_single_outside u now _ hm hty hadv
        (Or.inl (by rw [hst, hsp]; push_cast; omega)) (by rw [hsp]; exact hl2)
        (by rw [hsp]; exact hh2)
      have hland : (u.tick now).1.Landed 0 180 10 := by
        rw [hp]
        exact ⟨hf, rfl, by rw [hsp]⟩
      simp only [ServoMotor.ticks, List.length_cons]
      exact ⟨fun _ => landed_ticks rest hland, fun h => absurd h (by omega)⟩


/-- The unit after `sweep()` under the `Reverse` policy. -/
theorem sweep_reverse (u : ServoMotor) (now : Nat) (adv : Int) (hm : u.sweepMode = true)
    (hty : u.sweepType = SweepType.Reverse)
    (hadv : toInt16 (u.currAngle +
      (if u.sweepClockwise then (u.sweepStepSize : Int) else -(u.sweepStepSize : Int))) = adv) :
    u.sweep now =
      ({ u with
         currAngle := adv,
         sweepClockwise :=
           if (u.sweepStart : Int) < adv ∧ (u.sweepStop : Int) < adv then false
           else if adv < (u.sweepStart : Int) ∧ adv < (u.sweepStop : Int) then true
           else u.sweepClockwise }, []) := by
  unfold sweep
  simp only [isSweeping, hm, hty, hadv, inRange_eq, Bool.not_true, Bool.false_eq_true, if_false]
  by_cases h1 : (u.sweepStart : Int) < adv ∧ (u.sweepStop : Int) < adv
  · simp only [if_pos h1, if_true]
  · by_cases h2 : adv < (u.sweepStart : Int) ∧ adv < (u.sweepStop : Int)
    · simp only [if_neg h1, if_pos h2, reduceCtorEq, if_false, if_true]
    · simp only [if_neg h1, if_neg h2, reduceCtorEq, if_false]

/-- One service of a unit in a `Reverse` sweep between `0` and `180`, bounds `0..180`. -/
theorem tick_reverse {u : ServoMotor} {step : Nat} (h : u.ReverseRun step) (hstep : step ≤ 255)
    (now : Nat) :
    ∃ p, (u.tick now).1 =
      { u with
        currAngle := if 180 < u.advanced then 180 else if u.advanced < 0 then 0 else u.advanced,
        sweepClockwise :=
          if 180 < u.advanced then false else if u.advanced < 0 then true
          else u.sweepClockwise,
        pulseTimer := p } := by
  obtain ⟨hty, hst, hsp, hsz, hlo, hhi, hm, ha0, ha1⟩ := h
  have hadv : toInt16 (u.currAngle +
      (if u.sweepClockwise then (u.sweepStepSize : Int) else -(u.sweepStepSize : Int))) =
      u.advanced := by
    unfold advanced
    apply toInt16_of_small <;> split_ifs <;> omega
  have hup : ((u.sweepStart : Int) < u.advanced ∧ (u.sweepStop : Int) < u.advanced) ↔
      180 < u.advanced := by
    rw [hst, hsp]; push_cast; omega
  have hdown : (u.advanced < (u.sweepStart : Int) ∧ u.advanced < (u.sweepStop : Int)) ↔
      u.advanced < 0 := by
    rw [hst, hsp]; push_cast; omega
  unfold tick
  rw [sweep_reverse u now u.advanced hm hty hadv]
  simp only [hup, hdown, writeNoArg, write_fst, hlo, hhi, gt_iff_lt, Nat.cast_ofNat,
    Nat.cast_zero]
  exact ⟨_, rfl⟩

/-- The direction after one service of a `Reverse` sweep between `0` and `180`. -/
theorem tick_reverse_direction {v : ServoMotor} {step : Nat} (h : v.ReverseRun step)
    (hstep : step ≤ 255) (now : Nat) :
    (180 < v.advanced → (v.tick now).1.sweepClockwise = false) ∧
    (v.advanced < 0 → (v.tick now).1.sweepClockwise = true) ∧
    (0 ≤ v.advanced → v.advanced ≤ 180 →
      (v.tick now).1.sweepClockwise = v.sweepClockwise) := by
  obtain ⟨q, hq⟩ := tick_reverse h hstep now
  rw [hq]
  refine ⟨fun h => ?_, fun h => ?_, fun h1 h2 => ?_⟩
  · simp only [if_pos h]
  · have hn : ¬ 180 < v.advanced := by omega
    simp only [if_neg hn, if_pos h]
  · simp only [if_neg (not_lt.mpr h2), if_neg (not_lt.mpr h1)]

/-- The `Reverse` sweep between `0` and `180` keeps sweeping inside `0..180`. -/
theorem reverseRun_ticks {step : Nat} (hstep : step ≤ 255) (nows : List Nat) :
    ∀ {u : ServoMotor}, u.ReverseRun step → (u.ticks nows).ReverseRun step := by
  induction nows with
  | nil => intro u h; exact h
  | cons now rest ih =>
    intro u h
    apply ih
    obtain ⟨p, hp⟩ := tick_reverse h hstep now
    obtain ⟨hty, hst, hsp, hsz, hlo, hhi, hm, ha0, ha1⟩ := h
    rw [hp]
    refine ⟨hty, hst, hsp, hsz, hlo, hhi, hm, ?_, ?_⟩
    · show (0 : Int) ≤ if 180 < u.advanced then 180 else if u.advanced < 0 then 0 else u.advanced
      split_ifs <;> omega
    · show (if 180 < u.advanced then 180 else if u.advanced < 0 then 0 else u.advanced) ≤ (180 : Int)
      split_ifs <;> omega

end ServoMotor

namespace World

/-- The unit operation `enableTimer` as one update: the guarded statement never runs. -/
theorem enableTimer_eq (w : World) :
    w.enableTimer = { w with TIMSK2 := w.TIMSK2 ||| (1 <<< TOIE2) } := by
  unfold enableTimer
  simp

/-- The scan of the registry ends without fault when every slot it visits points to an
object. -/
theorem scanControlPin_isSome (w : World) (pin : Nat) (n : Nat) :
    ∀ i, (∀ j, i ≤ j → j < i + n →
        ∃ p, w.callback_servos[j]? = some (some p) ∧ p < w.objs.length) →
      ∃ r, scanControlPin w pin i n = some r := by
  induction n with
  | zero => intro i _; exact ⟨none, rfl⟩
  | succ n ih =>
    intro i h
    obtain ⟨p, hp, hlt⟩ := h i (le_refl i) (by omega)
    obtain ⟨r, hr⟩ := ih (i + 1) (fun j hj1 hj2 => h j (by omega) (by omega))
    have hu : w.objs[p]? = some (w.objs[p]) := List.getElem?_eq_getElem hlt
    unfold scanControlPin
    simp only [hp, hu]
    split_ifs
    · exact ⟨_, rfl⟩
    · exact ⟨r, hr⟩

/-- On a well-formed registry `enableCallback` returns, and leaves the objects and the trace
as they were. -/
theorem enableCallback_objs (w : World) (this : Nat) (u : ServoMotor) (hwf : w.WF)
    (hthis : w.objs[this]? = some u) :
    ∃ w1, w.enableCallback this = some w1 ∧ w1.objs = w.objs ∧ w1.trace = w.trace := by
  obtain ⟨hlen, hcap, hslots⟩ := hwf
  obtain ⟨r, hr⟩ := scanControlPin_isSome w.enableTimer u.controlPin w.enableTimer.last_servo 0
    (fun j _ hj => by
      rw [enableTimer_eq] at hj ⊢
      exact hslots j (by simpa using hj))
  unfold enableCallback
  simp only [hthis, hr]
  by_cases hfull : w.enableTimer.last_servo = MAX_SERVOS
  · rw [if_pos hfull]
    exact ⟨_, rfl, by rw [enableTimer_eq], by rw [enableTimer_eq]⟩
  · rw [if_neg hfull]
    cases r with
    | some i => exact ⟨_, rfl, by rw [enableTimer_eq], by rw [enableTimer_eq]⟩
    | none =>
      have hroom : w.enableTimer.last_servo < w.enableTimer.callback_servos.length := by
        rw [enableTimer_eq] at hfull ⊢
        simp only at hfull ⊢
        omega
      simp only [if_pos hroom]
      exact ⟨_, rfl, by rw [enableTimer_eq], by rw [enableTimer_eq]⟩

/-- On a well-formed registry `enableSweep` returns, and the object `this` is then the result
of the body of `enableSweep` on the former object. -/
theorem enableSweep_obj (w : World) (this : Nat) (u : ServoMotor) (step start stop : Int)
    (ty : SweepType) (now : Nat) (hwf : w.WF) (hthis : w.objs[this]? = some u) :
    ∃ w1, w.enableSweep this step start stop ty now = some w1 ∧
      w1.objs[this]? = some (u.enableSweepBody step start stop ty now).1 := by
  obtain ⟨w1, h1, hobjs, _⟩ := enableCallback_objs w this u hwf hthis
  have hthis1 : w1.objs[this]? = some u := by rw [hobjs]; exact hthis
  have hlt : this < w1.objs.length := by
    rw [hobjs]
    exact (List.getElem?_eq_some.mp hthis).1
  unfold enableSweep call
  simp only [h1, hthis1]
  exact ⟨_, rfl, List.getElem?_set_self hlt⟩


end World

/-! ## The `SkipReverse` sweep, `enableSweep` and the frame of `writeMicroseconds` -/

namespace ServoMotor

/-- The unit after `sweep()` under the `SkipReverse` policy. -/
theorem sweep_skip (u : ServoMotor) (now : Nat) (adv : Int) (hm : u.sweepMode = true)
    (hty : u.sweepType = SweepType.SkipReverse)
    (hadv : toInt16 (u.currAngle +
      (if u.sweepClockwise then (u.sweepStepSize : Int) else -(u.sweepStepSize : Int))) = adv) :
    u.sweep now =
      ({ u with
         currAngle :=
           if ((u.sweepStart : Int) < adv ∧ (u.sweepStop : Int) < adv) ∨
              (adv < (u.sweepStart : Int) ∧ adv < (u.sweepStop : Int))
           then (u.sweepStart : Int) else adv }, []) := by
  unfold sweep
  simp only [isSweeping, hm, hty, hadv, inRange_eq, Bool.not_true, Bool.false_eq_true, if_false]
  by_cases h1 : (u.sweepStart : Int) < adv ∧ (u.sweepStop : Int) < adv
  · rw [if_pos (Or.inl h1)]
    simp only [if_pos h1, ne_eq, reduceCtorEq, not_false_eq_true, if_true]
  · by_cases h2 : adv < (u.sweepStart : Int) ∧ adv < (u.sweepStop : Int)
    · rw [if_pos (Or.inr h2)]
      simp only [if_neg h1, if_pos h2, ne_eq, reduceCtorEq, not_false_eq_true, if_true]
    · rw [if_neg (not_or.mpr ⟨h1, h2⟩)]
      simp only [if_neg h1, if_neg h2, ne_eq, not_true_eq_false, if_false]

/-- One service of a unit in a `SkipReverse` sweep: one step up, or back to `start`. -/
theorem tick_skip {u : ServoMotor} {start stop step : Nat} (h : u.SkipRun start stop step)
    (now : Nat) :
    ∃ p, (u.tick now).1 =
      { u with
        currAngle :=
          if u.currAngle + (step : Int) ≤ (stop : Int) then u.currAngle + (step : Int)
          else (start : Int),
        pulseTimer := p } := by
  obtain ⟨hty, hst, hsp, hsz, hcw, hl, hlt, hh, h255, hs1, hs2, hm, ha0, ha1⟩ := h
  have hadv : toInt16 (u.currAngle +
      (if u.sweepClockwise then (u.sweepStepSize : Int) else -(u.sweepStepSize : Int))) =
      u.currAngle + (step : Int) := by
    rw [hcw, hsz]
    simp only [if_true]
    exact toInt16_of_small _ (by omega) (by omega)
  have hlo : (u.lowConstraint : Int) ≤ (start : Int) := by exact_mod_cast hl
  have hhi : (stop : Int) ≤ (u.highConstraint : Int) := by exact_mod_cast hh
  unfold tick
  rw [sweep_skip u now _ hm hty hadv]
  by_cases hle : u.currAngle + (step : Int) ≤ (stop : Int)
  · rw [if_neg (by rw [hst, hsp]; omega), if_pos hle]
    exact ⟨_, writeNoArg_fst { u with currAngle := u.currAngle + (step : Int) } now
      (by show (u.lowConstraint : Int) ≤ u.currAngle + (step : Int); omega)
      (by show u.currAngle + (step : Int) ≤ (u.highConstraint : Int); omega)⟩
  · have hs : (u.sweepStart : Int) = (start : Int) := by rw [hst]
    rw [if_pos (Or.inl (by rw [hst, hsp]; omega)), if_neg hle]
    refine ⟨if PULSE_DELAY < ulongSub now u.pulseTimer then now else u.pulseTimer, ?_⟩
    refine (writeNoArg_fst { u with currAngle := (u.sweepStart : Int) } now
      (by show (u.lowConstraint : Int) ≤ (u.sweepStart : Int); omega)
      (by show (u.sweepStart : Int) ≤ (u.highConstraint : Int); omega)).trans ?_
    simp only [hs]

/-- The `SkipReverse` sweep keeps sweeping between `start` and `stop`. -/
theorem skipRun_ticks {start stop step : Nat} (nows : List Nat) :
    ∀ {u : ServoMotor}, u.SkipRun start stop step → (u.ticks nows).SkipRun start stop step := by
  induction nows with
  | nil => intro u h; exact h
  | cons now rest ih =>
    intro u h
    apply ih
    obtain ⟨p, hp⟩ := tick_skip h now
    obtain ⟨hty, hst, hsp, hsz, hcw, hl, hlt, hh, h255, hs1, hs2, hm, ha0, ha1⟩ := h
    rw [hp]
    refine ⟨hty, hst, hsp, hsz, hcw, hl, hlt, hh, h255, hs1, hs2, hm, ?_, ?_⟩
    · show (start : Int) ≤
        if u.currAngle + (step : Int) ≤ (stop : Int) then u.currAngle + (step : Int)
        else (start : Int)
      split_ifs <;> omega
    · show (if u.currAngle + (step : Int) ≤ (stop : Int) then u.currAngle + (step : Int)
        else (start : Int)) ≤ (stop : Int)
      split_ifs <;> omega

/-- The angle after one service of a unit in a `SkipReverse` sweep. -/
theorem tick_skip_read {v : ServoMotor} {start stop step : Nat} (h : v.SkipRun start stop step)
    (now : Nat) :
    (v.read + (step : Int) ≤ (stop : Int) → (v.tick now).1.read = v.read + (step : Int)) ∧
    ((stop : Int) < v.read + (step : Int) → (v.tick now).1.read = (start : Int)) := by
  obtain ⟨p, hp⟩ := tick_skip h now
  rw [hp]
  unfold read
  refine ⟨fun h1 => ?_, fun h2 => ?_⟩
  · simp only [if_pos h1]
  · simp only [if_neg (not_le.mpr h2)]

/-- Claim C16: for every unit state, every width and every clock value, `writeMicroseconds`
leaves `read()`, the stored bounds, the control line and all sweep fields as they were, whether
or not it emitted a pulse: only the pulse timestamp can change. -/
theorem writeMicroseconds_keeps_angle (s : ServoMotor) (width : Int) (now : Nat) :
    (s.writeMicroseconds width now).1.read = s.read ∧
    (s.writeMicroseconds width now).1.lowConstraint = s.lowConstraint ∧
    (s.writeMicroseconds width now).1.highConstraint = s.highConstraint ∧
    (s.writeMicroseconds width now).1.controlPin = s.controlPin ∧
    (s.writeMicroseconds width now).1.sweepMode = s.sweepMode ∧
    (s.writeMicroseconds width now).1.sweepClockwise = s.sweepClockwise ∧
    (s.writeMicroseconds width now).1.sweepType = s.sweepType ∧
    (s.writeMicroseconds width now).1.sweepStepSize = s.sweepStepSize ∧
    (s.writeMicroseconds width now).1.sweepStart = s.sweepStart ∧
    (s.writeMicroseconds width now).1.sweepStop = s.sweepStop := by
  rw [writeMicroseconds_fst]
  exact ⟨rfl, rfl, rfl, rfl, rfl, rfl, rfl, rfl, rfl, rfl⟩

end ServoMotor

namespace World

/-- Claim C12, evaluated on a unit attached with bounds `0..180`: after
`enableSweep(5, -1, 180, Reverse)` the stored sweep start and `read()` are `180`, not
`clamp(-1, 0, 180) = 0`, and after `enableSweep(5, 0, 300, Reverse)` the stored sweep stop is
`44`, not `clamp(300, 0, 180) = 180`: the `int` arguments are narrowed to `uint8_t` before
they are clamped. The unit is sweeping and the direction is clockwise, as `start < stop`. -/
theorem enableSweep_narrows_before_clamp :
    ((World.start [(ServoMotor.zeroed.attach 9 0 180 0).2.1] 4 0).enableSweep 0 5 (-1) 180
        SweepType.Reverse 50).map
      (fun w => w.objs.map
        (fun u => (u.sweepStart, u.sweepStop, u.read, u.isSweeping, u.sweepClockwise))) =
      some [(180, 180, 180, true, true)] ∧
    clamp (-1) 0 180 = 0 ∧
    ((World.start [(ServoMotor.zeroed.attach 9 0 180 0).2.1] 4 0).enableSweep 0 5 0 300
        SweepType.Reverse 50).map
      (fun w => w.objs.map
        (fun u => (u.sweepStart, u.sweepStop, u.read, u.isSweeping, u.sweepClockwise))) =
      some [(0, 44, 0, true, true)] ∧
    clamp 300 0 180 = 180 :=
  ⟨by decide, by decide, by decide, by decide⟩

/-- Claim C20: `enableTimer()` never changes `TCCR2B`, whatever it holds: the test
`TCCR2B & B00000111 == 0` is `TCCR2B & 0`. With the timer stopped (`TCCR2B = 0`) the low three
bits stay `000` instead of becoming `101`. The `TOIE2` bit of `TIMSK2` is set, and a second call
changes nothing further. -/
theorem enableTimer_leaves_prescaler (w : World) :
    w.enableTimer.TCCR2B = w.TCCR2B ∧
    (World.start [] 0 0).enableTimer.TCCR2B % 8 = 0 ∧
    (World.start [] 0 0).enableTimer.TCCR2B % 8 ≠ 5 ∧
    w.enableTimer.TIMSK2 = w.TIMSK2 ||| 1 ∧
    w.enableTimer.enableTimer = w.enableTimer := by
  refine ⟨by rw [enableTimer_eq], by decide, by decide, by rw [enableTimer_eq]; rfl, ?_⟩
  rw [enableTimer_eq, enableTimer_eq]
  simp only [TOIE2, Nat.shiftLeft_zero, Nat.lor_assoc, Nat.or_self]

/-- The loop of the interrupt handler ends without fault when every slot it visits points to
an object; it leaves the registry, the timestamp and the number of objects as they were. -/
theorem serviceLoop_isSome (now : Nat) (n : Nat) :
    ∀ (w : World) (i : Nat),
      (∀ j, i ≤ j → j < i + n →
        ∃ p, w.callback_servos[j]? = some (some p) ∧ p < w.objs.length) →
      ∃ w1, serviceLoop now w i n = some w1 ∧ w1.callback_servos = w.callback_servos ∧
        w1.last_servo = w.last_servo ∧ w1.timer = w.timer ∧
        w1.objs.length = w.objs.length := by
  induction n with
  | zero => intro w i _; exact ⟨w, rfl, rfl, rfl, rfl, rfl⟩
  | succ n ih =>
    intro w i h
    obtain ⟨p, hp, hlt⟩ := h i (le_refl i) (by omega)
    have hu : w.objs[p]? = some (w.objs[p]) := List.getElem?_eq_getElem hlt
    obtain ⟨w1, h1, hcs, hls, htm, hlen⟩ := ih
      { w with objs := w.objs.set p ((w.objs[p]).tick now).1,
               trace := w.trace ++ ((w.objs[p]).tick now).2 } (i + 1)
      (fun j hj1 hj2 => by
        obtain ⟨q, hq, hqlt⟩ := h j (by omega) (by omega)
        exact ⟨q, hq, by simpa using hqlt⟩)
    refine ⟨w1, ?_, hcs, hls, htm, by simpa using hlen⟩
    unfold serviceLoop call
    simp only [hp, hu]
    exact h1

/-- Claim C19: with the clock as an input, on a well-formed registry, if the interrupt handler
runs at `t1` and executes its body (more than `DELAY = 30` ms after the stored timestamp), it
returns the state produced by servicing the registry entries in order with the timestamp set to
`t1`; a second run at `t2 ≥ t1` less than `DELAY` ms later returns that state unchanged: no
unit changes, the timestamp stays `t1` and no event is added to the trace. -/
theorem isr_no_double_fire (w : World) (t1 t2 : Nat) (hwf : w.WF)
    (hbody : DELAY < ulongSub t1 w.timer) (h12 : t1 ≤ t2) (hlt : t2 - t1 < DELAY) :
    ∃ w0 w1, serviceLoop t1 w 0 w.last_servo = some w0 ∧
      w1 = { w0 with timer := t1 } ∧
      w.ISR_TIMER2_OVF t1 = some w1 ∧
      w1.ISR_TIMER2_OVF t2 = some w1 := by
  obtain ⟨_, _, hslots⟩ := hwf
  obtain ⟨w0, h0, _, _, _, _⟩ := serviceLoop_isSome t1 w.last_servo w 0
    (fun j _ hj => hslots j (by omega))
  refine ⟨w0, { w0 with timer := t1 }, h0, rfl, ?_, ?_⟩
  · unfold ISR_TIMER2_OVF
    simp only [gt_iff_lt, hbody, if_true, h0]
  · have hquiet : ¬ DELAY < ulongSub t2 t1 := by
      unfold ulongSub DELAY at *
      omega
    unfold ISR_TIMER2_OVF
    simp only [gt_iff_lt, hquiet, if_false]

/-- Witness of C19: in the example state the handler runs at `100`, services the unit (its
angle becomes `10`) and runs again at `120`. -/
theorem isr_no_double_fire_witness :
    oneSweeping.WF ∧ DELAY < ulongSub 100 oneSweeping.timer ∧ 100 ≤ 120 ∧
    120 - 100 < DELAY ∧
    ∃ w0 w1,
      serviceLoop 100 oneSweeping 0 oneSweeping.last_servo = some w0 ∧
      w0.objs.map ServoMotor.read = [10] ∧
      w1 = { w0 with timer := 100 } ∧
      oneSweeping.ISR_TIMER2_OVF 100 = some w1 ∧
      w1.ISR_TIMER2_OVF 120 = some w1 := by
  have hwf : oneSweeping.WF := by
    refine ⟨rfl, by decide, fun i hi => ?_⟩
    have hi1 : i < 1 := hi
    interval_cases i
    exact ⟨0, rfl, by decide⟩
  obtain ⟨w0, w1, h0, h1, h2, h3⟩ := isr_no_double_fire oneSweeping 100 120 hwf (by decide)
    (by decide) (by decide)
  have hread : (serviceLoop 100 oneSweeping 0 oneSweeping.last_servo).map
      (fun w => w.objs.map ServoMotor.read) = some [10] := by decide
  rw [h0] at hread
  exact ⟨hwf, by decide, by decide, by decide, w0, w1, h0, Option.some.inj hread, h1, h2, h3⟩

end World

/-! ## The registry -/

namespace World

/-- The scan of the registry reads only the registry array and the objects. -/
theorem scanControlPin_congr (w v : World) (pin : Nat) (hcs : v.callback_servos = w.callback_servos)
    (hobjs : v.objs = w.objs) (n : Nat) :
    ∀ i, scanControlPin v pin i n = scanControlPin w pin i n := by
  induction n with
  | zero => intro i; rfl
  | succ n ih =>
    intro i
    unfold scanControlPin
    rw [hcs, hobjs]
    simp only [ih]

/-- What the scan of the registry returns when every slot it visits points to an object:
the first index whose unit has the control line `pin`, if there is one. -/
theorem scanControlPin_spec (w : World) (pin : Nat) (n : Nat) :
    ∀ i, (∀ j, i ≤ j → j < i + n →
        ∃ p, w.callback_servos[j]? = some (some p) ∧ p < w.objs.length) →
      (scanControlPin w pin i n = some none ∧ w.NoPinIn pin i (i + n)) ∨
      (∃ r, scanControlPin w pin i n = some (some r) ∧ i ≤ r ∧ r < i + n ∧
        w.PinAt pin r ∧ w.NoPinIn pin i r) := by
  induction n with
  | zero =>
    intro i _
    exact Or.inl ⟨rfl, fun j h1 h2 => absurd h2 (by omega)⟩
  | succ n ih =>
    intro i h
    obtain ⟨p, hp, hlt⟩ := h i (le_refl i) (by omega)
    have hu : w.objs[p]? = some (w.objs[p]) := List.getElem?_eq_getElem hlt
    by_cases hpin : (w.objs[p]).controlPin = pin
    · right
      refine ⟨i, ?_, le_refl i, by omega, ⟨p, _, hp, hu, hpin⟩, fun j h1 h2 => absurd h2 (by omega)⟩
      unfold scanControlPin
      simp only [hp, hu, hpin, if_true]
    · have hstep : scanControlPin w pin i (n + 1) = scanControlPin w pin (i + 1) n := by
        conv_lhs => unfold scanControlPin
        simp only [hp, hu, hpin, if_false]
      have hnot : ¬ w.PinAt pin i := by
        rintro ⟨q, v, hq, hv, hvp⟩
        rw [hp] at hq
        have hqp : p = q := Option.some.inj (Option.some.inj hq)
        subst hqp
        rw [hu] at hv
        exact hpin (by rw [Option.some.inj hv]; exact hvp)
      rcases ih (i + 1) (fun j hj1 hj2 => h j (by omega) (by omega)) with ⟨hs, hno⟩ | ⟨r, hs, hr1, hr2, hat, hno⟩
      · left
        refine ⟨by rw [hstep, hs], fun j h1 h2 => ?_⟩
        by_cases hji : j = i
        · rw [hji]; exact hnot
        · exact hno j (by omega) (by omega)
      · right
        refine ⟨r, by rw [hstep, hs], by omega, by omega, hat, fun j h1 h2 => ?_⟩
        by_cases hji : j = i
        · rw [hji]; exact hnot
        · exact hno j (by omega) h2

/-- `PinAt` reads only the registry array and the objects. -/
theorem pinAt_congr {w v : World} (hcs : v.callback_servos = w.callback_servos)
    (hobjs : v.objs = w.objs) (pin r : Nat) : v.PinAt pin r ↔ w.PinAt pin r := by
  unfold PinAt
  rw [hcs, hobjs]

/-- A second `enableTimer()` changes nothing. -/
theorem enableTimer_idem (w : World) : w.enableTimer.enableTimer = w.enableTimer := by
  rw [enableTimer_eq, enableTimer_eq]
  simp only [TOIE2, Nat.shiftLeft_zero, Nat.lor_assoc, Nat.or_self]

/-- The three outcomes of `enableCallback` on a well-formed registry: registry full, a
registered unit already has the control line of the caller, or the caller is appended. -/
theorem enableCallback_spec (w : World) (this : Nat) (u : ServoMotor) (hwf : w.WF)
    (hthis : w.objs[this]? = some u) :
    (w.last_servo = MAX_SERVOS ∧ w.enableCallback this = some w.enableTimer) ∨
    (w.last_servo < MAX_SERVOS ∧ (∃ r, r < w.last_servo ∧ w.PinAt u.controlPin r) ∧
      w.enableCallback this = some w.enableTimer) ∨
    (w.last_servo < MAX_SERVOS ∧ w.NoPinIn u.controlPin 0 w.last_servo ∧
      w.enableCallback this =
        some { w.enableTimer with
          callback_servos := w.callback_servos.set w.last_servo (some this),
          last_servo := w.last_servo + 1 }) := by
  obtain ⟨hlen, hcap, hslots⟩ := hwf
  have hscan : scanControlPin w.enableTimer u.controlPin 0 w.last_servo =
      scanControlPin w u.controlPin 0 w.last_servo :=
    scanControlPin_congr w w.enableTimer u.controlPin (by rw [enableTimer_eq])
      (by rw [enableTimer_eq]) w.last_servo 0
  have hls : w.enableTimer.last_servo = w.last_servo := by rw [enableTimer_eq]
  have hcs : w.enableTimer.callback_servos = w.callback_servos := by rw [enableTimer_eq]
  unfold enableCallback
  simp only [hthis, hls, hscan, hcs]
  by_cases hfull : w.last_servo = MAX_SERVOS
  · left
    exact ⟨hfull, by rw [if_pos hfull]⟩
  · right
    have hlt : w.last_servo < MAX_SERVOS := lt_of_le_of_ne hcap hfull
    rw [if_neg hfull]
    rcases scanControlPin_spec w u.controlPin w.last_servo 0
      (fun j _ hj => hslots j (by omega)) with ⟨hs, hno⟩ | ⟨r, hs, _, hr, hat, _⟩
    · right
      refine ⟨hlt, by simpa using hno, ?_⟩
      rw [hs]
      have hroom : w.last_servo < w.callback_servos.length := by rw [hlen]; exact hlt
      have hmod : (w.last_servo + 1) % 256 = w.last_servo + 1 := by
        unfold MAX_SERVOS at hlt
        omega
      simp only [if_pos hroom, hmod]
    · left
      refine ⟨hlt, ⟨r, by omega, hat⟩, ?_⟩
      rw [hs]

/-- The shift loop of `disableCallback` on the four slots of the registry: the slot at
`r` is dropped, the later ones move down and the last one is kept twice. -/
theorem shiftLeft_eq (cs : List (Option Nat)) (r : Nat) (hlen : cs.length = MAX_SERVOS)
    (hr : r < MAX_SERVOS) :
    shiftLeft cs (r + 1) (MAX_SERVOS - (r + 1)) = cs.eraseIdx r ++ [cs.getD 3 none] := by
  unfold MAX_SERVOS at *
  rcases cs with _ | ⟨a, _ | ⟨b, _ | ⟨c, _ | ⟨d, _ | ⟨e, t⟩⟩⟩⟩⟩ <;>
    simp only [List.length_nil, List.length_cons] at hlen <;> try omega
  interval_cases r <;> rfl

/-- The registered entries after the shift loop and the decrement of `last_servo`. -/
theorem take_shifted (cs : List (Option Nat)) (r n : Nat) (hlen : cs.length = MAX_SERVOS)
    (hr : r < n) (hn : n ≤ MAX_SERVOS) :
    (cs.eraseIdx r ++ [cs.getD 3 none]).take (n - 1) = (cs.take n).eraseIdx r := by
  unfold MAX_SERVOS at *
  rcases cs with _ | ⟨a, _ | ⟨b, _ | ⟨c, _ | ⟨d, _ | ⟨e, t⟩⟩⟩⟩⟩ <;>
    simp only [List.length_nil, List.length_cons] at hlen <;> try omega
  interval_cases n <;> interval_cases r <;> rfl

/-- The two outcomes of `disableCallback` on a well-formed registry: no registered unit has
the control line of the caller and nothing changes, or the first entry whose unit has that
control line is dropped. -/
theorem disableCallback_spec (w : World) (this : Nat) (u : ServoMotor) (hwf : w.WF)
    (hthis : w.objs[this]? = some u) :
    (w.NoPinIn u.controlPin 0 w.last_servo ∧ w.disableCallback this = some w) ∨
    (∃ r, r < w.last_servo ∧ w.PinAt u.controlPin r ∧ w.NoPinIn u.controlPin 0 r ∧
      w.disableCallback this =
        some { w with
          callback_servos := w.callback_servos.eraseIdx r ++ [w.callback_servos.getD 3 none],
          last_servo := w.last_servo - 1 }) := by
  obtain ⟨hlen, hcap, hslots⟩ := hwf
  unfold disableCallback
  simp only [hthis]
  rcases scanControlPin_spec w u.controlPin w.last_servo 0
    (fun j _ hj => hslots j (by omega)) with ⟨hs, hno⟩ | ⟨r, hs, _, hr, hat, hno⟩
  · left
    rw [hs]
    exact ⟨by simpa using hno, rfl⟩
  · right
    have hr' : r < w.last_servo := by omega
    refine ⟨r, hr', hat, hno, ?_⟩
    rw [hs]
    have hmod : (w.last_servo + 255) % 256 = w.last_servo - 1 := by
      unfold MAX_SERVOS at hcap
      omega
    simp only [shiftLeft_eq w.callback_servos r hlen (by omega), hmod]

/-- The state at program start is well formed. -/
theorem start_wf (objs : List ServoMotor) (tccr2b timsk2 : Nat) :
    (World.start objs tccr2b timsk2).WF :=
  ⟨List.length_replicate _ _, Nat.zero_le _, fun i hi => absurd hi (Nat.not_lt_zero i)⟩

/-- A method that only touches its own object returns and keeps the registry well formed. -/
theorem call_wf (w : World) (this : Nat) (method : ServoMotor → ServoMotor × List Event)
    (hwf : w.WF) (hthis : this < w.objs.length) :
    ∃ w1, w.call this method = some w1 ∧ w1.WF ∧ w1.objs.length = w.objs.length ∧
      w1.callback_servos = w.callback_servos ∧ w1.last_servo = w.last_servo ∧
      w1.objs = w.objs.set this (method (w.objs[this])).1 := by
  have hu : w.objs[this]? = some (w.objs[this]) := List.getElem?_eq_getElem hthis
  obtain ⟨hlen, hcap, hslots⟩ := hwf
  unfold call
  simp only [hu]
  refine ⟨_, rfl, ⟨hlen, hcap, fun i hi => ?_⟩, by simp, rfl, rfl, rfl⟩
  obtain ⟨p, hp, hlt⟩ := hslots i hi
  exact ⟨p, hp, by simpa using hlt⟩

/-- On a well-formed registry `enableCallback` returns and keeps the registry well formed and
the objects as they were. -/
theorem enableCallback_wf (w : World) (this : Nat) (hwf : w.WF) (hthis : this < w.objs.length) :
    ∃ w1, w.enableCallback this = some w1 ∧ w1.WF ∧ w1.objs = w.objs := by
  have hu : w.objs[this]? = some (w.objs[this]) := List.getElem?_eq_getElem hthis
  have hwf0 := hwf
  obtain ⟨hlen, hcap, hslots⟩ := hwf0
  have hwft : w.enableTimer.WF := by
    rw [enableTimer_eq]
    exact ⟨hlen, hcap, hslots⟩
  rcases enableCallback_spec w this _ hwf hu with ⟨_, h⟩ | ⟨_, _, h⟩ | ⟨hlt, _, h⟩
  · exact ⟨_, h, hwft, by rw [enableTimer_eq]⟩
  · exact ⟨_, h, hwft, by rw [enableTimer_eq]⟩
  · refine ⟨_, h, ⟨?_, ?_, fun i hi => ?_⟩, by rw [enableTimer_eq]⟩
    · show (w.callback_servos.set w.last_servo (some this)).length = MAX_SERVOS
      rw [List.length_set]
      exact hlen
    · exact hlt
    · have hi' : i < w.last_servo + 1 := hi
      show ∃ p, (w.callback_servos.set w.last_servo (some this))[i]? = some (some p) ∧
        p < w.enableTimer.objs.length
      rw [enableTimer_eq]
      by_cases hil : i = w.last_servo
      · subst hil
        exact ⟨this, List.getElem?_set_self (by rw [hlen]; exact hlt), hthis⟩
      · rw [List.getElem?_set_ne (Ne.symm hil)]
        exact hslots i (by omega)

/-- On a well-formed registry `disableCallback` returns and keeps the registry well formed
and the objects as they were. -/
theorem disableCallback_wf (w : World) (this : Nat) (hwf : w.WF)
    (hthis : this < w.objs.length) :
    ∃ w1, w.disableCallback this = some w1 ∧ w1.WF ∧ w1.objs = w.objs := by
  have hu : w.objs[this]? = some (w.objs[this]) := List.getElem?_eq_getElem hthis
  have hwf0 := hwf
  obtain ⟨hlen, hcap, hslots⟩ := hwf0
  rcases disableCallback_spec w this _ hwf hu with ⟨_, h⟩ | ⟨r, hr, _, _, h⟩
  · exact ⟨_, h, hwf, rfl⟩
  · refine ⟨_, h, ⟨?_, ?_, fun i hi => ?_⟩, rfl⟩
    · show (w.callback_servos.eraseIdx r ++ [w.callback_servos.getD 3 none]).length = MAX_SERVOS
      rw [List.length_append, List.length_eraseIdx_of_lt (by rw [hlen]; omega), hlen]
      rfl
    · show w.last_servo - 1 ≤ MAX_SERVOS
      omega
    · have hi' : i < w.last_servo - 1 := hi
      show ∃ p, (w.callback_servos.eraseIdx r ++ [w.callback_servos.getD 3 none])[i]? =
        some (some p) ∧ p < w.objs.length
      have hil : i < (w.callback_servos.eraseIdx r).length := by
        rw [List.length_eraseIdx_of_lt (by rw [hlen]; omega), hlen]
        omega
      rw [List.getElem?_append_left hil, List.getElem?_eraseIdx]
      split_ifs
      · exact hslots i (by omega)
      · exact hslots (i + 1) (by omega)

/-- On a well-formed registry every call on an object of the program returns and keeps the
registry well formed and the number of objects. -/
theorem step_wf (w : World) (op : Op) (hwf : w.WF) (hunit : op.unit < w.objs.length) :
    ∃ w1, w.step op = some w1 ∧ w1.WF ∧ w1.objs.length = w.objs.length := by
  cases op with
  | attach this pin lo hi now =>
    obtain ⟨w1, h1, hwf1, hlen1, _⟩ := call_wf w this _ hwf hunit
    exact ⟨w1, h1, hwf1, hlen1⟩
  | enableCallback this =>
    obtain ⟨w1, h1, hwf1, hobjs⟩ := enableCallback_wf w this hwf hunit
    exact ⟨w1, h1, hwf1, by rw [hobjs]⟩
  | disableCallback this =>
    obtain ⟨w1, h1, hwf1, hobjs⟩ := disableCallback_wf w this hwf hunit
    exact ⟨w1, h1, hwf1, by rw [hobjs]⟩
  | enableSweep this sz st sp ty now =>
    obtain ⟨w1, h1, hwf1, hobjs⟩ := enableCallback_wf w this hwf hunit
    obtain ⟨w2, h2, hwf2, hlen2, _⟩ := call_wf w1 this
      (fun s => s.enableSweepBody sz st sp ty now) hwf1 (by rw [hobjs]; exact hunit)
    refine ⟨w2, ?_, hwf2, by rw [hlen2, hobjs]⟩
    show w.enableSweep this sz st sp ty now = some w2
    unfold enableSweep
    simp only [h1]
    exact h2

/-- From a well-formed registry every succession of calls on objects of the program returns
and ends in a well-formed registry. -/
theorem run_wf (ops : List Op) :
    ∀ (w : World), w.WF → (∀ op ∈ ops, op.unit < w.objs.length) →
      ∃ wN, w.run ops = some wN ∧ wN.WF ∧ wN.objs.length = w.objs.length := by
  induction ops with
  | nil => intro w hwf _; exact ⟨w, rfl, hwf, rfl⟩
  | cons op rest ih =>
    intro w hwf hunits
    obtain ⟨w1, h1, hwf1, hlen1⟩ := step_wf w op hwf (hunits op (List.mem_cons_self _ _))
    obtain ⟨wN, hN, hwfN, hlenN⟩ := ih w1 hwf1
      (fun o ho => by rw [hlen1]; exact hunits o (List.mem_cons_of_mem _ ho))
    refine ⟨wN, ?_, hwfN, by rw [hlenN, hlen1]⟩
    show (match w.step op with
      | some w1 => run w1 rest
      | none => none) = some wN
    rw [h1]
    exact hN

/-- `enableTimer()` changes nothing once the `TOIE2` bit is set. -/
theorem enableTimer_fixed (v : World) (h : v.TIMSK2 ||| (1 <<< TOIE2) = v.TIMSK2) :
    v.enableTimer = v := by
  rw [enableTimer_eq, h]

/-- The registered entries are not touched by `enableTimer()`. -/
theorem entries_enableTimer (w : World) : w.enableTimer.entries = w.entries := by
  rw [enableTimer_eq]
  rfl

/-- The registered entries after the caller is stored in slot `n` and `last_servo` becomes
`n + 1`. -/
theorem take_set_succ (cs : List (Option Nat)) (n : Nat) (x : Option Nat)
    (hlen : cs.length = MAX_SERVOS) (hn : n < MAX_SERVOS) :
    (cs.set n x).take (n + 1) = cs.take n ++ [x] := by
  unfold MAX_SERVOS at *
  rcases cs with _ | ⟨a, _ | ⟨b, _ | ⟨c, _ | ⟨d, _ | ⟨e, t⟩⟩⟩⟩⟩ <;>
    simp only [List.length_nil, List.length_cons] at hlen <;> try omega
  interval_cases n <;> rfl

/-- A registered unit is found by the scan for its own control line. -/
theorem pinAt_of_mem_entries (w : World) (this : Nat) (u : ServoMotor)
    (hthis : w.objs[this]? = some u) (hreg : some this ∈ w.entries) :
    ∃ j, j < w.last_servo ∧ w.callback_servos[j]? = some (some this) ∧
      w.PinAt u.controlPin j := by
  obtain ⟨j, hj⟩ := List.mem_iff_getElem?.mp hreg
  unfold entries at hj
  rw [List.getElem?_take] at hj
  split_ifs at hj with hlt
  exact ⟨j, hlt, hj, this, u, hj, hthis, rfl⟩

/-- Claim C14: when the registry holds `MAX_SERVOS = 4` entries, `enableCallback()` on any unit
returns and leaves the registry array, `last_servo` and so the registered entries (and the
objects) as they were; and from the start of the program every succession of `attach`,
`enableCallback`, `disableCallback` and `enableSweep` calls on objects of the program returns
and ends in a state whose registry holds at most `MAX_SERVOS` entries. -/
theorem registry_capacity (w : World) (this : Nat) (u : ServoMotor)
    (hthis : w.objs[this]? = some u) (hfull : w.last_servo = MAX_SERVOS) :
    (∃ w1, w.enableCallback this = some w1 ∧ w1.callback_servos = w.callback_servos ∧
      w1.last_servo = w.last_servo ∧ w1.entries = w.entries ∧ w1.objs = w.objs) ∧
    (∀ (objs : List ServoMotor) (tccr2b timsk2 : Nat) (ops : List Op),
      (∀ op ∈ ops, op.unit < objs.length) →
      ∃ wN, (World.start objs tccr2b timsk2).run ops = some wN ∧
        wN.last_servo ≤ MAX_SERVOS ∧ wN.entries.length ≤ MAX_SERVOS) := by
  constructor
  · have hls : w.enableTimer.last_servo = MAX_SERVOS := by rw [enableTimer_eq]; exact hfull
    refine ⟨w.enableTimer, ?_, by rw [enableTimer_eq], by rw [enableTimer_eq],
      entries_enableTimer w, by rw [enableTimer_eq]⟩
    unfold enableCallback
    simp only [hthis, hls, if_true]
  · intro objs tccr2b timsk2 ops hunits
    obtain ⟨wN, hN, ⟨_, hcap, _⟩, _⟩ := run_wf ops (World.start objs tccr2b timsk2)
      (start_wf objs tccr2b timsk2) hunits
    refine ⟨wN, hN, hcap, ?_⟩
    unfold entries
    rw [List.length_take]
    exact le_trans (min_le_left _ _) hcap

/-- Witness of C14: in the example state with four registered units, `enableCallback()` on
the fifth unit. -/
theorem registry_capacity_witness :
    fourRegistered.objs[4]? = some (ServoMotor.zeroed.attach 6 0 180 0).2.1 ∧
    fourRegistered.last_servo = MAX_SERVOS ∧
    ∃ w1, fourRegistered.enableCallback 4 = some w1 ∧
      w1.entries = [some 0, some 1, some 2, some 3] :=
  ⟨by decide, by decide,
   (registry_capacity fourRegistered 4 (ServoMotor.zeroed.attach 6 0 180 0).2.1 (by decide)
      (by decide)).1.elim
     (fun w1 h => ⟨w1, h.1, h.2.2.2.1.trans (by decide)⟩)⟩

/-- Claim C13 as stated fails: three units, the first two registered on the lines `9` and
`10`, the second then attached to line `9`, the third attached to line `9` too. The registry
holds two entries (fewer than `MAX_SERVOS`), and after `enableCallback()` is called twice on
the third unit it holds no entry for that unit, and two entries with its control line. -/
theorem enableCallback_shared_line_not_entered :
    (threeUnits.run
      [Op.attach 0 9 0 180 0, Op.attach 1 10 0 180 0, Op.enableCallback 0, Op.enableCallback 1,
       Op.attach 1 9 0 180 0, Op.attach 2 9 0 180 0]).map
      (fun w => (w.entries, decide (w.last_servo < MAX_SERVOS))) =
      some ([some 0, some 1], true) ∧
    (threeUnits.run
      [Op.attach 0 9 0 180 0, Op.attach 1 10 0 180 0, Op.enableCallback 0, Op.enableCallback 1,
       Op.attach 1 9 0 180 0, Op.attach 2 9 0 180 0, Op.enableCallback 2,
       Op.enableCallback 2]).map
      (fun w => (w.entries, w.entries.count (some 2), w.pins, w.pins.count (some 9))) =
      some ([some 0, some 1], 0, [some 9, some 9], 2) :=
  ⟨by decide, by decide⟩

/-- Claim C13 as amended: on a well-formed registry, for an attached unit, `enableCallback()`
returns, and a second call returns the same state as the first. If the registry was not full
and no registered unit had the control line of the caller, the first call appends one entry
for the caller, and the registry then holds exactly one entry for it; if the registry was full
or a registered unit already had that control line, the registry is unchanged. -/
theorem enableCallback_idempotent (w : World) (this : Nat) (u : ServoMotor) (hwf : w.WF)
    (hthis : w.objs[this]? = some u) (_hatt : u.isAttached = true) :
    ∃ w1, w.enableCallback this = some w1 ∧ w1.enableCallback this = some w1 ∧
      (w.last_servo < MAX_SERVOS → w.NoPinIn u.controlPin 0 w.last_servo →
        w1.entries = w.entries ++ [some this] ∧ w1.entries.count (some this) = 1) ∧
      ((w.last_servo = MAX_SERVOS ∨ ∃ r, r < w.last_servo ∧ w.PinAt u.controlPin r) →
        w1.entries = w.entries) := by
  have hlt : this < w.objs.length := (List.getElem?_eq_some.mp hthis).1
  obtain ⟨w1, h1, hwf1, hobjs1⟩ := enableCallback_wf w this hwf hlt
  have hthis1 : w1.objs[this]? = some u := by rw [hobjs1]; exact hthis
  have hwf0 := hwf
  obtain ⟨hlen, hcap, hslots⟩ := hwf0
  refine ⟨w1, h1, ?_, ?_, ?_⟩
  · rcases enableCallback_spec w this u hwf hthis with ⟨hfull, h⟩ | ⟨hnf, ⟨r, hr, hat⟩, h⟩ |
      ⟨hnf, hno, h⟩
    · have hw1 : w1 = w.enableTimer := Option.some.inj (h1.symm.trans h)
      rcases enableCallback_spec w1 this u hwf1 hthis1 with ⟨_, h2⟩ | ⟨hnf2, _, _⟩ |
        ⟨hnf2, _, _⟩
      · rw [h2, hw1, enableTimer_idem]
      · rw [hw1, enableTimer_eq] at hnf2
        exact absurd hfull (Nat.ne_of_lt hnf2)
      · rw [hw1, enableTimer_eq] at hnf2
        exact absurd hfull (Nat.ne_of_lt hnf2)
    · have hw1 : w1 = w.enableTimer := Option.some.inj (h1.symm.trans h)
      rcases enableCallback_spec w1 this u hwf1 hthis1 with ⟨_, h2⟩ | ⟨_, _, h2⟩ |
        ⟨_, hno2, _⟩
      · rw [h2, hw1, enableTimer_idem]
      · rw [h2, hw1, enableTimer_idem]
      · exfalso
        have hat1 : w1.PinAt u.controlPin r :=
          (pinAt_congr (by rw [hw1, enableTimer_eq]) hobjs1 u.controlPin r).mpr hat
        have hls1 : w1.last_servo = w.last_servo := by rw [hw1, enableTimer_eq]
        exact hno2 r (Nat.zero_le r) (by rw [hls1]; exact hr) hat1
    · have hw1 : w1 = { w.enableTimer with
          callback_servos := w.callback_servos.set w.last_servo (some this),
          last_servo := w.last_servo + 1 } := Option.some.inj (h1.symm.trans h)
      have hfix : w1.enableTimer = w1 := by
        apply enableTimer_fixed
        rw [hw1, enableTimer_eq]
        simp only [TOIE2, Nat.shiftLeft_zero, Nat.lor_assoc, Nat.or_self]
      rcases enableCallback_spec w1 this u hwf1 hthis1 with ⟨_, h2⟩ | ⟨_, _, h2⟩ |
        ⟨_, hno2, _⟩
      · rw [h2, hfix]
      · rw [h2, hfix]
      · exfalso
        have hslot : w1.callback_servos[w.last_servo]? = some (some this) := by
          rw [hw1]
          exact List.getElem?_set_self (by rw [hlen]; exact hnf)
        have hls1 : w1.last_servo = w.last_servo + 1 := by rw [hw1]
        exact hno2 w.last_servo (Nat.zero_le _) (by rw [hls1]; omega)
          ⟨this, u, hslot, hthis1, rfl⟩
  · intro hnf hno
    rcases enableCallback_spec w this u hwf hthis with ⟨hfull, _⟩ | ⟨_, ⟨r, hr, hat⟩, _⟩ |
      ⟨_, _, h⟩
    · exact absurd hfull (Nat.ne_of_lt hnf)
    · exact absurd hat (hno r (Nat.zero_le r) hr)
    · have hw1 : w1 = { w.enableTimer with
          callback_servos := w.callback_servos.set w.last_servo (some this),
          last_servo := w.last_servo + 1 } := Option.some.inj (h1.symm.trans h)
      have hent : w1.entries = w.entries ++ [some this] := by
        rw [hw1]
        exact take_set_succ w.callback_servos w.last_servo (some this) hlen hnf
      refine ⟨hent, ?_⟩
      have hnot : some this ∉ w.entries := by
        intro hmem
        obtain ⟨j, hj, _, hat⟩ := pinAt_of_mem_entries w this u hthis hmem
        exact hno j (Nat.zero_le j) hj hat
      rw [hent, List.count_append, List.count_eq_zero.mpr hnot, List.count_singleton_self]
  · intro hor
    rcases enableCallback_spec w this u hwf hthis with ⟨_, h⟩ | ⟨_, _, h⟩ | ⟨hnf, hno, _⟩
    · rw [Option.some.inj (h1.symm.trans h)]
      exact entries_enableTimer w
    · rw [Option.some.inj (h1.symm.trans h)]
      exact entries_enableTimer w
    · rcases hor with hfull | ⟨r, hr, hat⟩
      · exact absurd hfull (Nat.ne_of_lt hnf)
      · exact absurd hat (hno r (Nat.zero_le r) hr)

/-- Witness of C13 as amended: at program start, a unit attached to line `9` is registered
twice. -/
theorem enableCallback_idempotent_witness :
    (World.start [(ServoMotor.zeroed.attach 9 0 180 0).2.1] 4 0).WF ∧
    (ServoMotor.zeroed.attach 9 0 180 0).2.1.isAttached = true ∧
    ∃ w1,
      (World.start [(ServoMotor.zeroed.attach 9 0 180 0).2.1] 4 0).enableCallback 0 = some w1 ∧
      w1.enableCallback 0 = some w1 ∧ w1.entries = [some 0] ∧
      w1.entries.count (some 0) = 1 := by
  obtain ⟨w1, h1, h2, h3, _⟩ :=
    enableCallback_idempotent (World.start [(ServoMotor.zeroed.attach 9 0 180 0).2.1] 4 0) 0
      (ServoMotor.zeroed.attach 9 0 180 0).2.1 (start_wf _ _ _) rfl (by decide)
  have h4 := h3 (by decide) (fun j _ hj => absurd hj (Nat.not_lt_zero j))
  exact ⟨start_wf _ _ _, by decide, w1, h1, h2, h4.1, h4.2⟩

/-- The registered entries after `disableCallback` dropped the slot at `r`. -/
theorem entries_dropped (w : World) (r : Nat) (hwf : w.WF) (hr : r < w.last_servo) :
    World.entries
      { w with
        callback_servos := w.callback_servos.eraseIdx r ++ [w.callback_servos.getD 3 none],
        last_servo := w.last_servo - 1 } = w.entries.eraseIdx r :=
  take_shifted w.callback_servos r w.last_servo hwf.1 hr hwf.2.1

/-- The first slot whose unit has the control line `pin` is unique. -/
theorem first_pinAt_unique (w : World) (pin r s : Nat) (hr : w.PinAt pin r)
    (hnr : w.NoPinIn pin 0 r) (hs : w.PinAt pin s) (hns : w.NoPinIn pin 0 s) : r = s := by
  rcases Nat.lt_trichotomy r s with h | h | h
  · exact absurd hr (hns r (Nat.zero_le r) h)
  · exact h
  · exact absurd hs (hnr s (Nat.zero_le s) h)

/-- Claim C15 as stated fails: two units registered on the lines `9` and `10`, the second then
attached to line `9`. The registry contains the second unit, and after `disableCallback()` on
the second unit the registry is not the former sequence without that unit: the entry of the
first unit is gone and the entry of the caller is still there. -/
theorem disableCallback_drops_other_unit :
    (threeUnits.run
      [Op.attach 0 9 0 180 0, Op.attach 1 10 0 180 0, Op.enableCallback 0, Op.enableCallback 1,
       Op.attach 1 9 0 180 0]).map (fun w => w.entries) = some [some 0, some 1] ∧
    (threeUnits.run
      [Op.attach 0 9 0 180 0, Op.attach 1 10 0 180 0, Op.enableCallback 0, Op.enableCallback 1,
       Op.attach 1 9 0 180 0, Op.disableCallback 1]).map (fun w => w.entries) =
      some [some 1] ∧
    [some 0, some 1].erase (some 1) ≠ [some (1 : Nat)] :=
  ⟨by decide, by decide, by decide⟩

/-- Claim C15 as amended: on a well-formed registry that contains the calling unit,
`disableCallback()` returns; the registry afterwards is the former sequence with one entry
deleted, the first one whose unit has the control line of the caller, the remaining entries in
their former order, and the count is smaller by exactly one. When no other registered unit has
the control line of the caller, the deleted entry is the first entry of the caller itself. -/
theorem disableCallback_compacts (w : World) (this : Nat) (u : ServoMotor) (hwf : w.WF)
    (hthis : w.objs[this]? = some u) (hreg : some this ∈ w.entries) :
    ∃ r w1, w.disableCallback this = some w1 ∧ r < w.last_servo ∧
      w.PinAt u.controlPin r ∧ w.NoPinIn u.controlPin 0 r ∧
      w1.entries = w.entries.eraseIdx r ∧ w1.last_servo + 1 = w.last_servo ∧
      w1.objs = w.objs ∧
      ((∀ j p v, j < w.last_servo → w.callback_servos[j]? = some (some p) →
          w.objs[p]? = some v → p ≠ this → v.controlPin ≠ u.controlPin) →
        w.entries[r]? = some (some this) ∧
        ∀ j, j < r → w.entries[j]? ≠ some (some this)) := by
  obtain ⟨j0, hj0, _, hat0⟩ := pinAt_of_mem_entries w this u hthis hreg
  rcases disableCallback_spec w this u hwf hthis with ⟨hno, _⟩ | ⟨r, hr, hat, hno, h⟩
  · exact absurd hat0 (hno j0 (Nat.zero_le j0) hj0)
  · refine ⟨r, _, h, hr, hat, hno, entries_dropped w r hwf hr, ?_, rfl, fun hothers => ⟨?_, ?_⟩⟩
    · show w.last_servo - 1 + 1 = w.last_servo
      omega
    · obtain ⟨p, v, hp, hv, hvp⟩ := hat
      have hpt : p = this := by
        by_contra hne
        exact hothers r p v hr hp hv hne hvp
      unfold entries
      rw [List.getElem?_take_of_lt hr, hp, hpt]
    · intro j hj hent
      unfold entries at hent
      rw [List.getElem?_take_of_lt (by omega)] at hent
      exact hno j (Nat.zero_le j) hj ⟨this, u, hent, hthis, rfl⟩

/-- Witness of C15 as amended: two units registered on the lines `9` and `10`; the first one
is removed and the second one moves to the front. -/
theorem disableCallback_compacts_witness :
    World.WF
      { objs := [(ServoMotor.zeroed.attach 9 0 180 0).2.1,
          (ServoMotor.zeroed.attach 10 0 180 0).2.1],
        callback_servos := [some 0, some 1, none, none], last_servo := 2, timer := 0,
        TCCR2B := 4, TIMSK2 := 1, trace := [] } ∧
    ∃ r w1,
      World.disableCallback
        { objs := [(ServoMotor.zeroed.attach 9 0 180 0).2.1,
            (ServoMotor.zeroed.attach 10 0 180 0).2.1],
          callback_servos := [some 0, some 1, none, none], last_servo := 2, timer := 0,
          TCCR2B := 4, TIMSK2 := 1, trace := [] } 0 = some w1 ∧
      r < 2 ∧
      w1.entries = [some 0, some 1].eraseIdx r ∧ w1.last_servo + 1 = 2 := by
  have hwf : World.WF
      { objs := [(ServoMotor.zeroed.attach 9 0 180 0).2.1,
          (ServoMotor.zeroed.attach 10 0 180 0).2.1],
        callback_servos := [some 0, some 1, none, none], last_servo := 2, timer := 0,
        TCCR2B := 4, TIMSK2 := 1, trace := [] } := by
    refine ⟨rfl, by decide, fun i hi => ?_⟩
    have hi2 : i < 2 := hi
    interval_cases i
    · exact ⟨0, rfl, by decide⟩
    · exact ⟨1, rfl, by decide⟩
  obtain ⟨r, w1, h1, h2, _, _, h5, h6, _⟩ :=
    disableCallback_compacts _ 0 (ServoMotor.zeroed.attach 9 0 180 0).2.1 hwf rfl (by decide)
  exact ⟨hwf, r, w1, h1, h2, h5, h6⟩

/-- Claim C17 as stated fails: two units attached to line `9`, only the first registered.
The second unit is not an entry of the registry, and `disableCallback()` on it, and so its
destruction, empties the registry. -/
theorem disableCallback_by_stranger_removes :
    (threeUnits.run
      [Op.attach 0 9 0 180 0, Op.attach 1 9 0 180 0, Op.enableCallback 0]).map
      (fun w => (w.entries, decide (some 1 ∈ w.entries))) = some ([some 0], false) ∧
    (threeUnits.run
      [Op.attach 0 9 0 180 0, Op.attach 1 9 0 180 0, Op.enableCallback 0,
       Op.disableCallback 1]).map (fun w => (w.entries, w.last_servo)) = some ([], 0) ∧
    ((threeUnits.run
      [Op.attach 0 9 0 180 0, Op.attach 1 9 0 180 0, Op.enableCallback 0]).bind
      (fun w => w.destruct 1)).map (fun w => (w.entries, w.last_servo)) = some ([], 0) :=
  ⟨by decide, by decide, by decide⟩

/-- Claim C17 as amended: on a well-formed registry, for a unit that is not itself an entry of
the registry, `disableCallback()` (and so the destructor) returns the state unchanged when no
registered unit has the control line of the caller; when some registered unit has it, the
first such entry is deleted and the count is smaller by one. -/
theorem disableCallback_frame (w : World) (this : Nat) (u : ServoMotor) (hwf : w.WF)
    (hthis : w.objs[this]? = some u) (_hnot : some this ∉ w.entries) :
    (w.NoPinIn u.controlPin 0 w.last_servo →
      w.disableCallback this = some w ∧ w.destruct this = some w) ∧
    (∀ r, r < w.last_servo → w.PinAt u.controlPin r → w.NoPinIn u.controlPin 0 r →
      ∃ w1, w.disableCallback this = some w1 ∧ w.destruct this = some w1 ∧
        w1.entries = w.entries.eraseIdx r ∧ w1.last_servo + 1 = w.last_servo) := by
  constructor
  · intro hno
    rcases disableCallback_spec w this u hwf hthis with ⟨_, h⟩ | ⟨r, hr, hat, _, _⟩
    · exact ⟨h, h⟩
    · exact absurd hat (hno r (Nat.zero_le r) hr)
  · intro r hr hat hnr
    rcases disableCallback_spec w this u hwf hthis with ⟨hno, _⟩ | ⟨s, hs, hats, hns, h⟩
    · exact absurd hat (hno r (Nat.zero_le r) hr)
    · have hrs : r = s := first_pinAt_unique w u.controlPin r s hat hnr hats hns
      subst hrs
      refine ⟨_, h, h, entries_dropped w r hwf hr, ?_⟩
      show w.last_servo - 1 + 1 = w.last_servo
      omega

/-- Witness of C17 as amended: units attached to the lines `9` and `10`, only the first
registered; `disableCallback()` on the second changes nothing. -/
theorem disableCallback_frame_witness :
    World.WF
      { objs := [(ServoMotor.zeroed.attach 9 0 180 0).2.1,
          (ServoMotor.zeroed.attach 10 0 180 0).2.1],
        callback_servos := [some 0, none, none, none], last_servo := 1, timer := 0,
        TCCR2B := 4, TIMSK2 := 1, trace := [] } ∧
    World.disableCallback
      { objs := [(ServoMotor.zeroed.attach 9 0 180 0).2.1,
          (ServoMotor.zeroed.attach 10 0 180 0).2.1],
        callback_servos := [some 0, none, none, none], last_servo := 1, timer := 0,
        TCCR2B := 4, TIMSK2 := 1, trace := [] } 1 =
      some
        { objs := [(ServoMotor.zeroed.attach 9 0 180 0).2.1,
            (ServoMotor.zeroed.attach 10 0 180 0).2.1],
          callback_servos := [some 0, none, none, none], last_servo := 1, timer := 0,
          TCCR2B := 4, TIMSK2 := 1, trace := [] } := by
  have hwf : World.WF
      { objs := [(ServoMotor.zeroed.attach 9 0 180 0).2.1,
          (ServoMotor.zeroed.attach 10 0 180 0).2.1],
        callback_servos := [some 0, none, none, none], last_servo := 1, timer := 0,
        TCCR2B := 4, TIMSK2 := 1, trace := [] } := by
    refine ⟨rfl, by decide, fun i hi => ?_⟩
    have hi1 : i < 1 := hi
    interval_cases i
    exact ⟨0, rfl, by decide⟩
  refine ⟨hwf, ((disableCallback_frame _ 1 (ServoMotor.zeroed.attach 10 0 180 0).2.1 hwf rfl
    (by decide)).1 ?_).1⟩
  intro j _ hj
  have hj1 : j < 1 := hj
  interval_cases j
  rintro ⟨p, v, hp, hv, hvp⟩
  have hp0 : p = 0 := (Option.some.inj (Option.some.inj hp)).symm
  subst hp0
  have hv0 : v = (ServoMotor.zeroed.attach 9 0 180 0).2.1 := (Option.some.inj hv).symm
  subst hv0
  revert hvp
  decide

/-- The control line of a slot is read from the objects only. -/
theorem pinOf_congr {w v : World} (hobjs : v.objs = w.objs) (e : Option Nat) :
    v.pinOf e = w.pinOf e := by
  unfold pinOf
  rw [hobjs]

/-- A control line among those of the registered units is found at some registered slot. -/
theorem pinAt_of_mem_pins (w : World) (pin : Nat) (h : some pin ∈ w.pins) :
    ∃ j, j < w.last_servo ∧ w.PinAt pin j := by
  unfold pins at h
  obtain ⟨e, he, hpe⟩ := List.mem_map.mp h
  obtain ⟨j, hj⟩ := List.mem_iff_getElem?.mp he
  unfold entries at hj
  rw [List.getElem?_take] at hj
  split_ifs at hj with hlt
  cases e with
  | none => simp [pinOf] at hpe
  | some p =>
    unfold pinOf at hpe
    simp only [Option.map_eq_some'] at hpe
    obtain ⟨v, hv, hvp⟩ := hpe
    exact ⟨j, hlt, p, v, hj, hv, hvp⟩

/-- The control lines of the registered units after a method that keeps the control line of
its object. -/
theorem pins_call (w w1 : World) (this : Nat) (x : ServoMotor)
    (hcs : w1.callback_servos = w.callback_servos) (hls : w1.last_servo = w.last_servo)
    (hobjs : w1.objs = w.objs.set this x)
    (hkeep : ∀ v, w.objs[this]? = some v → x.controlPin = v.controlPin) :
    w1.pins = w.pins := by
  unfold pins entries
  rw [hcs, hls]
  apply List.map_congr_left
  intro e _
  cases e with
  | none => rfl
  | some p =>
    unfold pinOf
    simp only [hobjs, List.getElem?_set]
    by_cases hp : this = p
    · subst hp
      by_cases hlt : this < w.objs.length
      · have hu : w.objs[this]? = some (w.objs[this]) := List.getElem?_eq_getElem hlt
        simp only [if_true, if_pos hlt, hu, Option.map_some', hkeep _ hu]
      · have hn : w.objs[this]? = none := List.getElem?_eq_none (not_lt.mp hlt)
        simp only [if_true, if_neg hlt, hn]
    · simp only [if_neg hp]

/-- The control lines of the registered units after a change of a unit that is not in the
registry. -/
theorem pins_call_unregistered (w w1 : World) (this : Nat) (x : ServoMotor)
    (hcs : w1.callback_servos = w.callback_servos) (hls : w1.last_servo = w.last_servo)
    (hobjs : w1.objs = w.objs.set this x) (hnot : some this ∉ w.entries) :
    w1.pins = w.pins := by
  unfold pins
  have hent : w1.entries = w.entries := by unfold entries; rw [hcs, hls]
  rw [hent]
  apply List.map_congr_left
  intro e he
  cases e with
  | none => rfl
  | some p =>
    have hp : this ≠ p := by
      intro h
      subst h
      exact hnot he
    unfold pinOf
    simp only [hobjs, List.getElem?_set, if_neg hp]

/-- The body of `enableSweep` keeps the control line. -/
theorem enableSweepBody_controlPin (u : ServoMotor) (sz st sp : Int) (ty : SweepType)
    (now : Nat) : (u.enableSweepBody sz st sp ty now).1.controlPin = u.controlPin := by
  unfold ServoMotor.enableSweepBody ServoMotor.writeNoArg
  rw [ServoMotor.write_fst]
  simp only
  split_ifs <;> rfl

/-- `enableCallback` keeps the control lines of the registered units pairwise distinct. -/
theorem enableCallback_unique (w : World) (this : Nat) (hwf : w.WF)
    (hthis : this < w.objs.length) (hnd : w.pins.Nodup) :
    ∃ w1, w.enableCallback this = some w1 ∧ w1.WF ∧ w1.objs = w.objs ∧ w1.pins.Nodup := by
  have hu : w.objs[this]? = some (w.objs[this]) := List.getElem?_eq_getElem hthis
  obtain ⟨w1, h1, hwf1, hobjs1⟩ := enableCallback_wf w this hwf hthis
  refine ⟨w1, h1, hwf1, hobjs1, ?_⟩
  have hpins_t : w.enableTimer.pins = w.pins := by rw [enableTimer_eq]; rfl
  rcases enableCallback_spec w this _ hwf hu with ⟨_, h⟩ | ⟨_, _, h⟩ | ⟨hnf, hno, h⟩
  · rw [Option.some.inj (h1.symm.trans h), hpins_t]
    exact hnd
  · rw [Option.some.inj (h1.symm.trans h), hpins_t]
    exact hnd
  · have hw1 := Option.some.inj (h1.symm.trans h)
    have hent : w1.entries = w.entries ++ [some this] := by
      rw [hw1]
      exact take_set_succ w.callback_servos w.last_servo (some this) hwf.1 hnf
    have hpins : w1.pins = w.pins ++ [some (w.objs[this]).controlPin] := by
      unfold pins
      rw [hent, List.map_append, List.map_congr_left (fun e _ => pinOf_congr hobjs1 e)]
      simp only [List.map_cons, List.map_nil, pinOf, hobjs1, hu, Option.map_some']
    rw [hpins]
    have hnot : some (w.objs[this]).controlPin ∉ w.pins := by
      intro hmem
      obtain ⟨j, hj, hat⟩ := pinAt_of_mem_pins w _ hmem
      exact hno j (Nat.zero_le j) hj hat
    exact List.nodup_append_comm.mp (List.nodup_cons.mpr ⟨hnot, hnd⟩)

/-- `disableCallback` keeps the control lines of the registered units pairwise distinct. -/
theorem disableCallback_unique (w : World) (this : Nat) (hwf : w.WF)
    (hthis : this < w.objs.length) (hnd : w.pins.Nodup) :
    ∃ w1, w.disableCallback this = some w1 ∧ w1.WF ∧ w1.objs = w.objs ∧ w1.pins.Nodup := by
  have hu : w.objs[this]? = some (w.objs[this]) := List.getElem?_eq_getElem hthis
  obtain ⟨w1, h1, hwf1, hobjs1⟩ := disableCallback_wf w this hwf hthis
  refine ⟨w1, h1, hwf1, hobjs1, ?_⟩
  rcases disableCallback_spec w this _ hwf hu with ⟨_, h⟩ | ⟨r, hr, _, _, h⟩
  · rw [Option.some.inj (h1.symm.trans h)]
    exact hnd
  · have hw1 := Option.some.inj (h1.symm.trans h)
    have hent : w1.entries = w.entries.eraseIdx r := by
      rw [hw1]
      exact entries_dropped w r hwf hr
    have hpins : w1.pins = (w.entries.eraseIdx r).map w.pinOf := by
      unfold pins
      rw [hent, List.map_congr_left (fun e _ => pinOf_congr hobjs1 e)]
    rw [hpins]
    exact List.Nodup.sublist ((List.eraseIdx_sublist _ _).map _) hnd

/-- The control lines of the registered units stay pairwise distinct after a change of a unit
that gives it the control line of no other registered unit. -/
theorem pins_call_registered (w w1 : World) (this : Nat) (x : ServoMotor)
    (hcs : w1.callback_servos = w.callback_servos) (hls : w1.last_servo = w.last_servo)
    (hobjs : w1.objs = w.objs.set this x) (hlt : this < w.objs.length) (hnd : w.pins.Nodup)
    (hall : ∀ e ∈ w.entries, e ≠ some this → w.pinOf e ≠ some x.controlPin) :
    w1.pins.Nodup := by
  have hent : w1.entries = w.entries := by unfold entries; rw [hcs, hls]
  have hentnd : w.entries.Nodup := List.Nodup.of_map _ hnd
  have hinj := (List.nodup_map_iff_inj_on hentnd).mp hnd
  have hself : w1.pinOf (some this) = some x.controlPin := by
    unfold pinOf
    simp only [hobjs, List.getElem?_set_self hlt, Option.map_some']
  have hother : ∀ e, e ≠ some this → w1.pinOf e = w.pinOf e := by
    intro e he
    cases e with
    | none => rfl
    | some p =>
      have hp : this ≠ p := fun h => he (by rw [h])
      unfold pinOf
      simp only [hobjs, List.getElem?_set, if_neg hp]
  unfold pins
  rw [hent]
  apply List.Nodup.map_on _ hentnd
  intro e1 h1 e2 h2 heq
  by_cases he1 : e1 = some this
  · by_cases he2 : e2 = some this
    · rw [he1, he2]
    · exfalso
      rw [he1, hself, hother e2 he2] at heq
      exact hall e2 h2 he2 heq.symm
  · by_cases he2 : e2 = some this
    · exfalso
      rw [he2, hself, hother e1 he1] at heq
      exact hall e1 h1 he1 heq
    · rw [hother e1 he1, hother e2 he2] at heq
      exact hinj e1 h1 e2 h2 heq

/-- Every call that is not an `attach` giving a registered unit the control line of another
registered unit keeps the control lines of the registered units pairwise distinct. -/
theorem step_unique (w : World) (op : Op) (hwf : w.WF) (hunit : op.unit < w.objs.length)
    (hallowed : Op.allowed w op = true) (hnd : w.pins.Nodup) :
    ∃ w1, w.step op = some w1 ∧ w1.WF ∧ w1.objs.length = w.objs.length ∧ w1.pins.Nodup := by
  cases op with
  | attach this pin lo hi now =>
    have hu : w.objs[this]? = some (w.objs[this]) := List.getElem?_eq_getElem hunit
    obtain ⟨w1, h1, hwf1, hlen1, hcs, hls, hobjs⟩ := call_wf w this
      (fun s => ((s.attach pin lo hi now).2.1, (s.attach pin lo hi now).2.2)) hwf hunit
    refine ⟨w1, h1, hwf1, hlen1, ?_⟩
    have hor : decide (some this ∉ w.entries) = true ∨
        w.entries.all (fun e =>
          e == some this ||
          w.pinOf e != (w.objs[this]?).map
            (fun s => (s.attach pin lo hi now).2.1.controlPin)) = true :=
      Bool.or_eq_true_iff.mp hallowed
    rcases hor with hnot | hall
    · rw [pins_call_unregistered w w1 this _ hcs hls hobjs (of_decide_eq_true hnot)]
      exact hnd
    · refine pins_call_registered w w1 this _ hcs hls hobjs hunit hnd (fun e he hne => ?_)
      have hbe := List.all_eq_true.mp hall e he
      rw [hu] at hbe
      simp only [Option.map_some', Bool.or_eq_true, beq_iff_eq, bne_iff_ne, ne_eq] at hbe
      rcases hbe with hbe | hbe
      · exact absurd hbe hne
      · exact hbe
  | enableCallback this =>
    obtain ⟨w1, h1, hwf1, hobjs, hnd1⟩ := enableCallback_unique w this hwf hunit hnd
    exact ⟨w1, h1, hwf1, by rw [hobjs], hnd1⟩
  | disableCallback this =>
    obtain ⟨w1, h1, hwf1, hobjs, hnd1⟩ := disableCallback_unique w this hwf hunit hnd
    exact ⟨w1, h1, hwf1, by rw [hobjs], hnd1⟩
  | enableSweep this sz st sp ty now =>
    obtain ⟨w1, h1, hwf1, hobjs1, hnd1⟩ := enableCallback_unique w this hwf hunit hnd
    have hunit1 : this < w1.objs.length := by rw [hobjs1]; exact hunit
    obtain ⟨w2, h2, hwf2, hlen2, hcs, hls, hobjs2⟩ := call_wf w1 this
      (fun s => s.enableSweepBody sz st sp ty now) hwf1 hunit1
    refine ⟨w2, ?_, hwf2, by rw [hlen2, hobjs1], ?_⟩
    · show w.enableSweep this sz st sp ty now = some w2
      unfold enableSweep
      simp only [h1]
      exact h2
    · rw [pins_call w1 w2 this _ hcs hls hobjs2 (fun v hv => by
        have hv1 : w1.objs[this]? = some (w1.objs[this]) := List.getElem?_eq_getElem hunit1
        rw [hv1] at hv
        rw [← Option.some.inj hv]
        exact enableSweepBody_controlPin _ sz st sp ty now)]
      exact hnd1

/-- A guarded succession of calls keeps the control lines of the registered units pairwise
distinct. -/
theorem run_unique (ops : List Op) :
    ∀ (w : World), w.WF → (∀ op ∈ ops, op.unit < w.objs.length) → w.guarded ops = true →
      w.pins.Nodup → ∃ wN, w.run ops = some wN ∧ wN.WF ∧ wN.pins.Nodup := by
  induction ops with
  | nil => intro w hwf _ _ hnd; exact ⟨w, rfl, hwf, hnd⟩
  | cons op rest ih =>
    intro w hwf hunits hg hnd
    have hg0 : (Op.allowed w op &&
        match w.step op with
        | some w1 => guarded w1 rest
        | none => true) = true := hg
    rw [Bool.and_eq_true] at hg0
    obtain ⟨w1, h1, hwf1, hlen1, hnd1⟩ := step_unique w op hwf
      (hunits op (List.mem_cons_self _ _)) hg0.1 hnd
    have hg1 : w1.guarded rest = true := by
      have h := hg0.2
      rw [h1] at h
      exact h
    obtain ⟨wN, hN, hwfN, hndN⟩ := ih w1 hwf1
      (fun o ho => by rw [hlen1]; exact hunits o (List.mem_cons_of_mem _ ho)) hg1 hnd1
    refine ⟨wN, ?_, hwfN, hndN⟩
    show (match w.step op with
      | some w1 => run w1 rest
      | none => none) = some wN
    rw [h1]
    exact hN

/-- Claim C18 as stated fails: two units registered on the lines `9` and `10`, the second then
attached to line `9`: both registry entries refer to units with control line `9`. This last
`attach` is the call the amended claim leaves out. -/
theorem registry_lines_collide :
    (threeUnits.run
      [Op.attach 0 9 0 180 0, Op.attach 1 10 0 180 0, Op.enableCallback 0, Op.enableCallback 1,
       Op.attach 1 9 0 180 0]).map (fun w => (w.entries, w.pins)) =
      some ([some 0, some 1], [some 9, some 9]) ∧
    ¬ [some (9 : Nat), some 9].Nodup ∧
    threeUnits.guarded
      [Op.attach 0 9 0 180 0, Op.attach 1 10 0 180 0, Op.enableCallback 0,
       Op.enableCallback 1] = true ∧
    threeUnits.guarded
      [Op.attach 0 9 0 180 0, Op.attach 1 10 0 180 0, Op.enableCallback 0, Op.enableCallback 1,
       Op.attach 1 9 0 180 0] = false :=
  ⟨by decide, by decide, by decide, by decide⟩

/-- Claim C18 as amended: from the start of the program, every succession of `attach`,
`enableCallback`, `disableCallback` and `enableSweep` calls on objects of the program in which
no `attach` gives a unit that is in the registry at that time the control line of another unit
in the registry returns, and ends in a registry no two entries of which refer to units with the
same control line. -/
theorem registry_unique_lines (objs : List ServoMotor) (tccr2b timsk2 : Nat) (ops : List Op)
    (hunits : ∀ op ∈ ops, op.unit < objs.length)
    (hguard : (World.start objs tccr2b timsk2).guarded ops = true) :
    ∃ wN, (World.start objs tccr2b timsk2).run ops = some wN ∧ wN.pins.Nodup := by
  obtain ⟨wN, hN, _, hnd⟩ := run_unique ops (World.start objs tccr2b timsk2)
    (start_wf objs tccr2b timsk2) hunits hguard List.nodup_nil
  exact ⟨wN, hN, hnd⟩

/-- Witness of C18 as amended: units registered on the lines `9` and `10`, a third unit
attached to line `9` and refused by the registry; then, on the registered second unit, an
`attach` to its own line `10`, a rejected `attach` (bound `200`) and an `attach` to the free
line `11`; then the first unit is removed and the third registers. -/
theorem registry_unique_lines_witness :
    (∀ op ∈ [Op.attach 0 9 0 180 0, Op.attach 1 10 0 180 0, Op.attach 2 9 0 180 0,
        Op.enableCallback 0, Op.enableSweep 1 5 0 180 SweepType.Reverse 50, Op.enableCallback 2,
        Op.attach 1 10 20 160 60, Op.attach 1 9 0 200 70, Op.attach 1 11 0 180 80,
        Op.disableCallback 0, Op.enableCallback 2],
      op.unit < (List.replicate 3 (ServoMotor.construct ServoMotor.zeroed)).length) ∧
    threeUnits.guarded
      [Op.attach 0 9 0 180 0, Op.attach 1 10 0 180 0, Op.attach 2 9 0 180 0,
       Op.enableCallback 0, Op.enableSweep 1 5 0 180 SweepType.Reverse 50, Op.enableCallback 2,
       Op.attach 1 10 20 160 60, Op.attach 1 9 0 200 70, Op.attach 1 11 0 180 80,
       Op.disableCallback 0, Op.enableCallback 2] = true ∧
    (∃ wN, threeUnits.run
      [Op.attach 0 9 0 180 0, Op.attach 1 10 0 180 0, Op.attach 2 9 0 180 0,
       Op.enableCallback 0, Op.enableSweep 1 5 0 180 SweepType.Reverse 50, Op.enableCallback 2,
       Op.attach 1 10 20 160 60, Op.attach 1 9 0 200 70, Op.attach 1 11 0 180 80,
       Op.disableCallback 0, Op.enableCallback 2] = some wN ∧ wN.pins.Nodup) ∧
    (threeUnits.run
      [Op.attach 0 9 0 180 0, Op.attach 1 10 0 180 0, Op.attach 2 9 0 180 0,
       Op.enableCallback 0, Op.enableSweep 1 5 0 180 SweepType.Reverse 50, Op.enableCallback 2,
       Op.attach 1 10 20 160 60, Op.attach 1 9 0 200 70, Op.attach 1 11 0 180 80,
       Op.disableCallback 0, Op.enableCallback 2]).map (fun w => (w.entries, w.pins)) =
      some ([some 1, some 2], [some 11, some 9]) :=
  ⟨by decide, by decide,
   registry_unique_lines (List.replicate 3 (ServoMotor.construct ServoMotor.zeroed)) 4 0 _
     (by decide) (by decide), by decide⟩

end World

/-! ## The dispatcher: which units a run of the interrupt handler services -/

namespace World

/-- A state with the same registry and as many objects is well formed too. -/
theorem wf_of_same {w v : World} (hwf : w.WF) (hcs : v.callback_servos = w.callback_servos)
    (hls : v.last_servo = w.last_servo) (hlen : v.objs.length = w.objs.length) : v.WF := by
  obtain ⟨h1, h2, h3⟩ := hwf
  refine ⟨by rw [hcs]; exact h1, by rw [hls]; exact h2, fun i hi => ?_⟩
  rw [hcs, hlen]
  exact h3 i (by rw [← hls]; exact hi)

/-- The registered entries depend on the registry array and `last_servo` only. -/
theorem entries_of_same {w v : World} (hcs : v.callback_servos = w.callback_servos)
    (hls : v.last_servo = w.last_servo) : v.entries = w.entries := by
  unfold entries
  rw [hcs, hls]

/-- The loop of the interrupt handler leaves alone a unit that none of the visited slots
points to. -/
theorem serviceLoop_other (now this : Nat) (n : Nat) :
    ∀ (w : World) (i : Nat),
      (∀ j, i ≤ j → j < i + n →
        ∃ p, w.callback_servos[j]? = some (some p) ∧ p < w.objs.length) →
      (∀ j, i ≤ j → j < i + n → w.callback_servos[j]? ≠ some (some this)) →
      ∃ w1, serviceLoop now w i n = some w1 ∧ w1.objs[this]? = w.objs[this]? ∧
        w1.callback_servos = w.callback_servos ∧ w1.last_servo = w.last_servo ∧
        w1.timer = w.timer ∧ w1.objs.length = w.objs.length := by
  induction n with
  | zero => intro w i _ _; exact ⟨w, rfl, rfl, rfl, rfl, rfl, rfl⟩
  | succ n ih =>
    intro w i h hno
    obtain ⟨p, hp, hlt⟩ := h i (le_refl i) (by omega)
    have hu : w.objs[p]? = some (w.objs[p]) := List.getElem?_eq_getElem hlt
    have hpt : p ≠ this := by
      intro hc
      rw [hc] at hp
      exact hno i (le_refl i) (by omega) hp
    obtain ⟨w1, h1, hobj, hcs, hls, htm, hlen⟩ := ih
      { w with objs := w.objs.set p ((w.objs[p]).tick now).1,
               trace := w.trace ++ ((w.objs[p]).tick now).2 } (i + 1)
      (fun j hj1 hj2 => by
        obtain ⟨q, hq, hqlt⟩ := h j (by omega) (by omega)
        exact ⟨q, hq, by simpa using hqlt⟩)
      (fun j hj1 hj2 => hno j (by omega) (by omega))
    refine ⟨w1, ?_, ?_, hcs, hls, htm, by simpa using hlen⟩
    · unfold serviceLoop call
      simp only [hp, hu]
      exact h1
    · rw [hobj]
      exact List.getElem?_set_ne hpt

/-- The loop of the interrupt handler services once a unit that exactly one of the visited
slots points to. -/
theorem serviceLoop_this (now this : Nat) (n : Nat) :
    ∀ (w : World) (i : Nat) (u : ServoMotor),
      (∀ j, i ≤ j → j < i + n →
        ∃ p, w.callback_servos[j]? = some (some p) ∧ p < w.objs.length) →
      (∀ j k, i ≤ j → j < k → k < i + n → w.callback_servos[j]? = some (some this) →
        w.callback_servos[k]? ≠ some (some this)) →
      (∃ j, i ≤ j ∧ j < i + n ∧ w.callback_servos[j]? = some (some this)) →
      w.objs[this]? = some u →
      ∃ w1, serviceLoop now w i n = some w1 ∧ w1.objs[this]? = some (u.tick now).1 ∧
        w1.callback_servos = w.callback_servos ∧ w1.last_servo = w.last_servo ∧
        w1.timer = w.timer ∧ w1.objs.length = w.objs.length := by
  induction n with
  | zero =>
    intro w i u _ _ hex _
    obtain ⟨j, h1, h2, _⟩ := hex
    omega
  | succ n ih =>
    intro w i u h hdist hex hthis
    obtain ⟨p, hp, hlt⟩ := h i (le_refl i) (by omega)
    have hu : w.objs[p]? = some (w.objs[p]) := List.getElem?_eq_getElem hlt
    have hvalid : ∀ j, i + 1 ≤ j → j < i + 1 + n →
        ∃ q, (World.mk (w.objs.set p ((w.objs[p]).tick now).1) w.callback_servos w.last_servo
          w.timer w.TCCR2B w.TIMSK2 (w.trace ++ ((w.objs[p]).tick now).2)).callback_servos[j]? =
            some (some q) ∧
          q < (World.mk (w.objs.set p ((w.objs[p]).tick now).1) w.callback_servos w.last_servo
            w.timer w.TCCR2B w.TIMSK2 (w.trace ++ ((w.objs[p]).tick now).2)).objs.length := by
      intro j hj1 hj2
      obtain ⟨q, hq, hqlt⟩ := h j (by omega) (by omega)
      exact ⟨q, hq, by simpa using hqlt⟩
    have hstep : serviceLoop now w i (n + 1) =
        serviceLoop now (World.mk (w.objs.set p ((w.objs[p]).tick now).1) w.callback_servos
          w.last_servo w.timer w.TCCR2B w.TIMSK2 (w.trace ++ ((w.objs[p]).tick now).2))
          (i + 1) n := by
      conv_lhs => unfold serviceLoop call
      simp only [hp, hu]
    by_cases hpt : p = this
    · subst hpt
      have hup : u = w.objs[p] := by
        rw [hu] at hthis
        exact (Option.some.inj hthis).symm
      obtain ⟨w1, h1, hobj, hcs, hls, htm, hlen⟩ := serviceLoop_other now p n _ (i + 1) hvalid
        (fun j hj1 hj2 => hdist i j (le_refl i) (by omega) (by omega) hp)
      refine ⟨w1, by rw [hstep]; exact h1, ?_, hcs, hls, htm, by simpa using hlen⟩
      rw [hobj, hup]
      exact List.getElem?_set_self hlt
    · obtain ⟨j, hj1, hj2, hj⟩ := hex
      have hji : j ≠ i := by
        intro hc
        rw [hc, hp] at hj
        exact hpt (Option.some.inj (Option.some.inj hj))
      obtain ⟨w1, h1, hobj, hcs, hls, htm, hlen⟩ := ih _ (i + 1) u hvalid
        (fun a b ha hab hb => hdist a b (by omega) hab (by omega))
        ⟨j, by omega, by omega, hj⟩
        (by
          show (w.objs.set p ((w.objs[p]).tick now).1)[this]? = some u
          rw [List.getElem?_set_ne hpt]
          exact hthis)
      exact ⟨w1, by rw [hstep]; exact h1, hobj, hcs, hls, htm, by simpa using hlen⟩

/-- In a list that holds an element exactly once, the element does not sit at two
positions. -/
theorem count_one_unique {α : Type} [BEq α] [LawfulBEq α] (a : α) :
    ∀ (l : List α), l.count a = 1 →
      ∀ j k : Nat, j < k → l[j]? = some a → l[k]? ≠ some a := by
  intro l
  induction l with
  | nil => intro h; simp at h
  | cons x t ih =>
    intro h j k hjk hj hk
    rw [List.count_cons] at h
    cases k with
    | zero => omega
    | succ k =>
      have hkt : t[k]? = some a := by simpa using hk
      have hmem : a ∈ t := List.mem_iff_getElem?.mpr ⟨k, hkt⟩
      have hpos : 0 < t.count a := List.count_pos_iff.mpr hmem
      cases j with
      | zero =>
        have hx : x = a := by simpa using hj
        rw [hx] at h
        simp only [beq_self_eq_true, if_true] at h
        omega
      | succ j =>
        have hjt : t[j]? = some a := by simpa using hj
        by_cases hx : x = a
        · rw [hx] at h
          simp only [beq_self_eq_true, if_true] at h
          omega
        · have hb : (x == a) = false := by simpa using hx
          rw [hb] at h
          simp only [Bool.false_eq_true, if_false, Nat.add_zero] at h
          exact ih h j k (by omega) hjt hkt

/-- In a list of pairwise different elements, a member occurs exactly once. -/
theorem count_one_of_nodup {α : Type} [BEq α] [LawfulBEq α] (a : α) :
    ∀ (l : List α), l.Nodup → a ∈ l → l.count a = 1 := by
  intro l
  induction l with
  | nil => intro _ h; simp at h
  | cons x t ih =>
    intro hnd hmem
    rw [List.nodup_cons] at hnd
    rw [List.count_cons]
    by_cases hx : x = a
    · rw [hx] at hnd
      rw [hx, List.count_eq_zero.mpr hnd.1]
      simp
    · have hb : (x == a) = false := by simpa using hx
      rw [hb]
      have : a ∈ t := by
        rcases List.mem_cons.mp hmem with h | h
        · exact absurd h.symm hx
        · exact h
      simp only [Bool.false_eq_true, if_false, Nat.add_zero]
      exact ih hnd.2 this

/-- A unit with exactly one entry in the registry does not sit in two slots below
`last_servo`. -/
theorem slots_unique_of_count (w : World) (this : Nat)
    (honce : w.entries.count (some this) = 1) :
    ∀ j k, 0 ≤ j → j < k → k < 0 + w.last_servo →
      w.callback_servos[j]? = some (some this) → w.callback_servos[k]? ≠ some (some this) := by
  intro j k _ hjk hk hj hkk
  have hk2 : k < w.last_servo := by omega
  refine count_one_unique (some this) w.entries honce j k hjk ?_ ?_
  · unfold entries
    rw [List.getElem?_take_of_lt (by omega)]
    exact hj
  · unfold entries
    rw [List.getElem?_take_of_lt hk2]
    exact hkk

/-- A unit with exactly one entry in the registry is registered. -/
theorem mem_entries_of_count (w : World) (this : Nat)
    (honce : w.entries.count (some this) = 1) : some this ∈ w.entries :=
  List.count_pos_iff.mp (by rw [honce]; exact Nat.one_pos)

/-- When the entries are pairwise different, a registered unit has exactly one entry. -/
theorem count_of_nodup (w : World) (this : Nat) (hnd : w.entries.Nodup)
    (hreg : some this ∈ w.entries) : w.entries.count (some this) = 1 :=
  count_one_of_nodup (some this) w.entries hnd hreg

/-- A registered unit sits in a slot below `last_servo`. -/
theorem slot_of_mem_entries (w : World) (this : Nat) (hreg : some this ∈ w.entries) :
    ∃ j, 0 ≤ j ∧ j < 0 + w.last_servo ∧ w.callback_servos[j]? = some (some this) := by
  obtain ⟨j, hj⟩ := List.mem_iff_getElem?.mp hreg
  unfold entries at hj
  rw [List.getElem?_take] at hj
  split_ifs at hj with hlt
  exact ⟨j, Nat.zero_le j, by omega, hj⟩

/-- No slot below `last_servo` points to a unit that is not registered. -/
theorem no_slot_of_not_mem_entries (w : World) (this : Nat) (hnot : some this ∉ w.entries) :
    ∀ j, 0 ≤ j → j < 0 + w.last_servo → w.callback_servos[j]? ≠ some (some this) := by
  intro j _ hj hc
  apply hnot
  apply List.mem_iff_getElem?.mpr
  refine ⟨j, ?_⟩
  unfold entries
  rw [List.getElem?_take_of_lt (by omega)]
  exact hc

/-- A run of the interrupt handler that executes its body services a registered unit once
and stores the clock value. -/
theorem isr_registered (w : World) (this now : Nat) (u : ServoMotor) (hwf : w.WF)
    (honce : w.entries.count (some this) = 1) (hthis : w.objs[this]? = some u)
    (hfire : DELAY < ulongSub now w.timer) :
    ∃ w1, w.ISR_TIMER2_OVF now = some w1 ∧ w1.objs[this]? = some (u.tick now).1 ∧
      w1.callback_servos = w.callback_servos ∧ w1.last_servo = w.last_servo ∧
      w1.timer = now ∧ w1.objs.length = w.objs.length := by
  obtain ⟨w0, h0, hobj, hcs, hls, _, hlen⟩ := serviceLoop_this now this w.last_servo w 0 u
    (fun j _ hj => hwf.2.2 j (by omega)) (slots_unique_of_count w this honce)
    (slot_of_mem_entries w this (mem_entries_of_count w this honce)) hthis
  refine ⟨{ w0 with timer := now }, ?_, hobj, hcs, hls, rfl, hlen⟩
  unfold ISR_TIMER2_OVF
  simp only [gt_iff_lt, hfire, if_true, h0]

/-- A run of the interrupt handler leaves alone a unit that is not registered. -/
theorem isr_unregistered (w : World) (this now : Nat) (hwf : w.WF)
    (hnot : some this ∉ w.entries) :
    ∃ w1, w.ISR_TIMER2_OVF now = some w1 ∧ w1.objs[this]? = w.objs[this]? ∧
      w1.callback_servos = w.callback_servos ∧ w1.last_servo = w.last_servo ∧
      w1.objs.length = w.objs.length ∧
      w1.timer = if DELAY < ulongSub now w.timer then now else w.timer := by
  by_cases hfire : DELAY < ulongSub now w.timer
  · obtain ⟨w0, h0, hobj, hcs, hls, _, hlen⟩ := serviceLoop_other now this w.last_servo w 0
      (fun j _ hj => hwf.2.2 j (by omega)) (no_slot_of_not_mem_entries w this hnot)
    refine ⟨{ w0 with timer := now }, ?_, hobj, hcs, hls, hlen, by rw [if_pos hfire]⟩
    unfold ISR_TIMER2_OVF
    simp only [gt_iff_lt, hfire, if_true, h0]
  · refine ⟨w, ?_, rfl, rfl, rfl, rfl, by rw [if_neg hfire]⟩
    unfold ISR_TIMER2_OVF
    simp only [gt_iff_lt, hfire, if_false]

/-- A run of the interrupt handler that does not execute its body returns the state as it
was. -/
theorem isr_quiet (w : World) (now : Nat) (hquiet : ¬ DELAY < ulongSub now w.timer) :
    w.ISR_TIMER2_OVF now = some w := by
  unfold ISR_TIMER2_OVF
  simp only [gt_iff_lt, hquiet, if_false]

/-- Over a succession of runs of the interrupt handler, a registered unit is serviced once at
each run that executes its body, and the registry stays as it was. -/
theorem dispatch_registered (this : Nat) (nows : List Nat) :
    ∀ (w : World) (u : ServoMotor), w.WF → w.entries.count (some this) = 1 →
      w.objs[this]? = some u →
      ∃ wN, w.dispatch nows = some wN ∧
        wN.objs[this]? = some (u.ticks (firedFrom w.timer nows)) ∧
        wN.WF ∧ wN.entries = w.entries := by
  induction nows with
  | nil => intro w u hwf _ hthis; exact ⟨w, rfl, hthis, hwf, rfl⟩
  | cons now rest ih =>
    intro w u hwf honce hthis
    by_cases hfire : DELAY < ulongSub now w.timer
    · obtain ⟨w1, h1, hobj, hcs, hls, htm, hlen⟩ := isr_registered w this now u hwf honce
        hthis hfire
      have hent : w1.entries = w.entries := entries_of_same hcs hls
      obtain ⟨wN, hN, hobjN, hwfN, hentN⟩ := ih w1 (u.tick now).1 (wf_of_same hwf hcs hls hlen)
        (by rw [hent]; exact honce) hobj
      refine ⟨wN, ?_, ?_, hwfN, by rw [hentN, hent]⟩
      · show (match w.ISR_TIMER2_OVF now with
          | some w1 => dispatch w1 rest
          | none => none) = some wN
        rw [h1]
        exact hN
      · rw [hobjN, htm]
        show _ = some (u.ticks (if ulongSub now w.timer > DELAY then now :: firedFrom now rest
          else firedFrom w.timer rest))
        rw [if_pos hfire]
        rfl
    · obtain ⟨wN, hN, hobjN, hwfN, hentN⟩ := ih w u hwf honce hthis
      refine ⟨wN, ?_, ?_, hwfN, hentN⟩
      · show (match w.ISR_TIMER2_OVF now with
          | some w1 => dispatch w1 rest
          | none => none) = some wN
        rw [isr_quiet w now hfire]
        exact hN
      · rw [hobjN]
        show _ = some (u.ticks (if ulongSub now w.timer > DELAY then now :: firedFrom now rest
          else firedFrom w.timer rest))
        rw [if_neg hfire]

/-- Over a succession of runs of the interrupt handler, a unit that is not registered stays
as it was. -/
theorem dispatch_unregistered (this : Nat) (nows : List Nat) :
    ∀ (w : World), w.WF → some this ∉ w.entries →
      ∃ wN, w.dispatch nows = some wN ∧ wN.objs[this]? = w.objs[this]? := by
  induction nows with
  | nil => intro w _ _; exact ⟨w, rfl, rfl⟩
  | cons now rest ih =>
    intro w hwf hnot
    obtain ⟨w1, h1, hobj, hcs, hls, hlen, _⟩ := isr_unregistered w this now hwf hnot
    obtain ⟨wN, hN, hobjN⟩ := ih w1 (wf_of_same hwf hcs hls hlen)
      (by rw [entries_of_same hcs hls]; exact hnot)
    refine ⟨wN, ?_, by rw [hobjN, hobj]⟩
    show (match w.ISR_TIMER2_OVF now with
      | some w1 => dispatch w1 rest
      | none => none) = some wN
    rw [h1]
    exact hN

/-- Runs of the interrupt handler 31 ms apart all execute their body. -/
theorem fired_spaced (n : Nat) : ∀ t, (firedFrom t (spaced t n)).length = n := by
  induction n with
  | zero => intro t; rfl
  | succ n ih =>
    intro t
    have hfire : ulongSub ((t + 31) % 4294967296) t > DELAY := by
      unfold ulongSub DELAY
      omega
    show (if ulongSub ((t + 31) % 4294967296) t > DELAY then
        ((t + 31) % 4294967296) :: firedFrom ((t + 31) % 4294967296)
          (spaced ((t + 31) % 4294967296) n)
      else firedFrom t (spaced ((t + 31) % 4294967296) n)).length = n + 1
    rw [if_pos hfire, List.length_cons, ih]

/-- The example state with four registered units is well formed. -/
theorem fourRegistered_wf : fourRegistered.WF := by
  refine ⟨rfl, by decide, fun i hi => ?_⟩
  have hi4 : i < 4 := hi
  interval_cases i
  · exact ⟨0, rfl, by decide⟩
  · exact ⟨1, rfl, by decide⟩
  · exact ⟨2, rfl, by decide⟩
  · exact ⟨3, rfl, by decide⟩

/-- On a well-formed registry `enableSweep` returns, keeps the registry well formed and the
handler timestamp, leaves the result of its body in the object, and either leaves the
registered entries as they were (registry full, or a registered unit has the control line of
the caller) or appends the caller. -/
theorem enableSweep_entries (w : World) (this : Nat) (u : ServoMotor) (sz st sp : Int)
    (ty : SweepType) (now : Nat) (hwf : w.WF) (hthis : w.objs[this]? = some u) :
    ∃ w1, w.enableSweep this sz st sp ty now = some w1 ∧ w1.WF ∧ w1.timer = w.timer ∧
      w1.objs[this]? = some (u.enableSweepBody sz st sp ty now).1 ∧
      (((w.last_servo = MAX_SERVOS ∨ ∃ r, r < w.last_servo ∧ w.PinAt u.controlPin r) ∧
          w1.entries = w.entries) ∨
        (w.last_servo < MAX_SERVOS ∧ w.NoPinIn u.controlPin 0 w.last_servo ∧
          w1.entries = w.entries ++ [some this])) := by
  have hlt : this < w.objs.length := (List.getElem?_eq_some.mp hthis).1
  obtain ⟨wc, hc, hwfc, hobjsc⟩ := enableCallback_wf w this hwf hlt
  have hthisc : wc.objs[this]? = some u := by rw [hobjsc]; exact hthis
  have hltc : this < wc.objs.length := by rw [hobjsc]; exact hlt
  have hsweep : w.enableSweep this sz st sp ty now =
      some { wc with objs := wc.objs.set this (u.enableSweepBody sz st sp ty now).1,
                     trace := wc.trace ++ (u.enableSweepBody sz st sp ty now).2 } := by
    unfold enableSweep call
    simp only [hc, hthisc]
  have htimer : wc.timer = w.timer := by
    rcases enableCallback_spec w this u hwf hthis with ⟨_, h⟩ | ⟨_, _, h⟩ | ⟨_, _, h⟩ <;>
      (rw [Option.some.inj (hc.symm.trans h), enableTimer_eq])
  refine ⟨_, hsweep, wf_of_same hwfc rfl rfl (by simp), htimer,
    List.getElem?_set_self hltc, ?_⟩
  rcases enableCallback_spec w this u hwf hthis with ⟨hfull, h⟩ | ⟨_, hat, h⟩ | ⟨hnf, hno, h⟩
  · left
    refine ⟨Or.inl hfull, ?_⟩
    show wc.entries = w.entries
    rw [Option.some.inj (hc.symm.trans h)]
    exact entries_enableTimer w
  · left
    refine ⟨Or.inr hat, ?_⟩
    show wc.entries = w.entries
    rw [Option.some.inj (hc.symm.trans h)]
    exact entries_enableTimer w
  · right
    refine ⟨hnf, hno, ?_⟩
    show wc.entries = w.entries ++ [some this]
    rw [Option.some.inj (hc.symm.trans h)]
    exact take_set_succ w.callback_servos w.last_servo (some this) hwf.1 hnf

/-- When the caller has exactly one entry in the registry, or the registry is not full and no
registered unit has the control line of the caller, the caller has exactly one entry after
`enableSweep`. -/
theorem enableSweep_registered (w : World) (this : Nat) (u : ServoMotor) (sz st sp : Int)
    (ty : SweepType) (now : Nat) (hwf : w.WF) (hthis : w.objs[this]? = some u)
    (hreg : w.entries.count (some this) = 1 ∨
      (w.last_servo < MAX_SERVOS ∧ w.NoPinIn u.controlPin 0 w.last_servo)) :
    ∃ w1, w.enableSweep this sz st sp ty now = some w1 ∧ w1.WF ∧ w1.timer = w.timer ∧
      w1.objs[this]? = some (u.enableSweepBody sz st sp ty now).1 ∧
      w1.entries.count (some this) = 1 := by
  obtain ⟨w1, h1, hwf1, htm, hobj, hent⟩ := enableSweep_entries w this u sz st sp ty now hwf hthis
  refine ⟨w1, h1, hwf1, htm, hobj, ?_⟩
  rcases hent with ⟨hor, he⟩ | ⟨hnf, hno, he⟩
  · rw [he]
    rcases hreg with honce | ⟨hnf, hno⟩
    · exact honce
    · rcases hor with hfull | ⟨r, hr, hat⟩
      · exact absurd hfull (Nat.ne_of_lt hnf)
      · exact absurd hat (hno r (Nat.zero_le r) hr)
  · have hnot : some this ∉ w.entries := by
      intro hmem
      obtain ⟨j, hj, _, hat⟩ := pinAt_of_mem_entries w this u hthis hmem
      exact hno j (Nat.zero_le j) hj hat
    rw [he, List.count_append, List.count_eq_zero.mpr hnot, List.count_singleton_self]

/-- Every call on an object of the program keeps the registered entries pairwise
different. -/
theorem step_distinct (w : World) (op : Op) (hwf : w.WF) (hunit : op.unit < w.objs.length)
    (hnd : w.entries.Nodup) :
    ∃ w1, w.step op = some w1 ∧ w1.WF ∧ w1.objs.length = w.objs.length ∧
      w1.entries.Nodup := by
  cases op with
  | attach this pin lo hi now =>
    obtain ⟨w1, h1, hwf1, hlen1, hcs, hls, _⟩ := call_wf w this
      (fun s => ((s.attach pin lo hi now).2.1, (s.attach pin lo hi now).2.2)) hwf hunit
    exact ⟨w1, h1, hwf1, hlen1, by rw [entries_of_same hcs hls]; exact hnd⟩
  | enableCallback this =>
    have hu : w.objs[this]? = some (w.objs[this]) := List.getElem?_eq_getElem hunit
    obtain ⟨w1, h1, hwf1, hobjs⟩ := enableCallback_wf w this hwf hunit
    refine ⟨w1, h1, hwf1, by rw [hobjs], ?_⟩
    rcases enableCallback_spec w this _ hwf hu with ⟨_, h⟩ | ⟨_, _, h⟩ | ⟨hnf, hno, h⟩
    · rw [Option.some.inj (h1.symm.trans h), entries_enableTimer]
      exact hnd
    · rw [Option.some.inj (h1.symm.trans h), entries_enableTimer]
      exact hnd
    · have hent : w1.entries = w.entries ++ [some this] := by
        rw [Option.some.inj (h1.symm.trans h)]
        exact take_set_succ w.callback_servos w.last_servo (some this) hwf.1 hnf
      have hnot : some this ∉ w.entries := by
        intro hmem
        obtain ⟨j, hj, _, hat⟩ := pinAt_of_mem_entries w this _ hu hmem
        exact hno j (Nat.zero_le j) hj hat
      rw [hent]
      exact List.nodup_append_comm.mp (List.nodup_cons.mpr ⟨hnot, hnd⟩)
  | disableCallback this =>
    have hu : w.objs[this]? = some (w.objs[this]) := List.getElem?_eq_getElem hunit
    obtain ⟨w1, h1, hwf1, hobjs⟩ := disableCallback_wf w this hwf hunit
    refine ⟨w1, h1, hwf1, by rw [hobjs], ?_⟩
    rcases disableCallback_spec w this _ hwf hu with ⟨_, h⟩ | ⟨r, hr, _, _, h⟩
    · rw [Option.some.inj (h1.symm.trans h)]
      exact hnd
    · rw [Option.some.inj (h1.symm.trans h), entries_dropped w r hwf hr]
      exact List.Nodup.sublist (List.eraseIdx_sublist _ _) hnd
  | enableSweep this sz st sp ty now =>
    have hu : w.objs[this]? = some (w.objs[this]) := List.getElem?_eq_getElem hunit
    obtain ⟨w1, h1, hwf1, hlen1⟩ := step_wf w (Op.enableSweep this sz st sp ty now) hwf hunit
    obtain ⟨w2, h2, _, _, _, hent⟩ := enableSweep_entries w this _ sz st sp ty now hwf hu
    have hw : w1 = w2 := Option.some.inj (h1.symm.trans h2)
    refine ⟨w1, h1, hwf1, hlen1, ?_⟩
    rw [hw]
    rcases hent with ⟨_, he⟩ | ⟨_, hno, he⟩
    · rw [he]
      exact hnd
    · have hnot : some this ∉ w.entries := by
        intro hmem
        obtain ⟨j, hj, _, hat⟩ := pinAt_of_mem_entries w this _ hu hmem
        exact hno j (Nat.zero_le j) hj hat
      rw [he]
      exact List.nodup_append_comm.mp (List.nodup_cons.mpr ⟨hnot, hnd⟩)

/-- In every state reached from the start of the program by calls on objects of the program,
the registry is well formed and its entries are pairwise different. -/
theorem run_distinct (ops : List Op) :
    ∀ (w : World), w.WF → w.entries.Nodup → (∀ op ∈ ops, op.unit < w.objs.length) →
      ∃ wN, w.run ops = some wN ∧ wN.WF ∧ wN.entries.Nodup := by
  induction ops with
  | nil => intro w hwf hnd _; exact ⟨w, rfl, hwf, hnd⟩
  | cons op rest ih =>
    intro w hwf hnd hunits
    obtain ⟨w1, h1, hwf1, hlen1, hnd1⟩ := step_distinct w op hwf
      (hunits op (List.mem_cons_self _ _)) hnd
    obtain ⟨wN, hN, hwfN, hndN⟩ := ih w1 hwf1 hnd1
      (fun o ho => by rw [hlen1]; exact hunits o (List.mem_cons_of_mem _ ho))
    refine ⟨wN, ?_, hwfN, hndN⟩
    show (match w.step op with
      | some w1 => run w1 rest
      | none => none) = some wN
    rw [h1]
    exact hN

end World

namespace ServoMotor

/-- The unit left by `enableSweep(step, start, stop, Single)` is running a `Single` sweep
from `start`. -/
theorem single_body_running (u : ServoMotor) (step start stop now0 : Nat)
    (h255 : u.highConstraint ≤ 255)
    (hstart : u.lowConstraint ≤ start ∧ start ≤ u.highConstraint)
    (hstop : u.lowConstraint ≤ stop ∧ stop ≤ u.highConstraint)
    (hstep : 1 ≤ step ∧ step ≤ 255) :
    (u.enableSweepBody (step : Int) (start : Int) (stop : Int) SweepType.Single now0).1.Running
      start stop step ((stop - start) + (start - stop)) ∧
    (u.enableSweepBody (step : Int) (start : Int) (stop : Int) SweepType.Single
      now0).1.currAngle = (start : Int) := by
  obtain ⟨p, hp⟩ := enableSweepBody_fst u step start stop SweepType.Single now0 h255
    hstep.2 hstart.1 hstart.2 hstop.1 hstop.2
  rw [hp]
  refine ⟨⟨⟨rfl, rfl, rfl, rfl, rfl, hstart.1, hstart.2, hstop.1, hstop.2, h255, hstep.1,
    hstep.2⟩, rfl, fun h => ⟨le_refl _, ?_, ?_⟩, fun h => ⟨?_, le_refl _, ?_⟩⟩, rfl⟩
  · show (start : Int) ≤ (stop : Int)
    omega
  · show (stop : Int) - (start : Int) ≤ ((stop - start + (start - stop) : Nat) : Int)
    omega
  · show (stop : Int) ≤ (start : Int)
    omega
  · show (start : Int) - (stop : Int) ≤ ((stop - start + (start - stop) : Nat) : Int)
    omega

end ServoMotor

namespace World

/-- Claim C9 as stated fails: in the example state the registry is full, so
`enableSweep(10, 0, 180, Single)` on the fifth unit (attached, bounds `0..180`) does not
register it. Whatever the succession of runs of the interrupt handler, the unit is still
sweeping with `read() = 0` afterwards, and there are successions with any number of dispatcher
ticks. -/
theorem single_sweep_unregistered_stays :
    (fourRegistered.objs[4]?).map
      (fun u => (u.isAttached, u.lowConstraint, u.highConstraint)) = some (true, 0, 180) ∧
    ∃ w1, fourRegistered.enableSweep 4 10 0 180 SweepType.Single 50 = some w1 ∧
      (∀ nows : List Nat, ∃ wN uN, w1.dispatch nows = some wN ∧ wN.objs[4]? = some uN ∧
        uN.isSweeping = true ∧ uN.read = 0) ∧
      (∀ N : Nat, ∃ nows : List Nat, N ≤ (firedFrom w1.timer nows).length) := by
  refine ⟨by decide, ?_⟩
  obtain ⟨w1, h1, hwf1, _, hobj, hent⟩ := enableSweep_entries fourRegistered 4
    (ServoMotor.zeroed.attach 6 0 180 0).2.1 10 0 180 SweepType.Single 50 fourRegistered_wf
    (by decide)
  have hentries : w1.entries = fourRegistered.entries := by
    rcases hent with ⟨_, he⟩ | ⟨hnf, _, _⟩
    · exact he
    · exact absurd hnf (by decide)
  refine ⟨w1, h1, fun nows => ?_, fun N => ⟨spaced w1.timer N, by rw [fired_spaced]⟩⟩
  obtain ⟨wN, hN, hobjN⟩ := dispatch_unregistered 4 nows w1 hwf1
    (by rw [hentries]; decide)
  exact ⟨wN, _, hN, by rw [hobjN, hobj], by decide, by decide⟩

/-- Claim C9 as amended: on a well-formed registry, for an attached
unit with bounds `low ≤ high` (at most `255`, the range of `uint8_t`), every
`start` and `stop` in `[low, high]` and every step in `1..255`, when the unit has exactly
one entry in the registry, or the registry is not full and no registered unit has the
control line of the unit, `enableSweep(step, start, stop, Single)` returns, and there is an `N` such that after
every succession of runs of the interrupt handler of which at least `N` execute their body
(dispatcher ticks) the succession returns, `isSweeping()` is `false` and `read()` is exactly
`stop`. For bounds `0..180`, `start = 0`, `stop = 180` and `step = 10` this holds with
`N = 19`, and after `n ≤ 18` dispatcher ticks the unit is still sweeping with
`read() = 10 * n`. -/
theorem single_sweep_lands (w : World) (this : Nat) (u : ServoMotor) (step start stop now0 : Nat)
    (hwf : w.WF) (hthis : w.objs[this]? = some u)
    (_hatt : u.isAttached = true)
    (_hbounds : u.lowConstraint ≤ u.highConstraint) (h255 : u.highConstraint ≤ 255)
    (hstart : u.lowConstraint ≤ start ∧ start ≤ u.highConstraint)
    (hstop : u.lowConstraint ≤ stop ∧ stop ≤ u.highConstraint)
    (hstep : 1 ≤ step ∧ step ≤ 255)
    (hreg : w.entries.count (some this) = 1 ∨
      (w.last_servo < MAX_SERVOS ∧ w.NoPinIn u.controlPin 0 w.last_servo)) :
    ∃ w1 u1,
      w.enableSweep this (step : Int) (start : Int) (stop : Int) SweepType.Single now0 = some w1 ∧
      w1.objs[this]? = some u1 ∧ w1.timer = w.timer ∧
      u1.isSweeping = true ∧ u1.read = (start : Int) ∧
      (∃ N, ∀ nows : List Nat, N ≤ (firedFrom w1.timer nows).length →
        ∃ wN uN, w1.dispatch nows = some wN ∧ wN.objs[this]? = some uN ∧
          uN.isSweeping = false ∧ uN.read = (stop : Int)) ∧
      (u.lowConstraint = 0 → u.highConstraint = 180 → start = 0 → stop = 180 → step = 10 →
        ∀ nows : List Nat,
          ∃ wN uN, w1.dispatch nows = some wN ∧ wN.objs[this]? = some uN ∧
            (19 ≤ (firedFrom w1.timer nows).length →
              uN.isSweeping = false ∧ uN.read = 180) ∧
            ((firedFrom w1.timer nows).length ≤ 18 →
              uN.isSweeping = true ∧
              uN.read = 10 * ((firedFrom w1.timer nows).length : Int))) := by
  obtain ⟨w1, h1, hwf1, htm, hobj, honce1⟩ := enableSweep_registered w this u (step : Int)
    (start : Int) (stop : Int) SweepType.Single now0 hwf hthis hreg
  obtain ⟨hrun, hangle⟩ := ServoMotor.single_body_running u step start stop now0 h255 hstart
    hstop hstep
  refine ⟨w1, _, h1, hobj, htm, hrun.2.1, hangle, ⟨(stop - start) + (start - stop) + 1, ?_⟩, ?_⟩
  · intro nows hlen
    obtain ⟨wN, hN, hobjN, _, _⟩ := dispatch_registered this nows w1 _ hwf1 honce1 hobj
    obtain ⟨_, hm, ha⟩ := ServoMotor.running_ticks (firedFrom w1.timer nows) hrun hlen
    exact ⟨wN, _, hN, hobjN, hm, ha⟩
  · intro hlo hhi hs0 hs180 hs10 nows
    subst hs0 hs180 hs10
    obtain ⟨wN, hN, hobjN, _, _⟩ := dispatch_registered this nows w1 _ hwf1 honce1 hobj
    have h := ServoMotor.single_0_180_10_ticks (firedFrom w1.timer nows) _ 0 hrun.1 hrun.2.1
      (by rw [hangle]; simp) (by omega)
    refine ⟨wN, _, hN, hobjN, fun hlen => ?_, fun hlen => ?_⟩
    · obtain ⟨_, hm, ha⟩ := h.1 (by omega)
      exact ⟨hm, ha⟩
    · obtain ⟨hm, ha⟩ := h.2 (by omega)
      refine ⟨hm, ?_⟩
      simp only [ServoMotor.read, ha, Nat.zero_add]

/-- Witness of C9 as amended: in the example with two attached units and an empty registry,
the second unit is swept from `0` to `180` by `10`; after 19 dispatcher ticks (and one run of
the handler that comes too early to execute) it has landed on `180`, after 3 it is at `30`. -/
theorem single_sweep_lands_witness :
    twoAttached.WF ∧
    twoAttached.objs[1]? = some (ServoMotor.zeroed.attach 10 0 180 0).2.1 ∧
    (ServoMotor.zeroed.attach 10 0 180 0).2.1.isAttached = true ∧
    twoAttached.last_servo < MAX_SERVOS ∧
    ∃ w1,
      twoAttached.enableSweep 1 ((10 : Nat) : Int) ((0 : Nat) : Int) ((180 : Nat) : Int)
        SweepType.Single 50 = some w1 ∧
      (∃ wN uN,
        w1.dispatch [100, 200, 210, 300, 400, 500, 600, 700, 800, 900, 1000, 1100, 1200, 1300,
          1400, 1500, 1600, 1700, 1800, 1900] = some wN ∧
        wN.objs[1]? = some uN ∧ uN.isSweeping = false ∧ uN.read = 180) ∧
      (∃ wN uN, w1.dispatch [100, 110, 200, 300] = some wN ∧ wN.objs[1]? = some uN ∧
        uN.isSweeping = true ∧ uN.read = 30) := by
  obtain ⟨w1, u1, h1, _, htm, _, _, _, hconc⟩ :=
    single_sweep_lands twoAttached 1 (ServoMotor.zeroed.attach 10 0 180 0).2.1 10 0 180 50
      (start_wf _ _ _) rfl (by decide) (by decide) (by decide) (by decide)
      (by decide) (by decide)
      (Or.inr ⟨by decide, fun j _ hj => absurd hj (Nat.not_lt_zero j)⟩)
  have ht : w1.timer = 0 := htm
  have hc := hconc (by decide) (by decide) rfl rfl rfl
  refine ⟨start_wf _ _ _, rfl, by decide, by decide, w1, h1, ?_, ?_⟩
  · obtain ⟨wN, uN, hd, ho, h19, _⟩ := hc [100, 200, 210, 300, 400, 500, 600, 700, 800, 900,
      1000, 1100, 1200, 1300, 1400, 1500, 1600, 1700, 1800, 1900]
    rw [ht] at h19
    exact ⟨wN, uN, hd, ho, (h19 (by decide)).1, (h19 (by decide)).2⟩
  · obtain ⟨wN, uN, hd, ho, _, h18⟩ := hc [100, 110, 200, 300]
    rw [ht] at h18
    exact ⟨wN, uN, hd, ho, (h18 (by decide)).1, (h18 (by decide)).2.trans (by decide)⟩

end World

namespace ServoMotor

/-- The unit left by `enableSweep(step, 0, 180, Reverse)` on bounds `0..180` is in a `Reverse`
sweep at the angle `0`, clockwise. -/
theorem reverse_body_run (u : ServoMotor) (step now0 : Nat) (hlow : u.lowConstraint = 0)
    (hhigh : u.highConstraint = 180) (hstep : step ≤ 255) :
    (u.enableSweepBody (step : Int) 0 180 SweepType.Reverse now0).1.ReverseRun step ∧
    (u.enableSweepBody (step : Int) 0 180 SweepType.Reverse now0).1.currAngle = 0 ∧
    (u.enableSweepBody (step : Int) 0 180 SweepType.Reverse now0).1.sweepClockwise = true := by
  obtain ⟨p, hp⟩ := enableSweepBody_fst u step 0 180 SweepType.Reverse now0
    (by omega) hstep (by omega) (by omega) (by omega) (by omega)
  simp only [Nat.cast_zero, Nat.cast_ofNat] at hp
  rw [hp]
  exact ⟨⟨rfl, rfl, rfl, rfl, hlow, hhigh, rfl, le_refl _, (by norm_num : (0 : Int) ≤ 180)⟩,
    rfl, rfl⟩

/-- The angle after one service of a unit in a `Reverse` sweep between `0` and `180`: the
advanced angle clamped into `0..180`. -/
theorem tick_reverse_read {v : ServoMotor} {step : Nat} (h : v.ReverseRun step)
    (hstep : step ≤ 255) (now : Nat) : (v.tick now).1.read = clamp v.advanced 0 180 := by
  obtain ⟨q, hq⟩ := tick_reverse h hstep now
  rw [hq]
  unfold read clamp
  show (if 180 < v.advanced then 180 else if v.advanced < 0 then 0 else v.advanced) =
    max 0 (min v.advanced 180)
  split_ifs with h1 h2
  · rw [min_eq_right (le_of_lt h1), max_eq_right (by norm_num)]
  · rw [min_eq_left (by omega), max_eq_left (le_of_lt h2)]
  · rw [min_eq_left (by omega), max_eq_right (by omega)]

/-- One service keeps a unit in its `Reverse` sweep between `0` and `180`. -/
theorem reverseRun_tick {v : ServoMotor} {step : Nat} (h : v.ReverseRun step)
    (hstep : step ≤ 255) (now : Nat) : (v.tick now).1.ReverseRun step :=
  reverseRun_ticks hstep [now] h

/-- The unit left by `enableSweep(step, start, stop, SkipReverse)` with `start < stop` inside
the bounds is in a `SkipReverse` sweep at the angle `start`. -/
theorem skip_body_run (u : ServoMotor) (step start stop now0 : Nat)
    (h255 : u.highConstraint ≤ 255) (hstart : u.lowConstraint ≤ start) (hlt : start < stop)
    (hstop : stop ≤ u.highConstraint) (hstep : 1 ≤ step ∧ step ≤ 255) :
    (u.enableSweepBody (step : Int) (start : Int) (stop : Int) SweepType.SkipReverse
      now0).1.SkipRun start stop step ∧
    (u.enableSweepBody (step : Int) (start : Int) (stop : Int) SweepType.SkipReverse
      now0).1.currAngle = (start : Int) := by
  obtain ⟨p, hp⟩ := enableSweepBody_fst u step start stop SweepType.SkipReverse now0
    h255 hstep.2 hstart (by omega) (by omega) hstop
  rw [hp]
  exact ⟨⟨rfl, rfl, rfl, rfl, decide_eq_true hlt, hstart, hlt, hstop, h255, hstep.1, hstep.2,
    rfl, le_refl _, (by exact_mod_cast le_of_lt hlt : (start : Int) ≤ (stop : Int))⟩, rfl⟩

end ServoMotor

namespace World

/-- Claim C10 as stated fails: in the example state the registry is full, so `enableSweep` in
`Reverse` on the fifth unit (attached, bounds `0..180`) does not register it, and the
dispatcher never services it. With step `200` the advanced angle `200` exceeds `180` at the
first dispatcher tick, yet the direction stays clockwise; with step `10` the angle is still
`0` after three dispatcher ticks. -/
theorem reverse_sweep_unregistered_stays :
    (fourRegistered.objs[4]?).map
      (fun u => (u.isAttached, u.lowConstraint, u.highConstraint)) = some (true, 0, 180) ∧
    (fourRegistered.enableSweep 4 200 0 180 SweepType.Reverse 50).map
      (fun w => (w.objs[4]?).map (fun u => (u.advanced, u.sweepClockwise, u.read))) =
      some (some (200, true, 0)) ∧
    ((fourRegistered.enableSweep 4 200 0 180 SweepType.Reverse 50).bind
      (fun w => w.ISR_TIMER2_OVF 100)).map
      (fun w => (w.timer, (w.objs[4]?).map (fun u => (u.sweepClockwise, u.read)))) =
      some (100, some (true, 0)) ∧
    ((fourRegistered.enableSweep 4 10 0 180 SweepType.Reverse 50).bind
      (fun w => w.dispatch [100, 200, 300])).map
      (fun w => (w.timer, (w.objs[4]?).map (fun u => (u.sweepClockwise, u.read)))) =
      some (300, some (true, 0)) :=
  ⟨by decide, by decide, by decide, by decide⟩

/-- Claim C10 as amended: on a well-formed registry, for an attached
unit with bounds `0..180` and every step in `1..255`, when the unit has exactly
one entry in the registry, or the registry is not full and no registered unit has the
control line of the unit, `enableSweep(step, 0, 180, Reverse)` returns with the unit sweeping clockwise at `0`.
After every succession of runs of the interrupt handler `isSweeping()` is `true` and
`0 ≤ read() ≤ 180`; at the next run that executes its body (dispatcher tick) `read()` becomes
the advanced angle clamped into `0..180`, and the direction becomes counter-clockwise when the
advanced angle exceeds `180`, clockwise when it is below `0`, and is unchanged otherwise. -/
theorem reverse_sweep_oscillates (w : World) (this : Nat) (u : ServoMotor) (step now0 : Nat)
    (hwf : w.WF) (hthis : w.objs[this]? = some u)
    (_hatt : u.isAttached = true)
    (hlow : u.lowConstraint = 0) (hhigh : u.highConstraint = 180)
    (hstep : 1 ≤ step ∧ step ≤ 255)
    (hreg : w.entries.count (some this) = 1 ∨
      (w.last_servo < MAX_SERVOS ∧ w.NoPinIn u.controlPin 0 w.last_servo)) :
    ∃ w1 u1,
      w.enableSweep this (step : Int) 0 180 SweepType.Reverse now0 = some w1 ∧
      w1.objs[this]? = some u1 ∧ w1.timer = w.timer ∧
      u1.isSweeping = true ∧ u1.read = 0 ∧ u1.sweepClockwise = true ∧
      ∀ nows : List Nat,
        ∃ wN uN, w1.dispatch nows = some wN ∧ wN.objs[this]? = some uN ∧
          uN = u1.ticks (firedFrom w1.timer nows) ∧
          uN.isSweeping = true ∧ 0 ≤ uN.read ∧ uN.read ≤ 180 ∧ uN.sweepStepSize = step ∧
          ∀ now : Nat, DELAY < ulongSub now wN.timer →
            ∃ wM uM, wN.ISR_TIMER2_OVF now = some wM ∧ wM.objs[this]? = some uM ∧
              uM.isSweeping = true ∧ uM.read = clamp uN.advanced 0 180 ∧
              (180 < uN.advanced → uM.sweepClockwise = false) ∧
              (uN.advanced < 0 → uM.sweepClockwise = true) ∧
              (0 ≤ uN.advanced → uN.advanced ≤ 180 →
                uM.sweepClockwise = uN.sweepClockwise) := by
  obtain ⟨w1, h1, hwf1, htm, hobj, honce1⟩ := enableSweep_registered w this u (step : Int)
    0 180 SweepType.Reverse now0 hwf hthis hreg
  obtain ⟨hrun, hangle, hcw⟩ := ServoMotor.reverse_body_run u step now0 hlow hhigh hstep.2
  refine ⟨w1, _, h1, hobj, htm, hrun.2.2.2.2.2.2.1, hangle, hcw, fun nows => ?_⟩
  obtain ⟨wN, hN, hobjN, hwfN, hentN⟩ := dispatch_registered this nows w1 _ hwf1 honce1 hobj
  have hinv := ServoMotor.reverseRun_ticks hstep.2 (firedFrom w1.timer nows) hrun
  have hinv0 := hinv
  obtain ⟨_, _, _, hsz, _, _, hm, ha0, ha1⟩ := hinv0
  refine ⟨wN, _, hN, hobjN, rfl, hm, ha0, ha1, hsz, fun now hfire => ?_⟩
  obtain ⟨wM, hM, hobjM, _⟩ := isr_registered wN this now _ hwfN
    (by rw [hentN]; exact honce1) hobjN hfire
  have hdir := ServoMotor.tick_reverse_direction hinv hstep.2 now
  exact ⟨wM, _, hM, hobjM, (ServoMotor.reverseRun_tick hinv hstep.2 now).2.2.2.2.2.2.1,
    ServoMotor.tick_reverse_read hinv hstep.2 now, hdir.1, hdir.2.1, hdir.2.2⟩

/-- Witness of C10 as amended: in the example with two attached units and an empty registry,
the second unit is swept in `Reverse` by `70`; over five dispatcher ticks its angle and
direction are `70`, `140`, `180` (now counter-clockwise), `110`, `40`. -/
theorem reverse_sweep_oscillates_witness :
    twoAttached.WF ∧
    twoAttached.objs[1]? = some (ServoMotor.zeroed.attach 10 0 180 0).2.1 ∧
    (ServoMotor.zeroed.attach 10 0 180 0).2.1.isAttached = true ∧
    twoAttached.last_servo < MAX_SERVOS ∧
    (∃ w1,
      twoAttached.enableSweep 1 ((70 : Nat) : Int) 0 180 SweepType.Reverse 50 = some w1 ∧
      ∃ wN uN, w1.dispatch [100, 200, 300] = some wN ∧ wN.objs[1]? = some uN ∧
        uN.isSweeping = true ∧ 0 ≤ uN.read ∧ uN.read ≤ 180) ∧
    [[100], [100, 200], [100, 200, 300], [100, 200, 300, 400],
      [100, 200, 300, 400, 500]].map
      (fun nows =>
        ((twoAttached.enableSweep 1 70 0 180 SweepType.Reverse 50).bind
          (fun w => w.dispatch nows)).bind
          (fun w => (w.objs[1]?).map (fun u => (u.read, u.sweepClockwise)))) =
      [some (70, true), some (140, true), some (180, false), some (110, false),
        some (40, false)] := by
  obtain ⟨w1, u1, h1, _, _, _, _, _, hall⟩ :=
    reverse_sweep_oscillates twoAttached 1 (ServoMotor.zeroed.attach 10 0 180 0).2.1 70 50
      (start_wf _ _ _) rfl (by decide) (by decide) (by decide) (by decide)
      (Or.inr ⟨by decide, fun j _ hj => absurd hj (Nat.not_lt_zero j)⟩)
  obtain ⟨wN, uN, hd, ho, _, hm, ha0, ha1, _⟩ := hall [100, 200, 300]
  exact ⟨start_wf _ _ _, rfl, by decide, by decide,
    ⟨w1, h1, wN, uN, hd, ho, hm, ha0, ha1⟩, by decide⟩

/-- Claim C11 as stated fails: in the example state the registry is full, so
`enableSweep(50, 20, 160, SkipReverse)` on the fifth unit (attached, bounds `0..180`) does not
register it: at the next dispatcher tick its angle `20` stays `20`, although `20 + 50 ≤ 160`. -/
theorem skip_reverse_unregistered_stays :
    (fourRegistered.objs[4]?).map
      (fun u => (u.isAttached, u.lowConstraint, u.highConstraint)) = some (true, 0, 180) ∧
    (fourRegistered.enableSweep 4 50 20 160 SweepType.SkipReverse 50).map
      (fun w => (w.timer, (w.objs[4]?).map (fun u => (u.isSweeping, u.read)))) =
      some (0, some (true, 20)) ∧
    ((fourRegistered.enableSweep 4 50 20 160 SweepType.SkipReverse 50).bind
      (fun w => w.ISR_TIMER2_OVF 100)).map
      (fun w => (w.timer, (w.objs[4]?).map (fun u => (u.isSweeping, u.read)))) =
      some (100, some (true, 20)) :=
  ⟨by decide, by decide, by decide⟩

/-- Claim C11 as amended: on a well-formed registry, for an attached
unit with bounds `low ≤ high` (at most `255`, the range of `uint8_t`), every
`low ≤ start < stop ≤ high` and every step in `1..255`, when the unit has exactly one
entry in the registry, or the registry is not full and no registered unit has the control line of the unit,
`enableSweep(step, start, stop, SkipReverse)` returns with the unit sweeping at `start`. After
every succession of runs of the interrupt handler `isSweeping()` is `true` and `read()` is
inside `[start, stop]`; the next run that executes its body (dispatcher tick) takes the angle
`a` to `a + step` if `a + step ≤ stop` and to exactly `start` otherwise, and the unit keeps
sweeping. -/
theorem skip_reverse_sawtooth (w : World) (this : Nat) (u : ServoMotor)
    (step start stop now0 : Nat)
    (hwf : w.WF) (hthis : w.objs[this]? = some u)
    (_hatt : u.isAttached = true)
    (_hbounds : u.lowConstraint ≤ u.highConstraint) (h255 : u.highConstraint ≤ 255)
    (hstart : u.lowConstraint ≤ start) (hlt : start < stop) (hstop : stop ≤ u.highConstraint)
    (hstep : 1 ≤ step ∧ step ≤ 255)
    (hreg : w.entries.count (some this) = 1 ∨
      (w.last_servo < MAX_SERVOS ∧ w.NoPinIn u.controlPin 0 w.last_servo)) :
    ∃ w1 u1,
      w.enableSweep this (step : Int) (start : Int) (stop : Int) SweepType.SkipReverse now0 =
        some w1 ∧
      w1.objs[this]? = some u1 ∧ w1.timer = w.timer ∧
      u1.isSweeping = true ∧ u1.read = (start : Int) ∧
      ∀ nows : List Nat,
        ∃ wN uN, w1.dispatch nows = some wN ∧ wN.objs[this]? = some uN ∧
          uN = u1.ticks (firedFrom w1.timer nows) ∧
          uN.isSweeping = true ∧ (start : Int) ≤ uN.read ∧ uN.read ≤ (stop : Int) ∧
          ∀ now : Nat, DELAY < ulongSub now wN.timer →
            ∃ wM uM, wN.ISR_TIMER2_OVF now = some wM ∧ wM.objs[this]? = some uM ∧
              uM.isSweeping = true ∧
              (uN.read + (step : Int) ≤ (stop : Int) → uM.read = uN.read + (step : Int)) ∧
              ((stop : Int) < uN.read + (step : Int) → uM.read = (start : Int)) := by
  obtain ⟨w1, h1, hwf1, htm, hobj, honce1⟩ := enableSweep_registered w this u (step : Int)
    (start : Int) (stop : Int) SweepType.SkipReverse now0 hwf hthis hreg
  obtain ⟨hrun, hangle⟩ := ServoMotor.skip_body_run u step start stop now0 h255 hstart hlt
    hstop hstep
  refine ⟨w1, _, h1, hobj, htm, hrun.2.2.2.2.2.2.2.2.2.2.2.1, hangle, fun nows => ?_⟩
  obtain ⟨wN, hN, hobjN, hwfN, hentN⟩ := dispatch_registered this nows w1 _ hwf1 honce1 hobj
  have hinv := ServoMotor.skipRun_ticks (firedFrom w1.timer nows) hrun
  have hinv0 := hinv
  obtain ⟨_, _, _, _, _, _, _, _, _, _, _, hm, ha0, ha1⟩ := hinv0
  refine ⟨wN, _, hN, hobjN, rfl, hm, ha0, ha1, fun now hfire => ?_⟩
  obtain ⟨wM, hM, hobjM, _⟩ := isr_registered wN this now _ hwfN
    (by rw [hentN]; exact honce1) hobjN hfire
  have hnext := ServoMotor.tick_skip_read hinv now
  exact ⟨wM, _, hM, hobjM,
    (ServoMotor.skipRun_ticks [now] hinv).2.2.2.2.2.2.2.2.2.2.2.1, hnext.1, hnext.2⟩

/-- Witness of C11 as amended: in the example with two attached units and an empty registry,
the second unit is swept in `SkipReverse` from `20` to `160` by `50`; over four dispatcher
ticks its angle is `70`, `120`, back to `20`, `70`. -/
theorem skip_reverse_sawtooth_witness :
    twoAttached.WF ∧
    twoAttached.objs[1]? = some (ServoMotor.zeroed.attach 10 0 180 0).2.1 ∧
    (ServoMotor.zeroed.attach 10 0 180 0).2.1.isAttached = true ∧
    twoAttached.last_servo < MAX_SERVOS ∧
    (∃ w1,
      twoAttached.enableSweep 1 ((50 : Nat) : Int) ((20 : Nat) : Int) ((160 : Nat) : Int)
        SweepType.SkipReverse 50 = some w1 ∧
      ∃ wN uN, w1.dispatch [100, 200, 300] = some wN ∧ wN.objs[1]? = some uN ∧
        uN.isSweeping = true ∧ 20 ≤ uN.read ∧ uN.read ≤ 160) ∧
    [[100], [100, 200], [100, 200, 300], [100, 200, 300, 400]].map
      (fun nows =>
        ((twoAttached.enableSweep 1 50 20 160 SweepType.SkipReverse 50).bind
          (fun w => w.dispatch nows)).bind
          (fun w => (w.objs[1]?).map (fun u => (u.read, u.isSweeping)))) =
      [some (70, true), some (120, true), some (20, true), some (70, true)] := by
  obtain ⟨w1, u1, h1, _, _, _, _, hall⟩ :=
    skip_reverse_sawtooth twoAttached 1 (ServoMotor.zeroed.attach 10 0 180 0).2.1 50 20 160 50
      (start_wf _ _ _) rfl (by decide) (by decide) (by decide) (by decide)
      (by decide) (by decide) (by decide)
      (Or.inr ⟨by decide, fun j _ hj => absurd hj (Nat.not_lt_zero j)⟩)
  obtain ⟨wN, uN, hd, ho, _, hm, ha0, ha1, _⟩ := hall [100, 200, 300]
  exact ⟨start_wf _ _ _, rfl, by decide, by decide,
    ⟨w1, h1, wN, uN, hd, ho, hm, ha0, ha1⟩, by decide⟩

end World

end Servo
